import Mathlib

/-!
# Effects Lab: the effect lifecycle manager of `app.js`

A shallow embedding of the modal runner of `src/app.js`:

* the global `activeEffect`, the `$sandbox` container, the `$modal` dialog and the
  `iridescentBg` background object become the fields of `World`;
* `openDemo` is split at its single `await` into `openDemoStart` and `openDemoResume`,
  so that both the sequential reading (`openDemo`) and the interleaved one
  (`Config.step`) are available;
* the listener of the dialog's `close` event is `closeListener`, the handler of the
  close button (`$modal.close()`) is `closeModal`.

The manager never looks inside an effect.  What the manager can observe of a call into an
effect is whether the call returns or throws and what it leaves in the container, and
that is what an `Effect` records.  Every call into an effect is logged in
`World.trace`, a ghost field used to state the ordering properties.

The five text nodes of the modal header (`$title`, `$metaType`, `$metaTags`,
`$metaLoad`, `$explain`) are written by `openDemo` and read by nothing in the
lifecycle; `World` does not carry them.

The tag normalizer (`techFromType`, `TAG_ALIASES`, `normalizeTags`) and the filter of
`renderGrid` are embedded on descriptors whose `type` is a string and whose `tags` is
an array of strings, as all registry entries are.  The filter returns in `Except`:
its callback can throw.  `toLowerCase` maps every character whose lowercase form
holds an ASCII character (`A` to `Z`, U+212A, U+0130) as the host does and keeps the
others; the order of the tests of `techFromType` is also stated for an arbitrary
lowercasing function (`techFromTypeWith`).

Three further parts follow the same source:

* `normalizeTagsJs` reads a descriptor as a JavaScript value, whose `type` and `tags`
  may be missing, `null` or of another kind, and `normalizeTagsOn` runs the same code
  on a heap of arrays, to state which arrays a call creates and which it leaves alone;
* `EFFECTS` is the registry in source order with the fields of each object literal, and
  `EffectObject` is an effect object with its `_cleanup` slot, as `init` and
  `teardown` use it;
* `runWorker` is the sieve of the worker of `effectWorkerPrimes`, `fallback` the sieve
  of the main thread cut into slices, with the answers of the time tests supplied as
  data.  Cells hold `0` or `1`; the counters are natural numbers, the input of the
  worker goes through `toInt32` as `e.data.max|0` does.
-/

namespace EffectsLab

/-! ## Data model -/

/-- Outcome of one call into an effect, as seen by the caller. -/
inductive Behaviour
  | returns
  | throws
  deriving DecidableEq, Repr

/-- An entry of the registry `EFFECTS`, seen from the manager.
`load` and `teardown` are reached through optional calls (`effect.load?.()`,
`activeEffect?.teardown?.()`), so either method may be absent (`none`).
For `load`, `throws` stands for a promise that rejects.
`markup` is what `init(container)` puts into the container, `initReplaces` tells
whether it does so by assigning `container.innerHTML` (replacing what is there) or by
`container.appendChild` (adding to it), `cleanupClears` tells whether `teardown`
empties the container (some cleanups end in `container.innerHTML=""`, others only
remove listeners).  An effect behaves the same way on every call. -/
structure Effect where
  id : String
  name : String
  type : String
  tags : List String
  perf : String
  description : Option String := none
  load : Option Behaviour
  init : Behaviour
  teardown : Option Behaviour
  markup : List String
  initReplaces : Bool
  cleanupClears : Bool
  deriving DecidableEq, Repr

/-- Calls into effects, in the order the manager makes them.
`loadStart` is the call `effect.load()`, `loadEnd` the resumption of `openDemo` after
the awaited promise resolved, `loadRejected` its resumption by a rejection. -/
inductive Event
  | teardown (e : Effect)
  | loadStart (e : Effect)
  | loadEnd (e : Effect)
  | loadRejected (e : Effect)
  | init (e : Effect)
  deriving DecidableEq, Repr

/-- How a run of `openDemo` or of the close listener ends: normally, or by the
exception of the named call, which nothing in `app.js` catches. -/
inductive Completion
  | normal
  | teardownThrew
  | loadRejected
  | initThrew
  deriving DecidableEq, Repr

/-- The mutable state the lifecycle code works on.
`activeEffect` is the global of that name (`null` is `none`), `sandbox` the children
of `$sandbox`, `modalOpen` is `$modal.open`, `iridescentBg` tells whether the
background object exists. -/
structure World where
  activeEffect : Option Effect
  sandbox : List String
  modalOpen : Bool
  iridescentBg : Bool
  trace : List Event
  deriving DecidableEq, Repr

/-- State once the page has loaded: `let activeEffect = null`, an empty sandbox, a
closed dialog, and the background started by the `DOMContentLoaded` handler. -/
def World.initial : World :=
  { activeEffect := none, sandbox := [], modalOpen := false, iridescentBg := true,
    trace := [] }

/-! ## The lifecycle code -/

/-- The statement `activeEffect?.teardown?.();`.
Nothing happens when `activeEffect` is `null` or has no `teardown`.  Otherwise the
call is logged, the cleanup does its write to the container, and the call returns or
throws. -/
def callActiveTeardown (w : World) : Completion × World :=
  match w.activeEffect with
  | none => (Completion.normal, w)
  | some e =>
    match e.teardown with
    | none => (Completion.normal, w)
    | some b =>
      let w1 : World :=
        { w with trace := w.trace ++ [Event.teardown e],
                 sandbox := if e.cleanupClears then [] else w.sandbox }
      match b with
      | Behaviour.returns => (Completion.normal, w1)
      | Behaviour.throws => (Completion.teardownThrew, w1)

/-- The function `startIridescentBackground`: guarded, starts the background once. -/
def startIridescentBackground (w : World) : World :=
  if w.iridescentBg then w else { w with iridescentBg := true }

/-- The part of `openDemo` that runs synchronously, up to and including the call
`effect.load?.()` whose result is awaited:
destroy the background, tear the active effect down, empty the sandbox, open the
dialog, call `load`.  An exception of `teardown` ends the function at that line. -/
def openDemoStart (effect : Effect) (w : World) : Completion × World :=
  match callActiveTeardown { w with iridescentBg := false } with
  | (Completion.normal, w1) =>
    let w2 : World := { w1 with sandbox := [], modalOpen := true }
    match effect.load with
    | none => (Completion.normal, w2)
    | some _ => (Completion.normal, { w2 with trace := w2.trace ++ [Event.loadStart effect] })
  | (c, w1) => (c, w1)

/-- The part of `openDemo` after the `await`: on a rejection the function ends;
otherwise `effect.init($sandbox)` is called (logged, with its write to the container)
and, if it returns, `activeEffect = effect` is executed. -/
def openDemoResume (effect : Effect) (w : World) : Completion × World :=
  match effect.load with
  | some Behaviour.throws =>
    (Completion.loadRejected, { w with trace := w.trace ++ [Event.loadRejected effect] })
  | l =>
    let w1 : World :=
      { w with trace := w.trace ++ (if l.isSome then [Event.loadEnd effect] else []) }
    let w2 : World :=
      { w1 with trace := w1.trace ++ [Event.init effect],
                sandbox := (if effect.initReplaces then [] else w1.sandbox) ++ effect.markup }
    match effect.init with
    | Behaviour.returns => (Completion.normal, { w2 with activeEffect := some effect })
    | Behaviour.throws => (Completion.initThrew, w2)

/-- The function `openDemo` run to completion with nothing interleaved at its
`await` (the spec's `select`). -/
def openDemo (effect : Effect) (w : World) : Completion × World :=
  match openDemoStart effect w with
  | (Completion.normal, w1) => openDemoResume effect w1
  | (c, w1) => (c, w1)

/-- The listener of the dialog's `close` event:
`activeEffect?.teardown?.();` then `startIridescentBackground()`.
It assigns neither `activeEffect` nor `$sandbox.innerHTML`. -/
def closeListener (w : World) : Completion × World :=
  match callActiveTeardown w with
  | (Completion.normal, w1) => (Completion.normal, startIridescentBackground w1)
  | (c, w1) => (c, w1)

/-- The handler `$close.onclick` (and the backdrop click): `$modal.close()`.
A dialog that is not open ignores the call; an open one loses its `open` flag and
fires `close`, which runs `closeListener` (the spec's `close`). -/
def closeModal (w : World) : Completion × World :=
  if w.modalOpen then closeListener { w with modalOpen := false }
  else (Completion.normal, w)

/-! ## Runs -/

/-- User operations, each run to completion before the next begins. -/
inductive Op
  | select (e : Effect)
  | close
  deriving DecidableEq, Repr

/-- One operation; an exception ends the operation and leaves the state it reached. -/
def Op.apply : Op → World → World
  | Op.select e, w => (openDemo e w).2
  | Op.close, w => (closeModal w).2

/-- A sequence of operations, first to last. -/
def run (ops : List Op) (w : World) : World :=
  ops.foldl (fun acc op => op.apply acc) w

/-- The manager together with the calls of `openDemo` that are suspended at their
`await`, oldest first. -/
structure Config where
  world : World
  pending : List Effect
  deriving DecidableEq, Repr

/-- Start of the interleaved model. -/
def Config.initial : Config := { world := World.initial, pending := [] }

/-- Steps of the event loop: a call of `openDemo` runs up to its `await`, a suspended
call is resumed, or the dialog is closed. -/
inductive Action
  | select (e : Effect)
  | resume (i : Nat)
  | close
  deriving DecidableEq, Repr

/-- One step of the event loop.  `select` runs `openDemoStart` and suspends the call;
`resume i` runs `openDemoResume` for the suspended call number `i`. -/
def Config.step (c : Config) : Action → Config
  | Action.select e =>
    match openDemoStart e c.world with
    | (Completion.normal, w) => { world := w, pending := c.pending ++ [e] }
    | (_, w) => { world := w, pending := c.pending }
  | Action.resume i =>
    match c.pending.get? i with
    | none => c
    | some e => { world := (openDemoResume e c.world).2, pending := c.pending.eraseIdx i }
  | Action.close => { world := (closeModal c.world).2, pending := c.pending }

/-- A schedule of steps, first to last. -/
def Config.exec (c : Config) (as : List Action) : Config :=
  as.foldl Config.step c

/-! ## Observations on the trace -/

/-- The calls made between two states of one run. -/
def eventsSince (w w' : World) : List Event :=
  w'.trace.drop w.trace.length

/-- Effect of one call on the set of mounted effects: `init` mounts, `teardown`
unmounts. -/
def mountedStep (m : List Effect) : Event → List Effect
  | Event.init e => if e ∈ m then m else m ++ [e]
  | Event.teardown e => m.filter (fun x => x ≠ e)
  | _ => m

/-- The effects that are mounted after a trace: `init` was called and `teardown` has
not been called since. -/
def mounted (t : List Event) : List Effect :=
  t.foldl mountedStep []

/-- The calls `effect.load?.()` and its awaited resolution, when the method exists. -/
def loadEvents (e : Effect) : List Event :=
  if e.load.isSome then [Event.loadStart e, Event.loadEnd e] else []

/-- Projection of the trace on the mount and unmount calls. -/
def isMountEvent : Event → Bool
  | Event.init _ => true
  | Event.teardown _ => true
  | _ => false

/-- The call `activeEffect?.teardown?.()` as it shows in the trace: one `teardown`
call when an effect is recorded and has the method, nothing otherwise. -/
def teardownEvents (w : World) : List Event :=
  match w.activeEffect with
  | none => []
  | some a => if a.teardown.isSome then [Event.teardown a] else []

/-- An effect that honours the descriptor contract: `load`, if present, resolves,
`init` returns, and `teardown` exists and returns. -/
def Effect.wellBehaved (e : Effect) : Prop :=
  e.load ≠ some Behaviour.throws ∧ e.init = Behaviour.returns ∧
    e.teardown = some Behaviour.returns

instance (e : Effect) : Decidable e.wellBehaved := by
  unfold Effect.wellBehaved; infer_instance

/-- The mount and unmount calls the spec expects for effects selected one after
another and then closed: `[e1.mount, e1.unmount, ..., en.mount, en.unmount]`. -/
def expectedMountTrace : List Effect → List Event
  | [] => []
  | e :: es => Event.init e :: Event.teardown e :: expectedMountTrace es

/-- The same with the calls of `load` that precede each `init`. -/
def expectedFullTrace : List Effect → List Event
  | [] => []
  | e :: es => loadEvents e ++ Event.init e :: Event.teardown e :: expectedFullTrace es

/-- The invariant of sequential runs: the recorded effect has a `teardown` method,
and what is mounted is nothing or the recorded effect alone. -/
def MountedIsActive (w : World) : Prop :=
  (∀ a, w.activeEffect = some a → a.teardown ≠ none) ∧
    (mounted w.trace = [] ∨ ∃ a, w.activeEffect = some a ∧ mounted w.trace = [a])

/-- Tells whether a schedule keeps selects serialized: no call of `openDemo` begins
while an earlier one is suspended at its `await`. -/
def serialized : Config → List Action → Bool
  | _, [] => true
  | c, a :: as =>
    (match a with
      | Action.select _ => c.pending.isEmpty
      | _ => true) && serialized (c.step a) as

/-- The invariant of serialized schedules. -/
structure SerializedInv (c : Config) : Prop where
  hasTeardown : ∀ a, c.world.activeEffect = some a → a.teardown ≠ none
  pendingOk : ∀ e ∈ c.pending, e.init = Behaviour.returns ∧ e.teardown ≠ none
  pendingShort : c.pending.length ≤ 1
  mountedOk : mounted c.world.trace = [] ∨
    (c.pending = [] ∧ ∃ a, c.world.activeEffect = some a ∧ mounted c.world.trace = [a])

/-! ## Tags and the grid filter -/

/-- The code points that `String.prototype.trim` strips: the WhiteSpace and
LineTerminator characters of ECMAScript. -/
def isTrimSpace (c : Char) : Bool :=
  [0x9, 0xA, 0xB, 0xC, 0xD, 0x20, 0xA0, 0x1680, 0x2000, 0x2001, 0x2002, 0x2003, 0x2004,
    0x2005, 0x2006, 0x2007, 0x2008, 0x2009, 0x200A, 0x2028, 0x2029, 0x202F, 0x205F,
    0x3000, 0xFEFF].contains c.toNat

/-- The method `String.prototype.trim`. -/
def trim (s : String) : String :=
  ⟨((s.data.dropWhile isTrimSpace).reverse.dropWhile isTrimSpace).reverse⟩

/-- The lowercase form of one character under `String.prototype.toLowerCase`, for
every character whose lowercase form holds an ASCII character: the letters `A` to `Z`,
U+212A KELVIN SIGN, whose lowercase form is `k`, and U+0130, whose lowercase form is
`i` followed by U+0307.  Every other character is kept: the host maps some of them
(`É` to `é`), always to characters outside ASCII. -/
def lowerChar (c : Char) : List Char :=
  if c.toNat = 0x212A then ['k']
  else if c.toNat = 0x130 then ['i', Char.ofNat 0x307]
  else [c.toLower]

/-- The method `String.prototype.toLowerCase`: the lowercase forms of the characters,
one after the other.  The result is the host's on every string of ASCII characters;
on every other string it has the ASCII characters of the host's result, in the same
order, with characters outside ASCII between them exactly where the host's result has
some, so that a test `t.includes(keyword)` with an ASCII keyword has the same
outcome. -/
def toLowerCase (s : String) : String :=
  ⟨(s.data.map lowerChar).flatten⟩

/-- Tells whether the characters `sub` occur as a contiguous run in the list. -/
def listIncludes (sub : List Char) : List Char → Bool
  | [] => sub.isEmpty
  | c :: cs => sub.isPrefixOf (c :: cs) || listIncludes sub cs

/-- The method `String.prototype.includes`: substring test. -/
def includes (s sub : String) : Bool :=
  listIncludes sub.data s.data

/-- The function `techFromType`, applied to a string: the checks are made on the
lowercased type in the order of the source, `webgl`, `svg`, `canvas`, `audio`,
`worker`, `css`; `null` is `none`. -/
def techFromType (type : String) : Option String :=
  let t := toLowerCase type
  if includes t "webgl" then some "webgl"
  else if includes t "svg" then some "svg"
  else if includes t "canvas" then some "canvas"
  else if includes t "audio" then some "audio"
  else if includes t "worker" then some "worker"
  else if includes t "css" then some "css"
  else none

/-- The function `techFromType` with the method `toLowerCase` of the host as a
parameter: `lower type` stands for `type.toLowerCase()`. -/
def techFromTypeWith (lower : String → String) (type : String) : Option String :=
  let t := lower type
  if includes t "webgl" then some "webgl"
  else if includes t "svg" then some "svg"
  else if includes t "canvas" then some "canvas"
  else if includes t "audio" then some "audio"
  else if includes t "worker" then some "worker"
  else if includes t "css" then some "css"
  else none

/-- The keywords of `techFromType` in the order in which the source tests them. -/
def techKeywords : List String :=
  ["webgl", "svg", "canvas", "audio", "worker", "css"]

/-- The keywords in the order the specification gives. -/
def specTechKeywords : List String :=
  ["webgl", "canvas", "svg", "audio", "worker", "css"]

/-- The object literal `TAG_ALIASES`: its own keys and their values. -/
def TAG_ALIASES : List (String × String) :=
  [("navigation", "nav"), ("micro-interaction", "animation"),
    ("micro-interactions", "animation"), ("filters", "filter"),
    ("audio-reactive", "audio"), ("3D", "3d")]

/-- The property names every object literal inherits from `Object.prototype`.  A
lookup `TAG_ALIASES[t]` with one of these names finds the inherited member, a
function (for `__proto__` the prototype object), which is truthy. -/
def objectPrototypeKeys : List String :=
  ["constructor", "__defineGetter__", "__defineSetter__", "hasOwnProperty",
    "__lookupGetter__", "__lookupSetter__", "isPrototypeOf", "propertyIsEnumerable",
    "toString", "valueOf", "__proto__", "toLocaleString"]

/-- An element of the array `normalizeTags` returns: a string, or the member of
`Object.prototype` of the given name. -/
inductive TagValue
  | str (s : String)
  | inherited (name : String)
  deriving DecidableEq, Repr

/-- The expression `TAG_ALIASES[t] || t` for a string `t`: the value of an own key
when it is truthy (not the empty string), the inherited member for a name of
`Object.prototype`, and `t` itself otherwise. -/
def aliasOf (t : String) : TagValue :=
  match TAG_ALIASES.lookup t with
  | some v => if v = "" then TagValue.str t else TagValue.str v
  | none => if objectPrototypeKeys.contains t then TagValue.inherited t else TagValue.str t

/-- The expression `[...new Set(xs)]`: the elements of `xs`, each once, in the order
of first occurrence. -/
def uniqueInOrder {α : Type} [DecidableEq α] : List α → List α
  | [] => []
  | x :: xs => x :: (uniqueInOrder xs).filter (fun y => y ≠ x)

/-- The function `normalizeTags` on a descriptor whose `type` is a string and whose
`tags` is an array of strings: the technology tag, when there is one, in front of the
alias-mapped tags, duplicates removed. -/
def normalizeTags (effect : Effect) : List TagValue :=
  let raw := effect.tags
  let tech := techFromType effect.type
  let mapped := raw.map aliasOf
  uniqueInOrder
    (match tech with
      | some t => TagValue.str t :: mapped
      | none => mapped)

/-- Exceptions of the host that the code can raise. -/
inductive JsError
  | typeError
  | rangeError
  deriving DecidableEq, Repr

/-- The line
`const qHit = !q || [e.name,e.type,normalizedTags.join(" ")].toLowerCase().includes(q);`
of `renderGrid`.  For an empty `q` the left operand decides.  Otherwise the right
operand is evaluated: the receiver of `.toLowerCase()` is the array literal, arrays
have no such method, and the call raises a `TypeError`. -/
def qHit (q : String) (_e : Effect) (_normalizedTags : List TagValue) :
    Except JsError Bool :=
  if q = "" then Except.ok true else Except.error JsError.typeError

/-- The line
`const tagHit = activeTags.size===0 || normalizedTags.some(t=>activeTags.has(t));`
of `renderGrid`; `activeTags` is a set of strings, given by its elements. -/
def tagHit (activeTags : List String) (normalizedTags : List TagValue) : Bool :=
  activeTags.isEmpty ||
    normalizedTags.any (fun t =>
      match t with
      | TagValue.str s => activeTags.contains s
      | TagValue.inherited _ => false)

/-- The callback given to `EFFECTS.filter` in `renderGrid`: `qHit` is computed first,
then `tagHit`, and `qHit && tagHit` is returned. -/
def keepEffect (q : String) (activeTags : List String) (e : Effect) : Except JsError Bool :=
  let normalizedTags := normalizeTags e
  match qHit q e normalizedTags with
  | Except.error err => Except.error err
  | Except.ok qh => Except.ok (qh && tagHit activeTags normalizedTags)

/-- The call `EFFECTS.filter(callback)`: the callback is run on the entries in order,
an exception of the callback ends the call. -/
def filterEffects (q : String) (activeTags : List String) :
    List Effect → Except JsError (List Effect)
  | [] => Except.ok []
  | e :: es =>
    match keepEffect q activeTags e with
    | Except.error err => Except.error err
    | Except.ok keep =>
      match filterEffects q activeTags es with
      | Except.error err => Except.error err
      | Except.ok rest => Except.ok (if keep then e :: rest else rest)

/-- The filter of `renderGrid` (the spec's `filter(registry, query, activeTags)`):
`q` is the trimmed, lowercased value of the search box, the result is the list
`filtered` for which the cards are drawn. -/
def renderGrid (registry : List Effect) (searchValue : String) (activeTags : List String) :
    Except JsError (List Effect) :=
  filterEffects (toLowerCase (trim searchValue)) activeTags registry

/-- A search value that is empty or consists of whitespace only. -/
def isBlank (searchValue : String) : Bool :=
  searchValue.data.all isTrimSpace

/-- The container as `effect.init($sandbox)` finds it in a run of `openDemo effect w`
with nothing interleaved at the `await`: the sandbox left by the synchronous half,
when the run gets as far as the call of `init`. -/
def surfaceAtInit (effect : Effect) (w : World) : Option (List String) :=
  match openDemoStart effect w with
  | (Completion.normal, w1) =>
    if effect.load = some Behaviour.throws then none else some w1.sandbox
  | _ => none

/-- The container as `effect.init($sandbox)` finds it when the suspended call number
`i` of `openDemo` is resumed: the sandbox of that moment, when there is such a call
and its `load` did not reject. -/
def Config.surfaceAtResume (c : Config) (i : Nat) : Option (List String) :=
  match c.pending.get? i with
  | none => none
  | some e => if e.load = some Behaviour.throws then none else some c.world.sandbox

/-- Tells whether the canonical tags of `e` and `activeTags` have an element in
common. -/
def sharesTag (activeTags : List String) (e : Effect) : Bool :=
  (normalizeTags e).any (fun t =>
    match t with
    | TagValue.str s => activeTags.contains s
    | TagValue.inherited _ => false)

/-! ## Descriptors as JavaScript values -/

/-- The value of the field `type` of a descriptor, as far as `techFromType`
distinguishes: `missing` is an absent field or `undefined` (the default parameter
`type=''` applies), `null` is `null`, `other` is a value without a method
`toLowerCase` (a number, a boolean, a plain object). -/
inductive TypeField
  | missing
  | null
  | str (s : String)
  | other
  deriving DecidableEq, Repr

/-- The value of the field `tags` of a descriptor: an array, or anything for which
`Array.isArray` is false (the field may be absent). -/
inductive TagsField
  | notArray
  | array (items : List TagValue)
  deriving DecidableEq, Repr

/-- A descriptor as `normalizeTags` reads it. -/
structure RawDescriptor where
  type : TypeField
  tags : TagsField
  deriving DecidableEq, Repr

/-- The expression `TAG_ALIASES[t] || t` for an element of an array of tags.  A
member of `Object.prototype` used as a key is converted to its source text, which
names no property, so the element itself is the value. -/
def aliasOfValue : TagValue → TagValue
  | TagValue.str s => aliasOf s
  | TagValue.inherited n => TagValue.inherited n

/-- The call `techFromType(effect.type)` for any value of the field.  The default
`type=''` replaces `undefined` only; `null` and the values without `toLowerCase` make
`type.toLowerCase()` raise a `TypeError`. -/
def techFromTypeJs : TypeField → Except JsError (Option String)
  | TypeField.missing => Except.ok (techFromType "")
  | TypeField.str s => Except.ok (techFromType s)
  | TypeField.null => Except.error JsError.typeError
  | TypeField.other => Except.error JsError.typeError

/-- The array `raw` of `normalizeTags`: `Array.isArray(effect.tags) ? effect.tags : []`. -/
def rawTags (d : RawDescriptor) : List TagValue :=
  match d.tags with
  | TagsField.array items => items
  | TagsField.notArray => []

/-- The function `normalizeTags` on any descriptor. -/
def normalizeTagsJs (d : RawDescriptor) : Except JsError (List TagValue) :=
  let raw := rawTags d
  match techFromTypeJs d.type with
  | Except.error err => Except.error err
  | Except.ok tech =>
    let mapped := raw.map aliasOfValue
    Except.ok (uniqueInOrder
      (match tech with
        | some t => TagValue.str t :: mapped
        | none => mapped))

/-- The descriptor of an effect of the registry model: a string `type` and an array
of string `tags`. -/
def Effect.toRaw (e : Effect) : RawDescriptor :=
  { type := TypeField.str e.type, tags := TagsField.array (e.tags.map TagValue.str) }

/-- First-occurrence de-duplication, as the specification words it: the elements are
taken in order and one is kept when it was not seen before. -/
def firstSeen {α : Type} [DecidableEq α] : List α → List α → List α
  | _, [] => []
  | seen, x :: xs =>
    if x ∈ seen then firstSeen seen xs else x :: firstSeen (x :: seen) xs

/-- The list that `normalizeTags` de-duplicates: the technology tag, if one is
inferred, followed by the alias-mapped raw tags in their order. -/
def taggedList (tech : Option String) (raw : List TagValue) : List TagValue :=
  (match tech with
    | some t => [TagValue.str t]
    | none => []) ++ raw.map aliasOfValue

/-- The part of the heap that a call of `normalizeTags(effect)` can reach: the two
fields of the object `effect` that it reads, and the arrays that exist, by address.
`tags` is the address of an array, or `none` when the field is absent or holds no
array. -/
structure TagHeap where
  type : TypeField
  tags : Option Nat
  arrays : List (List TagValue)
  deriving DecidableEq, Repr

/-- Allocation of a new array with the given elements; its address is returned. -/
def TagHeap.alloc (h : TagHeap) (a : List TagValue) : Nat × TagHeap :=
  (h.arrays.length, { h with arrays := h.arrays ++ [a] })

/-- The elements of the array at an address. -/
def TagHeap.read (h : TagHeap) (addr : Nat) : List TagValue :=
  h.arrays.getD addr []

/-- The function `normalizeTags` with the heap made explicit.  `[]`, `raw.map(...)`,
`[tech, ...mapped]` and `[...new Set(...)]` each allocate a new array; no statement
assigns to a field of `effect` or to an element of an existing array.  The result is
the address of the returned array. -/
def normalizeTagsOn (h : TagHeap) : Except JsError Nat × TagHeap :=
  let r0 : Nat × TagHeap :=
    match h.tags with
    | some a => (a, h)
    | none => h.alloc []
  match techFromTypeJs r0.2.type with
  | Except.error err => (Except.error err, r0.2)
  | Except.ok tech =>
    let r1 := r0.2.alloc ((r0.2.read r0.1).map aliasOfValue)
    let r2 : Nat × TagHeap :=
      match tech with
      | some t => r1.2.alloc (TagValue.str t :: r1.2.read r1.1)
      | none => r1
    let r3 := r2.2.alloc (uniqueInOrder (r2.2.read r2.1))
    (Except.ok r3.1, r3.2)

/-- The descriptor that a heap holds. -/
def TagHeap.view (h : TagHeap) : RawDescriptor :=
  { type := h.type,
    tags := match h.tags with
      | some a => TagsField.array (h.read a)
      | none => TagsField.notArray }

/-- The list a call returned, read in the heap the call left. -/
def returnedList (p : Except JsError Nat × TagHeap) : Except JsError (List TagValue) :=
  match p.1 with
  | Except.ok addr => Except.ok (p.2.read addr)
  | Except.error err => Except.error err

/-! ## The registry and the effect objects -/

/-- One entry of the array `EFFECTS`: the name of the `const` that holds the object
literal, the descriptive fields of the literal, the body of its method `teardown` as
written, and whether the literal defines a property `_cleanup`. -/
structure RegistryEntry where
  binding : String
  id : String
  name : String
  type : String
  tags : List String
  perf : String
  teardown : String
  cleanupInLiteral : Bool
  deriving DecidableEq, Repr

/-- The array `EFFECTS`, in registry order. -/
def EFFECTS : List RegistryEntry :=
  [
    { binding := "effectMagneticButton", id := "css-magnetic-button", name := "Magnetic Button Hover",
      type := "CSS", tags := ["css", "interaction", "mobile-safe"], perf := "GPU-light",
      teardown := "this._cleanup?.();", cleanupInLiteral := false },
    { binding := "effectParticleFountain", id := "js-particle-fountain", name := "Particle Fountain",
      type := "JS/Canvas", tags := ["canvas", "particles"], perf := "GPU/CPU medium",
      teardown := "this._cleanup?.();", cleanupInLiteral := false },
    { binding := "effectCssPulseBorder", id := "css-pulse-border", name := "Pulse Border Card",
      type := "CSS", tags := ["css", "micro-interaction"], perf := "GPU-light",
      teardown := "this._cleanup?.();", cleanupInLiteral := false },
    { binding := "effectTiltCard", id := "js-tilt-card", name := "Card Tilt (Pointer)",
      type := "JS", tags := ["interaction", "css", "3d"], perf := "GPU-light",
      teardown := "this._cleanup?.();", cleanupInLiteral := false },
    { binding := "effectSvgPathDraw", id := "svg-path-draw", name := "SVG Path Draw",
      type := "SVG", tags := ["svg", "typography", "micro-interaction"], perf := "GPU-light",
      teardown := "this._cleanup?.();", cleanupInLiteral := false },
    { binding := "effectMiniParallax", id := "scroll-mini-parallax", name := "Mini Parallax (Internal Scroll)",
      type := "Scroll", tags := ["scroll", "parallax"], perf := "CPU-light",
      teardown := "this._cleanup?.();", cleanupInLiteral := false },
    { binding := "effectRippleButton", id := "js-ripple-button", name := "Ripple Button (Click)",
      type := "JS+CSS", tags := ["interaction", "css", "micro-interaction"], perf := "GPU-light",
      teardown := "this._cleanup?.();", cleanupInLiteral := false },
    { binding := "effectConfettiClick", id := "canvas-confetti-click", name := "Confetti Burst (Click)",
      type := "JS/Canvas", tags := ["canvas", "particles"], perf := "GPU/CPU medium",
      teardown := "this._cleanup?.();", cleanupInLiteral := false },
    { binding := "effectSvgGooeyBlobs", id := "svg-gooey-blobs", name := "Gooey Blobs",
      type := "SVG/Filter", tags := ["svg", "filter"], perf := "GPU-light",
      teardown := "this._cleanup?.();", cleanupInLiteral := false },
    { binding := "effectScrollReveal", id := "scroll-reveal-cards", name := "Scroll Reveal Cards",
      type := "Scroll", tags := ["scroll", "a11y"], perf := "CPU-light",
      teardown := "this._cleanup?.();", cleanupInLiteral := false },
    { binding := "effectCssFlipCard", id := "css-flip-card", name := "3D Flip Card (Hover/Focus)",
      type := "CSS", tags := ["css", "3d", "a11y"], perf := "GPU-light",
      teardown := "this._cleanup?.();", cleanupInLiteral := false },
    { binding := "effectSpringyDrag", id := "physics-springy-drag", name := "Springy Drag Dot",
      type := "JS/Physics", tags := ["physics", "interaction"], perf := "CPU-light",
      teardown := "this._cleanup?.();", cleanupInLiteral := false },
    { binding := "effectCssShimmer", id := "css-shimmer-skeleton", name := "Shimmer Skeleton",
      type := "CSS", tags := ["css", "micro-interaction"], perf := "GPU-light",
      teardown := "this._cleanup?.();", cleanupInLiteral := false },
    { binding := "effectSvgTextOnPath", id := "svg-text-on-path", name := "SVG Text on a Path",
      type := "SVG", tags := ["svg", "typography"], perf := "GPU-light",
      teardown := "this._cleanup?.();", cleanupInLiteral := false },
    { binding := "effectTextScramble", id := "js-text-scramble", name := "Text Scramble → Resolve",
      type := "JS", tags := ["interaction", "typography"], perf := "CPU-light",
      teardown := "this._cleanup?.();", cleanupInLiteral := false },
    { binding := "effectScrollSnapCarousel", id := "css-scroll-snap", name := "Scroll-Snap Carousel",
      type := "CSS", tags := ["scroll", "css"], perf := "GPU-light",
      teardown := "this._cleanup?.();", cleanupInLiteral := false },
    { binding := "effectSpotlightReveal", id := "css-spotlight-reveal", name := "Spotlight Reveal (mask)",
      type := "JS+CSS", tags := ["css", "interaction", "filter"], perf := "GPU-light",
      teardown := "this._cleanup?.();", cleanupInLiteral := false },
    { binding := "effectSvgMorphBlob", id := "svg-morph-blob", name := "Morphing Blob",
      type := "SVG", tags := ["svg", "filter", "typography"], perf := "GPU-light",
      teardown := "this._cleanup?.();", cleanupInLiteral := false },
    { binding := "effectCanvasStarfield", id := "canvas-starfield", name := "Starfield (warp on click)",
      type := "JS/Canvas", tags := ["canvas", "particles"], perf := "GPU/CPU light",
      teardown := "this._cleanup?.();", cleanupInLiteral := false },
    { binding := "effectFormStrength", id := "form-strength-floating", name := "Floating Labels + Strength Meter",
      type := "JS+CSS", tags := ["forms", "a11y", "interaction"], perf := "CPU-light",
      teardown := "this._cleanup?.();", cleanupInLiteral := false },
    { binding := "effectMatrixRain", id := "canvas-matrix-rain", name := "Matrix Rain",
      type := "JS/Canvas", tags := ["canvas", "particles", "typography"], perf := "GPU/CPU light",
      teardown := "this._cleanup?.();", cleanupInLiteral := false },
    { binding := "effectScrollProgress", id := "scroll-progress-bar", name := "Scroll Progress (Internal)",
      type := "Scroll", tags := ["scroll", "a11y"], perf := "CPU-light",
      teardown := "this._cleanup?.();", cleanupInLiteral := false },
    { binding := "effectTypewriter", id := "js-typewriter", name := "Typewriter (Caret)",
      type := "JS", tags := ["typography", "interaction"], perf := "CPU-light",
      teardown := "this._cleanup?.();", cleanupInLiteral := false },
    { binding := "effectCssAccordion", id := "css-accordion", name := "Accordion (details/summary)",
      type := "CSS", tags := ["css", "a11y", "forms"], perf := "GPU-light",
      teardown := "this._cleanup?.();", cleanupInLiteral := false },
    { binding := "effectFlipGridShuffle", id := "js-flip-grid", name := "FLIP Grid Shuffle",
      type := "JS", tags := ["nav", "transitions", "interaction"], perf := "GPU-light",
      teardown := "this._cleanup?.();", cleanupInLiteral := false },
    { binding := "effectScrollPinSteps", id := "scroll-pin-steps", name := "Scroll Pin Steps",
      type := "Scroll", tags := ["scroll", "a11y"], perf := "CPU-light",
      teardown := "this._cleanup?.();", cleanupInLiteral := false },
    { binding := "effectFilterPlayground", id := "css-filter-playground", name := "Filter Playground",
      type := "JS+CSS", tags := ["filter", "media", "interaction"], perf := "GPU-light",
      teardown := "this._cleanup?.();", cleanupInLiteral := false },
    { binding := "effectSvgCircularTimer", id := "svg-circular-timer", name := "Circular Timer",
      type := "SVG", tags := ["svg", "interaction", "a11y"], perf := "CPU-light",
      teardown := "this._cleanup?.();", cleanupInLiteral := false },
    { binding := "effectImageCompare", id := "media-image-compare", name := "Image Compare (Slider)",
      type := "JS+CSS", tags := ["media", "interaction", "a11y"], perf := "GPU-light",
      teardown := "this._cleanup?.();", cleanupInLiteral := false },
    { binding := "effectAudioVisualizer", id := "audio-visualizer", name := "Audio Visualizer (Oscillator)",
      type := "JS/Audio+Canvas", tags := ["audio-reactive", "canvas", "interaction"], perf := "CPU-light",
      teardown := "this._cleanup?.();", cleanupInLiteral := false },
    { binding := "effectSvgAnalogClock", id := "svg-analog-clock", name := "Analog Clock (SVG)",
      type := "SVG", tags := ["svg", "typography", "interaction"], perf := "CPU-light",
      teardown := "this._cleanup?.();", cleanupInLiteral := false },
    { binding := "effectCanvasMetaballs", id := "canvas-metaballs", name := "Metaballs (blur+contrast)",
      type := "JS/Canvas", tags := ["canvas", "filter", "particles"], perf := "GPU/CPU medium",
      teardown := "this._cleanup?.();", cleanupInLiteral := false },
    { binding := "effectCss3DCube", id := "css-3d-cube", name := "3D Cube (CSS)",
      type := "CSS", tags := ["css", "3d"], perf := "GPU-light",
      teardown := "this._cleanup?.();", cleanupInLiteral := false },
    { binding := "effectCanvasBouncingBalls", id := "canvas-bouncing-balls", name := "Bouncing Balls",
      type := "JS/Canvas", tags := ["canvas", "physics"], perf := "CPU-light",
      teardown := "this._cleanup?.();", cleanupInLiteral := false },
    { binding := "effectSvgMiniLineChart", id := "svg-mini-line-chart", name := "Mini Line Chart (Tooltip)",
      type := "SVG", tags := ["svg", "interaction", "typography"], perf := "CPU-light",
      teardown := "this._cleanup?.();", cleanupInLiteral := false },
    { binding := "effectClipboardToast", id := "js-clipboard-toast", name := "Copy to Clipboard (Toast)",
      type := "JS", tags := ["forms", "interaction", "a11y"], perf := "CPU-light",
      teardown := "this._cleanup?.();", cleanupInLiteral := false },
    { binding := "effectCssMasonryColumns", id := "css-masonry-columns", name := "Masonry Gallery (CSS columns)",
      type := "CSS", tags := ["css", "layout", "media"], perf := "GPU-light",
      teardown := "this._cleanup?.();", cleanupInLiteral := false },
    { binding := "effectDragSortList", id := "js-drag-sort-list", name := "Drag-Sort List",
      type := "JS", tags := ["interaction", "forms", "nav"], perf := "CPU-light",
      teardown := "this._cleanup?.();", cleanupInLiteral := false },
    { binding := "effectLazyImages", id := "js-lazy-images", name := "Lazy-Load Images",
      type := "JS", tags := ["media", "scroll", "a11y"], perf := "CPU-light",
      teardown := "this._cleanup?.();", cleanupInLiteral := false },
    { binding := "effectCursorTrail", id := "canvas-cursor-trail", name := "Cursor Trail (soft particles)",
      type := "JS/Canvas", tags := ["canvas", "interaction", "particles"], perf := "GPU/CPU light",
      teardown := "this._cleanup?.();", cleanupInLiteral := false },
    { binding := "effectCssConicPie", id := "css-conic-pie", name := "Conic Pie Chart (sliders)",
      type := "JS+CSS", tags := ["css", "typography", "interaction"], perf := "GPU-light",
      teardown := "this._cleanup?.();", cleanupInLiteral := false },
    { binding := "effectCanvasFireworks", id := "canvas-fireworks", name := "Fireworks (click)",
      type := "JS/Canvas", tags := ["canvas", "particles", "interaction"], perf := "GPU/CPU medium",
      teardown := "this._cleanup?.();", cleanupInLiteral := false },
    { binding := "effectCssGlassFrosted", id := "css-glass-frosted", name := "Glass Frosted Panel",
      type := "CSS", tags := ["css", "filter", "layout"], perf := "GPU-light",
      teardown := "this._cleanup?.();", cleanupInLiteral := false },
    { binding := "effectJsCountUp", id := "js-countup-stats", name := "Count-Up Stats (on reveal)",
      type := "JS", tags := ["typography", "scroll", "a11y"], perf := "CPU-light",
      teardown := "this._cleanup?.();", cleanupInLiteral := false },
    { binding := "effectSplitResizer", id := "layout-split-resizer", name := "Split View Resizer",
      type := "JS+CSS", tags := ["layout", "interaction", "a11y"], perf := "CPU-light",
      teardown := "this._cleanup?.();", cleanupInLiteral := false },
    { binding := "effectClipRevealGrid", id := "css-clip-reveal-grid", name := "Clip-Path Hover Grid",
      type := "CSS", tags := ["css", "media", "interaction"], perf := "GPU-light",
      teardown := "this._cleanup?.();", cleanupInLiteral := false },
    { binding := "effectWASDMove", id := "js-wasd-move", name := "WASD Move (Keyboard)",
      type := "JS", tags := ["interaction", "physics", "a11y"], perf := "CPU-light",
      teardown := "this._cleanup?.();", cleanupInLiteral := false },
    { binding := "effectWebglPlasma", id := "webgl-plasma", name := "WebGL Plasma (Shader)",
      type := "WebGL", tags := ["webgl", "shader", "media"], perf := "GPU-light",
      teardown := "this._cleanup?.();", cleanupInLiteral := false },
    { binding := "effectA11yContrast", id := "a11y-contrast-checker", name := "Color Contrast Checker (WCAG)",
      type := "JS+CSS", tags := ["a11y", "forms", "typography"], perf := "CPU-light",
      teardown := "this._cleanup?.();", cleanupInLiteral := false },
    { binding := "effectCssNeonText", id := "css-neon-text", name := "Neon Text Glow",
      type := "CSS", tags := ["css", "typography", "micro-interaction"], perf := "GPU-light",
      teardown := "this._cleanup?.();", cleanupInLiteral := false },
    { binding := "effectCanvasFlowField", id := "canvas-flow-field", name := "Flow Field Lines",
      type := "JS/Canvas", tags := ["canvas", "particles", "heavy"], perf := "GPU/CPU medium",
      teardown := "this._cleanup?.();", cleanupInLiteral := false },
    { binding := "effectSvgTextMaskWave", id := "svg-text-mask-wave", name := "Text Mask Wave",
      type := "SVG", tags := ["svg", "typography", "filter"], perf := "GPU-light",
      teardown := "this._cleanup?.();", cleanupInLiteral := false },
    { binding := "effectCssMarquee", id := "css-seamless-marquee", name := "Seamless Marquee (Speed Slider)",
      type := "CSS", tags := ["css", "typography", "micro-interaction"], perf := "GPU-light",
      teardown := "this._cleanup?.();", cleanupInLiteral := false },
    { binding := "effectSmartTooltip", id := "js-smart-tooltip", name := "Smart Tooltip (Clamp to Bounds)",
      type := "JS", tags := ["interaction", "a11y"], perf := "CPU-light",
      teardown := "this._cleanup?.();", cleanupInLiteral := false },
    { binding := "effectCanvasPixelate", id := "canvas-pixelate", name := "Pixelate Filter (Slider)",
      type := "JS/Canvas", tags := ["canvas", "media", "interaction"], perf := "GPU/CPU light",
      teardown := "this._cleanup?.();", cleanupInLiteral := false },
    { binding := "effectCssRadarSweep", id := "css-radar-sweep", name := "Radar Sweep (Conic + Mask)",
      type := "CSS", tags := ["css", "filter", "media"], perf := "GPU-light",
      teardown := "this._cleanup?.();", cleanupInLiteral := false },
    { binding := "effectCssRadioTabs", id := "css-radio-tabs", name := "Radio Tabs (CSS-only)",
      type := "CSS", tags := ["css", "a11y", "nav"], perf := "GPU-light",
      teardown := "this._cleanup?.();", cleanupInLiteral := false },
    { binding := "effectTableSortSearch", id := "js-table-sort-search", name := "Table — Sort + Search",
      type := "JS", tags := ["tables", "forms", "a11y"], perf := "CPU-light",
      teardown := "this._cleanup?.();", cleanupInLiteral := false },
    { binding := "effectThemeToggleCard", id := "js-theme-toggle-card", name := "Theme Toggle (CSS Vars)",
      type := "JS+CSS", tags := ["css", "a11y", "forms"], perf := "GPU-light",
      teardown := "this._cleanup?.();", cleanupInLiteral := false },
    { binding := "effectStarRating", id := "form-star-rating", name := "Star Rating (Radios)",
      type := "JS+CSS", tags := ["forms", "a11y", "interaction"], perf := "GPU-light",
      teardown := "this._cleanup?.();", cleanupInLiteral := false },
    { binding := "effectCssGradientBorder", id := "css-gradient-border", name := "Animated Gradient Border",
      type := "CSS", tags := ["css", "micro-interaction", "layout"], perf := "GPU-light",
      teardown := "this._cleanup?.();", cleanupInLiteral := false },
    { binding := "effectDeviceTiltParallax", id := "js-device-tilt-parallax", name := "Device Tilt Parallax",
      type := "JS", tags := ["interaction", "mobile-safe", "3d"], perf := "GPU-light",
      teardown := "this._cleanup?.();", cleanupInLiteral := false },
    { binding := "effectPanZoomViewer", id := "js-pan-zoom-viewer", name := "Pan & Zoom (Image)",
      type := "JS", tags := ["media", "interaction", "a11y"], perf := "CPU-light",
      teardown := "this._cleanup?.();", cleanupInLiteral := false },
    { binding := "effectInfiniteScroll", id := "scroll-infinite-loader", name := "Infinite Scroll (Internal)",
      type := "Scroll", tags := ["scroll", "a11y", "forms"], perf := "CPU-light",
      teardown := "this._cleanup?.();", cleanupInLiteral := false },
    { binding := "effectHamburgerToggle", id := "ui-hamburger-toggle", name := "Hamburger ↔ X Toggle",
      type := "JS+CSS", tags := ["nav", "css", "micro-interaction"], perf := "GPU-light",
      teardown := "this._cleanup?.();", cleanupInLiteral := false },
    { binding := "effectDropzonePreview", id := "dropzone-upload-preview", name := "Drag & Drop Upload (Previews)",
      type := "JS", tags := ["forms", "media", "interaction"], perf := "CPU-light",
      teardown := "this._cleanup?.();", cleanupInLiteral := false },
    { binding := "effectCssContainerCard", id := "css-container-query-card", name := "Container Query Card",
      type := "CSS", tags := ["css", "layout", "a11y"], perf := "GPU-light",
      teardown := "this._cleanup?.();", cleanupInLiteral := false },
    { binding := "effectSvgPathDraw_v2", id := "svg-path-draw-v2", name := "SVG Path Draw",
      type := "SVG", tags := ["svg", "typography"], perf := "GPU-light",
      teardown := "this._cleanup?.();", cleanupInLiteral := false },
    { binding := "effectAudioOscilloscope", id := "audio-oscilloscope", name := "WebAudio Oscilloscope",
      type := "JS/Canvas", tags := ["audio", "canvas", "visualizer"], perf := "CPU-light",
      teardown := "this._cleanup?.();", cleanupInLiteral := false },
    { binding := "effectDragReorderList", id := "ui-drag-reorder", name := "Drag to Reorder List",
      type := "JS+CSS", tags := ["interaction", "a11y", "forms"], perf := "CPU-light",
      teardown := "this._cleanup?.();", cleanupInLiteral := false },
    { binding := "effectCssShapeOutside", id := "css-shape-outside", name := "CSS Shapes (shape-outside)",
      type := "CSS", tags := ["css", "layout", "typography"], perf := "GPU-light",
      teardown := "this._cleanup?.();", cleanupInLiteral := false },
    { binding := "effectWorkerPrimes", id := "worker-primes", name := "Web Worker: Prime Sieve",
      type := "JS/Worker", tags := ["performance", "worker", "heavy"], perf := "CPU-medium",
      teardown := "this._cleanup?.();", cleanupInLiteral := false }
  ]

/-- An effect of the registry as an object with state.  All entries of `EFFECTS`
have the same method `teardown(){ this._cleanup?.(); }`, none has a property
`_cleanup` in its literal, and `init` ends by storing a closure in `this._cleanup`.
`cleanup` is that property (`none` while it is undefined), `state` is what the
closures of the effect act on (the container, listeners, frame requests), and
`cleanupRuns` counts the executions of stored cleanup procedures. -/
structure EffectObject (σ : Type) where
  cleanup : Option (σ → σ)
  state : σ
  cleanupRuns : Nat

/-- The object as the literal defines it, before any call of `init`. -/
def EffectObject.fresh {σ : Type} (s : σ) : EffectObject σ :=
  { cleanup := none, state := s, cleanupRuns := 0 }

/-- The method `init(container)`: it does its setup and stores the cleanup closure. -/
def EffectObject.init {σ : Type} (setup cleanup : σ → σ) (o : EffectObject σ) :
    EffectObject σ :=
  { o with state := setup o.state, cleanup := some cleanup }

/-- The method `teardown(){ this._cleanup?.(); }`: the stored closure is called when
there is one; the property is not reset. -/
def EffectObject.teardown {σ : Type} (o : EffectObject σ) : EffectObject σ :=
  match o.cleanup with
  | none => o
  | some c => { o with state := c o.state, cleanupRuns := o.cleanupRuns + 1 }

/-! ## The prime sieve of `effectWorkerPrimes` -/

/-- The operator `x|0` on an integral number: conversion to a signed 32-bit
integer. -/
def toInt32 (x : Int) : Int :=
  (x + 2147483648) % 4294967296 - 2147483648

/-- The message `{t:'d', count, last}` of the worker, and what the fallback writes to
the page: the number of primes found and the list shown as the last ten. -/
structure SieveReport where
  count : Nat
  last : List Nat
  deriving DecidableEq, Repr

/-- The array `new Uint8Array(N+1)`, by its cells: all zero.  Every access that the
code makes is at an index from 2 to `N`. -/
def emptySieve : Nat → Nat :=
  fun _ => 0

/-- The loop `for(let j=...; j<=N; j+=i) sieve[j]=1;` of the worker, started at `j`.
The first argument bounds the number of iterations; `none` tells that the bound was
reached with the loop still running. -/
def markLoop (N i : Nat) : Nat → Nat → (Nat → Nat) → Option (Nat → Nat)
  | 0, j, sieve => if j ≤ N then none else some sieve
  | fuel + 1, j, sieve =>
    if j ≤ N then markLoop N i fuel (j + i) (Function.update sieve j 1) else some sieve

/-- The variables `sieve` and `count` of the worker. -/
structure SieveState where
  sieve : Nat → Nat
  count : Nat

/-- The loop `for(let i=...; i<=N; i++)` of the worker, started at `i`: an unmarked
`i` is counted and, when `i*i<=N`, its multiples from `i*i` on are marked.  The
progress messages, which do not enter the result, are left out.  The first argument
bounds the number of iterations. -/
def workerLoop (N : Nat) : Nat → Nat → SieveState → Option SieveState
  | 0, i, st => if i ≤ N then none else some st
  | fuel + 1, i, st =>
    if i ≤ N then
      if st.sieve i = 0 then
        if i * i ≤ N then
          match markLoop N i (N + 1) (i * i) st.sieve with
          | none => none
          | some s => workerLoop N fuel (i + 1) { sieve := s, count := st.count + 1 }
        else workerLoop N fuel (i + 1) { sieve := st.sieve, count := st.count + 1 }
      else workerLoop N fuel (i + 1) st
    else some st

/-- The loop `for(let k=N;k>=2 && tail.length<10;k--) if(!sieve[k]) tail.push(k);`,
started at `k` with the array `tail`. -/
def tailLoop (sieve : Nat → Nat) : Nat → List Nat → List Nat
  | 0, tail => tail
  | 1, tail => tail
  | k + 2, tail =>
    if tail.length < 10 then
      tailLoop sieve (k + 1) (if sieve (k + 2) = 0 then tail ++ [k + 2] else tail)
    else tail

/-- The handler `self.onmessage` of the worker for a given `N`: the sieve, then the
message with `count` and `tail.reverse()`. -/
def runWorker (N : Nat) : Option SieveReport :=
  match workerLoop N N 2 { sieve := emptySieve, count := 0 } with
  | none => none
  | some st => some { count := st.count, last := (tailLoop st.sieve N []).reverse }

/-- The handler `self.onmessage` for an integral `e.data.max`: `N = e.data.max|0`,
and `new Uint8Array(N+1)` raises a `RangeError` for a negative length. -/
def workerOnMessage (max : Int) : Except JsError (Option SieveReport) :=
  if toInt32 max + 1 < 0 then Except.error JsError.rangeError
  else Except.ok (runWorker (toInt32 max).toNat)

/-- The variables `i`, `j`, `count` and `sieve` of the fallback in `start`. -/
structure FallbackState where
  i : Nat
  j : Nat
  count : Nat
  sieve : Nat → Nat

/-- The loop `for(; j<=N && performance.now()-t0 < 16; j += i) sieve[j]=1;` of the
fallback.  `clock` holds the answers of the tests `performance.now()-t0 < 16` still
to come in this slice, in order; a test is made only when `j<=N` holds, and a clock
with no answer left answers no.  The result is the new `j`, the array and the rest of
the clock. -/
def fallbackMark (N i : Nat) : List Bool → Nat → (Nat → Nat) → Nat × (Nat → Nat) × List Bool
  | [], j, sieve => (j, sieve, [])
  | b :: clock, j, sieve =>
    if j ≤ N then
      if b then fallbackMark N i clock (j + i) (Function.update sieve j 1)
      else (j, sieve, clock)
    else (j, sieve, b :: clock)

/-- The body of the `while` loop of `step`, without the progress bar. -/
def fallbackBody (N : Nat) (clock : List Bool) (st : FallbackState) :
    FallbackState × List Bool :=
  if st.j ≠ 0 then
    let r := fallbackMark N st.i clock st.j st.sieve
    if r.1 > N then ({ st with j := 0, i := st.i + 1, sieve := r.2.1 }, r.2.2)
    else ({ st with j := r.1, sieve := r.2.1 }, r.2.2)
  else if st.sieve st.i = 0 then
    if st.i * st.i ≤ N then ({ st with count := st.count + 1, j := st.i * st.i }, clock)
    else ({ st with count := st.count + 1, i := st.i + 1 }, clock)
  else ({ st with i := st.i + 1 }, clock)

/-- The loop `while(performance.now() - t0 < 16 && i <= N)` of `step`.  Each test of
the condition takes one answer from the clock, so the loop makes at most as many
iterations as there are answers; the first argument is that bound. -/
def fallbackWhile (N : Nat) : Nat → List Bool → FallbackState → FallbackState × List Bool
  | 0, clock, st => (st, clock)
  | _ + 1, [], st => (st, [])
  | fuel + 1, b :: clock, st =>
    if b && decide (st.i ≤ N) then
      let r := fallbackBody N clock st
      fallbackWhile N fuel r.2 r.1
    else (st, clock)

/-- One call of `step` that is not cancelled: the `while` loop with the clock of this
slice, then either the request for the next slice (`none`) or, when `i > N`, the
count and the last primes that are written to the page. -/
def fallbackStep (N : Nat) (clock : List Bool) (st : FallbackState) :
    FallbackState × Option SieveReport :=
  let st1 := (fallbackWhile N (clock.length + 1) clock st).1
  if st1.i ≤ N then (st1, none)
  else (st1, some { count := st1.count, last := (tailLoop st1.sieve N []).reverse })

/-- The slices of the fallback, one clock for each: `step` runs again as long as it
asked for the next slice.  `none` tells that the slices given did not finish the
work. -/
def fallbackRun (N : Nat) : List (List Bool) → FallbackState → Option SieveReport
  | [], _ => none
  | clock :: rest, st =>
    match fallbackStep N clock st with
    | (_, some r) => some r
    | (st1, none) => fallbackRun N rest st1

/-- The fallback of `start` for a given `N`, from `i = 2, j = 0, count = 0` and a new
array. -/
def fallback (N : Nat) (clocks : List (List Bool)) : Option SieveReport :=
  fallbackRun N clocks { i := 2, j := 0, count := 0, sieve := emptySieve }

/-- The primes `p` with `2 ≤ p ≤ N`, in ascending order. -/
def primesUpTo (N : Nat) : List Nat :=
  (List.range (N + 1)).filter (fun p => decide (Nat.Prime p))

/-- The report that the claim describes: the number of primes up to `N`, and the
`min(10, count)` largest of them in ascending order. -/
def expectedReport (N : Nat) : SieveReport :=
  { count := (primesUpTo N).length,
    last := (primesUpTo N).drop ((primesUpTo N).length - 10) }

/-- A slice in which the time tests allow at least one step of the work: the first
two answers of its clock are yes. -/
def allowsProgress (clock : List Bool) : Bool :=
  clock.take 2 == [true, true]

/-- The invariant of both sieves at the variables `i`, `j`, `count`, `sieve`: the
cells marked are the multiples, from the square on, of the primes below `i`, and,
while the multiples of `i` are being marked (`j ≠ 0`), those of `i` below `j`. -/
structure SieveInv (N : Nat) (st : FallbackState) : Prop where
  two_le : 2 ≤ st.i
  le_succ : st.i ≤ N + 1
  marking : st.j ≠ 0 → Nat.Prime st.i ∧ st.i * st.i ≤ N ∧ st.i * st.i ≤ st.j ∧ st.i ∣ st.j
  cells : ∀ k, 2 ≤ k → k ≤ N →
    (st.sieve k ≠ 0 ↔
      (∃ p, Nat.Prime p ∧ p < st.i ∧ p * p ≤ k ∧ p ∣ k) ∨
        (st.j ≠ 0 ∧ st.i * st.i ≤ k ∧ k < st.j ∧ st.i ∣ k))
  count_eq : st.count =
    ((List.range st.i).filter (fun p => decide (Nat.Prime p))).length +
      (if st.j ≠ 0 then 1 else 0)

/-- The measure that every step of the fallback decreases. -/
def fallbackMeasure (N : Nat) (st : FallbackState) : Nat :=
  (N + 1 - st.i) * (N + 2) + (if st.j = 0 then N + 1 else N + 1 - st.j)

/-- The invariant at the head of an iteration of the `while` loop of `step`: while
multiples are being marked, `j` is within `N`. -/
def HeadInv (N : Nat) (st : FallbackState) : Prop :=
  SieveInv N st ∧ (st.j ≠ 0 → st.j ≤ N)

/-! ## Sample effects -/

/-- The registry entry `effectMagneticButton`: `init` assigns `container.innerHTML`,
the cleanup removes one listener and leaves the container as it is. -/
def effectMagneticButton : Effect :=
  { id := "css-magnetic-button", name := "Magnetic Button Hover", type := "CSS",
    tags := ["css", "interaction", "mobile-safe"], perf := "GPU-light",
    load := some Behaviour.returns, init := Behaviour.returns,
    teardown := some Behaviour.returns,
    markup := ["div"], initReplaces := true, cleanupClears := false }

/-- The registry entry `effectParticleFountain`: `init` appends a canvas, the cleanup
ends in `container.innerHTML=""`. -/
def effectParticleFountain : Effect :=
  { id := "js-particle-fountain", name := "Particle Fountain", type := "JS/Canvas",
    tags := ["canvas", "particles"], perf := "GPU/CPU medium",
    load := some Behaviour.returns, init := Behaviour.returns,
    teardown := some Behaviour.returns,
    markup := ["canvas"], initReplaces := false, cleanupClears := true }

/-- A descriptor outside the registry whose `init` throws after its first write. -/
def effectThrowingInit : Effect :=
  { id := "throwing-init", name := "Throwing init", type := "JS", tags := [], perf := "",
    load := some Behaviour.returns, init := Behaviour.throws,
    teardown := some Behaviour.returns,
    markup := ["div"], initReplaces := true, cleanupClears := true }

/-- A descriptor outside the registry whose `load` promise rejects. -/
def effectRejectingLoad : Effect :=
  { id := "rejecting-load", name := "Rejecting load", type := "JS", tags := [], perf := "",
    load := some Behaviour.throws, init := Behaviour.returns,
    teardown := some Behaviour.returns,
    markup := ["div"], initReplaces := true, cleanupClears := true }

/-- A descriptor outside the registry whose `teardown` throws. -/
def effectThrowingTeardown : Effect :=
  { id := "throwing-teardown", name := "Throwing teardown", type := "JS", tags := [],
    perf := "",
    load := some Behaviour.returns, init := Behaviour.returns,
    teardown := some Behaviour.throws,
    markup := ["div"], initReplaces := true, cleanupClears := false }

/-- The registry entry `effectRippleButton`: `init` assigns `container.innerHTML`,
the cleanup removes one listener. -/
def effectRippleButton : Effect :=
  { id := "js-ripple-button", name := "Ripple Button (Click)", type := "JS+CSS",
    tags := ["interaction", "css", "micro-interaction"], perf := "GPU-light",
    load := some Behaviour.returns, init := Behaviour.returns,
    teardown := some Behaviour.returns,
    markup := ["style", "div"], initReplaces := true, cleanupClears := false }

/-- A bare descriptor with the given `type` and `tags`, as in the examples of the
specification; the other fields are those of a well-behaved effect that draws
nothing. -/
def descriptor (id type : String) (tags : List String) : Effect :=
  { id := id, name := id, type := type, tags := tags, perf := "",
    load := some Behaviour.returns, init := Behaviour.returns,
    teardown := some Behaviour.returns,
    markup := [], initReplaces := true, cleanupClears := true }

/-- The registry of the filter example: `A` tagged `css`, `B` tagged `svg`, `C`
tagged `css` and `svg`. -/
def exampleRegistry : List Effect :=
  [descriptor "A" "" ["css"], descriptor "B" "" ["svg"], descriptor "C" "" ["css", "svg"]]

/-- The first entries of `EFFECTS` that are modelled here, in registry order. -/
def registryHead : List Effect :=
  [effectMagneticButton, effectParticleFountain, effectRippleButton]

/-! ## Lemmas on single operations -/

theorem eventsSince_of_trace_eq (w w' : World) (l : List Event)
    (h : w'.trace = w.trace ++ l) : eventsSince w w' = l := by
  simp [eventsSince, h]

theorem eventsSince_self (w : World) : eventsSince w w = [] := by
  simp [eventsSince]

/-- A run of `openDemo` that completes: the conditions under which it does and the
state it leaves. -/
theorem openDemo_normal_iff (e : Effect) (w w' : World) :
    openDemo e w = (Completion.normal, w') ↔
      (e.init = Behaviour.returns ∧ e.load ≠ some Behaviour.throws ∧
        (∀ a, w.activeEffect = some a → a.teardown ≠ some Behaviour.throws) ∧
        w' = { activeEffect := some e,
               sandbox := e.markup, modalOpen := true, iridescentBg := false,
               trace := w.trace ++ teardownEvents w ++ loadEvents e ++ [Event.init e] }) := by
  rw [eq_comm (a := w')]
  obtain ⟨act, sb, mo, bg, tr⟩ := w
  rcases act with _ | a
  · rcases hl : e.load with _ | _ | _ <;> rcases hi : e.init with _ | _ <;>
      simp [openDemo, openDemoStart, openDemoResume, callActiveTeardown, teardownEvents,
        loadEvents, hl, hi]
  · rcases ht : a.teardown with _ | _ | _ <;> rcases hl : e.load with _ | _ | _ <;>
      rcases hi : e.init with _ | _ <;>
      simp [openDemo, openDemoStart, openDemoResume, callActiveTeardown, teardownEvents,
        loadEvents, hl, hi, ht]

/-- What a completed run of `openDemo` leaves in `activeEffect` and in the trace. -/
theorem openDemo_normal (e : Effect) (w w' : World)
    (h : openDemo e w = (Completion.normal, w')) :
    w'.activeEffect = some e ∧
      w'.trace = w.trace ++ teardownEvents w ++ loadEvents e ++ [Event.init e] := by
  obtain ⟨-, -, -, rfl⟩ := (openDemo_normal_iff e w w').mp h
  exact ⟨rfl, rfl⟩

theorem count_teardown_loadEvents (a e : Effect) :
    (loadEvents e).count (Event.teardown a) = 0 := by
  unfold loadEvents
  split <;> simp

theorem count_init_loadEvents (a e : Effect) :
    (loadEvents e).count (Event.init a) = 0 := by
  unfold loadEvents
  split <;> simp

/-! ## Switching between effects -/

/-- C1: from a state with no active effect, once `select(X)` has completed and then
`select(Y)` has completed, the first select made no call of `X.teardown`, the second
select made exactly the calls `X.teardown`, then `Y.load`, then `Y.init`, so
`X.teardown` was called exactly once and before `Y.init`, and the recorded active
effect is `Y`. -/
theorem select_select_tears_down_once (X Y : Effect) (w w1 w2 : World)
    (hidle : w.activeEffect = none) (hT : X.teardown ≠ none)
    (hX : openDemo X w = (Completion.normal, w1))
    (hY : openDemo Y w1 = (Completion.normal, w2)) :
    w2.activeEffect = some Y ∧
      eventsSince w w1 = loadEvents X ++ [Event.init X] ∧
      eventsSince w1 w2 = Event.teardown X :: (loadEvents Y ++ [Event.init Y]) ∧
      eventsSince w w2 =
        loadEvents X ++ [Event.init X] ++ Event.teardown X :: (loadEvents Y ++ [Event.init Y]) ∧
      (eventsSince w w2).count (Event.teardown X) = 1 := by
  have hT1 : X.teardown.isSome = true := Option.isSome_iff_ne_none.mpr hT
  obtain ⟨hXa, hXt⟩ := openDemo_normal X w w1 hX
  obtain ⟨hYa, hYt⟩ := openDemo_normal Y w1 w2 hY
  simp only [teardownEvents, hidle, List.append_nil] at hXt
  simp only [teardownEvents, hXa, hT1, if_true] at hYt
  have e1 : eventsSince w w1 = loadEvents X ++ [Event.init X] :=
    eventsSince_of_trace_eq w w1 _ (by simp [hXt])
  have e2 : eventsSince w1 w2 = Event.teardown X :: (loadEvents Y ++ [Event.init Y]) :=
    eventsSince_of_trace_eq w1 w2 _ (by simp [hYt])
  have e3 : eventsSince w w2 =
      loadEvents X ++ [Event.init X] ++ Event.teardown X :: (loadEvents Y ++ [Event.init Y]) :=
    eventsSince_of_trace_eq w w2 _ (by simp [hYt, hXt])
  refine ⟨hYa, e1, e2, e3, ?_⟩
  rw [e3]
  simp [List.count_append, List.count_cons, count_teardown_loadEvents]

/-- C1 at the registry entries `effectMagneticButton` and `effectParticleFountain`,
selected in this order from the initial state. -/
theorem select_select_tears_down_once_witness :
    (World.initial.activeEffect = none ∧ effectMagneticButton.teardown ≠ none) ∧
      ((openDemo effectParticleFountain
          (openDemo effectMagneticButton World.initial).2).2.activeEffect =
          some effectParticleFountain ∧
        (eventsSince World.initial
          (openDemo effectParticleFountain
            (openDemo effectMagneticButton World.initial).2).2).count
          (Event.teardown effectMagneticButton) = 1) :=
  have h := select_select_tears_down_once effectMagneticButton effectParticleFountain
    World.initial (openDemo effectMagneticButton World.initial).2
    (openDemo effectParticleFountain (openDemo effectMagneticButton World.initial).2).2
    rfl (by decide) rfl rfl
  ⟨⟨rfl, by decide⟩, h.1, h.2.2.2.2⟩

/-- The synchronous half of `openDemo` when the active effect has a `teardown` that
returns: the teardown call, then the call of `load` if the method exists. -/
theorem openDemoStart_active (e a : Effect) (w : World)
    (hact : w.activeEffect = some a) (hta : a.teardown = some Behaviour.returns) :
    ∃ w1, openDemoStart e w = (Completion.normal, w1) ∧
      w1.activeEffect = some a ∧ w1.sandbox = [] ∧ w1.modalOpen = true ∧
      w1.trace = w.trace ++ Event.teardown a ::
        (if e.load.isSome then [Event.loadStart e] else []) := by
  rcases hl : e.load with _ | b <;>
    simp [openDemoStart, callActiveTeardown, hact, hta, hl]

/-- C2: within one `select(e2)` issued while `e` is active and `e.teardown()` returns,
with `e2` having a `load` method: any call of `e2.init` is preceded by exactly the
calls `e.teardown`, `e2.load` and the resolution of the awaited promise, in this
order; and when the promise resolves the synchronous half makes the calls
`e.teardown`, `e2.load`, the resumed half makes the call `e2.init` after the
resolution, so the whole select makes `e.teardown`, `e2.load` (start, end),
`e2.init`. -/
theorem select_orders_teardown_load_init (e e2 : Effect) (w : World)
    (hact : w.activeEffect = some e) (ht : e.teardown = some Behaviour.returns)
    (hl : e2.load ≠ none) :
    (∀ pre post, eventsSince w (openDemo e2 w).2 = pre ++ Event.init e2 :: post →
        pre = [Event.teardown e, Event.loadStart e2, Event.loadEnd e2]) ∧
      (e2.load = some Behaviour.returns →
        ∃ w1, openDemoStart e2 w = (Completion.normal, w1) ∧
          eventsSince w w1 = [Event.teardown e, Event.loadStart e2] ∧
          eventsSince w1 (openDemoResume e2 w1).2 = [Event.loadEnd e2, Event.init e2] ∧
          eventsSince w (openDemo e2 w).2 =
            [Event.teardown e, Event.loadStart e2, Event.loadEnd e2, Event.init e2]) := by
  obtain ⟨w1, hs, -, -, -, htr⟩ := openDemoStart_active e2 e w hact ht
  rcases hl2 : e2.load with _ | b
  · exact absurd hl2 hl
  simp only [hl2, Option.isSome_some, if_true] at htr
  rcases b with _ | _
  · -- the promise resolves
    have hr : (openDemoResume e2 w1).2.trace =
        w1.trace ++ [Event.loadEnd e2, Event.init e2] := by
      rcases hi : e2.init with _ | _ <;> simp [openDemoResume, hl2, hi]
    have hfull : eventsSince w (openDemo e2 w).2 =
        [Event.teardown e, Event.loadStart e2, Event.loadEnd e2, Event.init e2] := by
      apply eventsSince_of_trace_eq
      simp [openDemo, hs, hr, htr]
    refine ⟨?_, fun _ => ⟨w1, hs, ?_, ?_, hfull⟩⟩
    · intro pre post h
      rw [hfull] at h
      rcases pre with _ | ⟨a, _ | ⟨b, _ | ⟨c, _ | ⟨d, pre⟩⟩⟩⟩ <;> simp at h ⊢
      · obtain ⟨rfl, rfl, rfl, -⟩ := h
        exact ⟨rfl, rfl, rfl⟩
    · exact eventsSince_of_trace_eq w w1 _ htr
    · exact eventsSince_of_trace_eq w1 _ _ hr
  · -- the promise rejects: `init` is not called
    have hfull : eventsSince w (openDemo e2 w).2 =
        [Event.teardown e, Event.loadStart e2, Event.loadRejected e2] := by
      apply eventsSince_of_trace_eq
      simp [openDemo, hs, openDemoResume, hl2, htr]
    refine ⟨?_, fun h => by simp at h⟩
    intro pre post h
    rw [hfull] at h
    rcases pre with _ | ⟨a, _ | ⟨b, _ | ⟨c, _ | ⟨d, pre⟩⟩⟩⟩ <;> simp at h

/-- C2 at the registry entries: `effectParticleFountain` selected while
`effectMagneticButton` is active. -/
theorem select_orders_teardown_load_init_witness :
    ((openDemo effectMagneticButton World.initial).2.activeEffect =
        some effectMagneticButton ∧
      effectMagneticButton.teardown = some Behaviour.returns ∧
      effectParticleFountain.load ≠ none) ∧
    eventsSince (openDemo effectMagneticButton World.initial).2
        (openDemo effectParticleFountain (openDemo effectMagneticButton World.initial).2).2 =
      [Event.teardown effectMagneticButton, Event.loadStart effectParticleFountain,
        Event.loadEnd effectParticleFountain, Event.init effectParticleFountain] :=
  have h := (select_orders_teardown_load_init effectMagneticButton effectParticleFountain
    (openDemo effectMagneticButton World.initial).2 rfl rfl (by decide)).2 rfl
  ⟨⟨rfl, rfl, by decide⟩, h.choose_spec.2.2.2⟩

/-! ## Sequences of selects followed by a close -/

theorem run_nil (w : World) : run [] w = w := rfl

theorem run_cons (op : Op) (ops : List Op) (w : World) :
    run (op :: ops) w = run ops (op.apply w) := rfl

theorem run_append (l1 l2 : List Op) (w : World) :
    run (l1 ++ l2) w = run l2 (run l1 w) := by
  simp [run, List.foldl_append]

/-- A well-behaved effect selected while no effect is recorded. -/
theorem openDemo_wellBehaved_idle (e : Effect) (w : World)
    (hidle : w.activeEffect = none) (he : e.wellBehaved) :
    ∃ w1, openDemo e w = (Completion.normal, w1) ∧ w1.activeEffect = some e ∧
      w1.modalOpen = true ∧ w1.trace = w.trace ++ (loadEvents e ++ [Event.init e]) := by
  obtain ⟨hl, hi, -⟩ := he
  refine ⟨_, (openDemo_normal_iff e w _).mpr ⟨hi, hl, ?_, rfl⟩, rfl, rfl, ?_⟩
  · intro a ha
    rw [hidle] at ha
    exact absurd ha (by simp)
  · simp [teardownEvents, hidle]

/-- A well-behaved effect selected while `a`, whose `teardown` returns, is recorded. -/
theorem openDemo_wellBehaved_active (e a : Effect) (w : World)
    (hact : w.activeEffect = some a) (hta : a.teardown = some Behaviour.returns)
    (he : e.wellBehaved) :
    ∃ w1, openDemo e w = (Completion.normal, w1) ∧ w1.activeEffect = some e ∧
      w1.modalOpen = true ∧
      w1.trace = w.trace ++ Event.teardown a :: (loadEvents e ++ [Event.init e]) := by
  obtain ⟨hl, hi, -⟩ := he
  refine ⟨_, (openDemo_normal_iff e w _).mpr ⟨hi, hl, ?_, rfl⟩, rfl, rfl, ?_⟩
  · intro b hb
    rw [hact] at hb
    cases hb
    simp [hta]
  · simp [teardownEvents, hact, hta]

/-- Closing the open dialog while `a`, whose `teardown` returns, is recorded: one call
of `a.teardown`; `activeEffect` is not assigned. -/
theorem closeModal_active (a : Effect) (w : World)
    (hact : w.activeEffect = some a) (hta : a.teardown = some Behaviour.returns)
    (hopen : w.modalOpen = true) :
    ∃ w1, closeModal w = (Completion.normal, w1) ∧ w1.activeEffect = some a ∧
      w1.modalOpen = false ∧ w1.trace = w.trace ++ [Event.teardown a] := by
  simp only [closeModal, hopen, if_true, closeListener, callActiveTeardown, hact, hta,
    startIridescentBackground]
  split <;> exact ⟨_, rfl, rfl, rfl, rfl⟩

/-- Selects of well-behaved effects, then a close, started while `a` is recorded and
the dialog is open: `a` is torn down first, then every selected effect is loaded,
mounted and torn down, in order. -/
theorem run_selects_close_active (es : List Effect) :
    ∀ (a : Effect) (w : World), w.activeEffect = some a →
      a.teardown = some Behaviour.returns → w.modalOpen = true →
      (∀ e ∈ es, e.wellBehaved) →
      (run (es.map Op.select ++ [Op.close]) w).trace =
        w.trace ++ Event.teardown a :: expectedFullTrace es := by
  induction es with
  | nil =>
    intro a w hact hta hopen _
    obtain ⟨w1, hc, -, -, htr⟩ := closeModal_active a w hact hta hopen
    simp [run, Op.apply, hc, htr, expectedFullTrace]
  | cons e es ih =>
    intro a w hact hta hopen hwb
    have he : e.wellBehaved := hwb e (List.mem_cons_self _ _)
    obtain ⟨w1, ho, hact1, hopen1, htr1⟩ := openDemo_wellBehaved_active e a w hact hta he
    have hrest := ih e w1 hact1 he.2.2 hopen1
      (fun x hx => hwb x (List.mem_cons_of_mem _ hx))
    simp only [List.map_cons, List.cons_append, run_cons, Op.apply, ho]
    rw [hrest, htr1]
    simp [expectedFullTrace]

theorem filter_isMountEvent_loadEvents (e : Effect) :
    (loadEvents e).filter isMountEvent = [] := by
  unfold loadEvents
  split <;> simp [isMountEvent]

theorem filter_isMountEvent_expectedFullTrace (es : List Effect) :
    (expectedFullTrace es).filter isMountEvent = expectedMountTrace es := by
  induction es with
  | nil => rfl
  | cons e es ih =>
    simp [expectedFullTrace, expectedMountTrace, List.filter_append,
      filter_isMountEvent_loadEvents, isMountEvent, ih]

/-- C3: for every non-empty sequence of well-behaved effects selected one after
another from a state with no active effect, each select completing before the next,
and followed by one close, the calls made are, for each effect in order, its `load`,
its `init` and its `teardown`; the mount and unmount calls among them are exactly
`[e1.init, e1.teardown, ..., en.init, en.teardown]`, which for two effects `a`, `b`
is `[a.init, a.teardown, b.init, b.teardown]`. -/
theorem selects_then_close_trace (es : List Effect) (w : World)
    (hne : es ≠ []) (hidle : w.activeEffect = none) (hwb : ∀ e ∈ es, e.wellBehaved) :
    eventsSince w (run (es.map Op.select ++ [Op.close]) w) = expectedFullTrace es ∧
      (eventsSince w (run (es.map Op.select ++ [Op.close]) w)).filter isMountEvent =
        expectedMountTrace es ∧
      (∀ a b, es = [a, b] →
        (eventsSince w (run (es.map Op.select ++ [Op.close]) w)).filter isMountEvent =
          [Event.init a, Event.teardown a, Event.init b, Event.teardown b]) := by
  have hfull : eventsSince w (run (es.map Op.select ++ [Op.close]) w) =
      expectedFullTrace es := by
    rcases es with _ | ⟨e, es⟩
    · exact absurd rfl hne
    have he : e.wellBehaved := hwb e (List.mem_cons_self _ _)
    obtain ⟨w1, ho, hact1, hopen1, htr1⟩ := openDemo_wellBehaved_idle e w hidle he
    have hrest := run_selects_close_active es e w1 hact1 he.2.2 hopen1
      (fun x hx => hwb x (List.mem_cons_of_mem _ hx))
    apply eventsSince_of_trace_eq
    simp only [List.map_cons, List.cons_append, run_cons, Op.apply, ho]
    rw [hrest, htr1]
    simp [expectedFullTrace]
  have hmount : (eventsSince w (run (es.map Op.select ++ [Op.close]) w)).filter
      isMountEvent = expectedMountTrace es := by
    rw [hfull, filter_isMountEvent_expectedFullTrace]
  refine ⟨hfull, hmount, ?_⟩
  intro a b hab
  rw [hmount, hab]
  rfl

/-- C3 at the registry entries `effectMagneticButton`, `effectParticleFountain`:
select, select, close from the initial state. -/
theorem selects_then_close_trace_witness :
    ([effectMagneticButton, effectParticleFountain] ≠ [] ∧
      World.initial.activeEffect = none ∧
      ∀ e ∈ [effectMagneticButton, effectParticleFountain], e.wellBehaved) ∧
    (eventsSince World.initial
        (run [Op.select effectMagneticButton, Op.select effectParticleFountain, Op.close]
          World.initial)).filter isMountEvent =
      [Event.init effectMagneticButton, Event.teardown effectMagneticButton,
        Event.init effectParticleFountain, Event.teardown effectParticleFountain] :=
  have hwb : ∀ e ∈ [effectMagneticButton, effectParticleFountain], e.wellBehaved := by
    decide
  ⟨⟨by simp, rfl, hwb⟩,
    (selects_then_close_trace [effectMagneticButton, effectParticleFountain] World.initial
      (by simp) rfl hwb).2.1⟩

/-! ## Closing the dialog -/

/-- C4, as stated, fails: after `effectMagneticButton` was selected and the dialog
closed, `activeEffect` still holds `effectMagneticButton` (the manager is not idle),
and selecting `effectParticleFountain` next calls `effectMagneticButton.teardown` a
second time. -/
theorem close_leaves_effect_recorded :
    (closeModal (openDemo effectMagneticButton World.initial).2).2.activeEffect =
        some effectMagneticButton ∧
      eventsSince (closeModal (openDemo effectMagneticButton World.initial).2).2
          (openDemo effectParticleFountain
            (closeModal (openDemo effectMagneticButton World.initial).2).2).2 =
        [Event.teardown effectMagneticButton, Event.loadStart effectParticleFountain,
          Event.loadEnd effectParticleFountain, Event.init effectParticleFountain] ∧
      (openDemo effectParticleFountain
          (closeModal (openDemo effectMagneticButton World.initial).2).2).2.trace.count
        (Event.teardown effectMagneticButton) = 2 := by
  decide

/-- C4 as amended: closing the open dialog while `e` is active (with a `teardown` that
returns) calls `e.teardown()` once and leaves `e` recorded in `activeEffect`; a
following select of a well-behaved `Y` therefore begins with a second call of
`e.teardown()`, before `Y.load` and `Y.init`, and records `Y`; a second close of the
dialog, which is already closed, fires no `close` event and changes nothing, while
the listener itself, run once more, would call `e.teardown()` again. -/
theorem close_calls_teardown_keeps_active (e : Effect) (w : World)
    (hact : w.activeEffect = some e) (hta : e.teardown = some Behaviour.returns)
    (hopen : w.modalOpen = true) :
    ∃ w1, closeModal w = (Completion.normal, w1) ∧
      eventsSince w w1 = [Event.teardown e] ∧
      w1.activeEffect = some e ∧
      (∀ Y : Effect, Y.wellBehaved →
        ∃ w2, openDemo Y w1 = (Completion.normal, w2) ∧
          eventsSince w1 w2 = Event.teardown e :: (loadEvents Y ++ [Event.init Y]) ∧
          w2.activeEffect = some Y) ∧
      closeModal w1 = (Completion.normal, w1) ∧
      eventsSince w1 (closeListener w1).2 = [Event.teardown e] := by
  obtain ⟨w1, hc, hact1, hopen1, htr1⟩ := closeModal_active e w hact hta hopen
  refine ⟨w1, hc, eventsSince_of_trace_eq w w1 _ htr1, hact1, ?_, ?_, ?_⟩
  · intro Y hY
    obtain ⟨w2, ho, hact2, -, htr2⟩ := openDemo_wellBehaved_active Y e w1 hact1 hta hY
    exact ⟨w2, ho, eventsSince_of_trace_eq w1 w2 _ htr2, hact2⟩
  · simp [closeModal, hopen1]
  · apply eventsSince_of_trace_eq
    simp only [closeListener, callActiveTeardown, hact1, hta, startIridescentBackground]
    split <;> rfl

/-- C4 as amended, at `effectMagneticButton` active after its select from the initial
state. -/
theorem close_calls_teardown_keeps_active_witness :
    ((openDemo effectMagneticButton World.initial).2.activeEffect =
        some effectMagneticButton ∧
      effectMagneticButton.teardown = some Behaviour.returns ∧
      (openDemo effectMagneticButton World.initial).2.modalOpen = true) ∧
    ∃ w1, closeModal (openDemo effectMagneticButton World.initial).2 =
        (Completion.normal, w1) ∧ w1.activeEffect = some effectMagneticButton :=
  have h := close_calls_teardown_keeps_active effectMagneticButton
    (openDemo effectMagneticButton World.initial).2 rfl rfl rfl
  ⟨⟨rfl, rfl, rfl⟩, h.elim fun w1 hw => ⟨w1, hw.1, hw.2.2.1⟩⟩

/-! ## At most one mounted effect -/

theorem mounted_append (t l : List Event) :
    mounted (t ++ l) = l.foldl mountedStep (mounted t) := by
  simp [mounted, List.foldl_append]

/-- C5, as stated, fails: when `openDemo(effectParticleFountain)` begins while
`openDemo(effectMagneticButton)` is suspended at its `await`, neither call finds an
active effect to tear down, both resume, and both effects are mounted. -/
theorem interleaved_selects_mount_two :
    mounted (Config.exec Config.initial
        [Action.select effectMagneticButton, Action.select effectParticleFountain,
          Action.resume 0, Action.resume 0]).world.trace =
      [effectMagneticButton, effectParticleFountain] ∧
    ¬ (mounted (Config.exec Config.initial
        [Action.select effectMagneticButton, Action.select effectParticleFountain,
          Action.resume 0, Action.resume 0]).world.trace).length ≤ 1 := by
  decide

theorem mountedIsActive_callActiveTeardown (w : World) (hJ : MountedIsActive w) :
    (callActiveTeardown w).2.activeEffect = w.activeEffect ∧
      mounted (callActiveTeardown w).2.trace = [] := by
  obtain ⟨hT, hM⟩ := hJ
  rcases hact : w.activeEffect with _ | a
  · rcases hM with h | ⟨a, ha, -⟩
    · simp [callActiveTeardown, hact, h]
    · rw [hact] at ha; cases ha
  · have hta := hT a hact
    rcases ht : a.teardown with _ | b
    · exact absurd ht hta
    · have hm : mounted (w.trace ++ [Event.teardown a]) = [] := by
        rw [mounted_append]
        rcases hM with h | ⟨a2, ha2, h⟩
        · simp [h, mountedStep]
        · rw [hact] at ha2; cases ha2
          simp [h, mountedStep]
      rcases b with _ | _ <;> simp [callActiveTeardown, hact, ht, hm]


theorem mountedIsActive_openDemo (e : Effect) (w : World)
    (hi : e.init = Behaviour.returns) (ht : e.teardown ≠ none)
    (hJ : MountedIsActive w) : MountedIsActive (openDemo e w).2 := by
  have h0 := mountedIsActive_callActiveTeardown { w with iridescentBg := false } hJ
  unfold openDemo openDemoStart
  rcases hc : callActiveTeardown { w with iridescentBg := false } with ⟨c, w1⟩
  rw [hc] at h0
  obtain ⟨ha, hm⟩ := h0
  simp only at ha hm
  have hkeep : MountedIsActive w1 :=
    ⟨fun a h => hJ.1 a (by rw [← h, ha]), Or.inl hm⟩
  cases c
  · rcases hl : e.load with _ | _ | _
    · refine ⟨?_, Or.inr ⟨e, ?_, ?_⟩⟩ <;>
        simp [openDemoResume, hl, hi, mounted_append, hm, mountedStep, ht]
    · refine ⟨?_, Or.inr ⟨e, ?_, ?_⟩⟩ <;>
        simp [openDemoResume, hl, hi, mounted_append, hm, mountedStep, ht]
    · refine ⟨?_, Or.inl ?_⟩
      · simpa [openDemoResume, hl] using hkeep.1
      · simp [openDemoResume, hl, mounted_append, hm, mountedStep]
  all_goals exact hkeep

theorem mountedIsActive_closeModal (w : World) (hJ : MountedIsActive w) :
    MountedIsActive (closeModal w).2 := by
  unfold closeModal
  split
  · have h0 := mountedIsActive_callActiveTeardown { w with modalOpen := false } hJ
    unfold closeListener
    rcases hc : callActiveTeardown { w with modalOpen := false } with ⟨c, w1⟩
    rw [hc] at h0
    obtain ⟨ha, hm⟩ := h0
    simp only at ha hm
    have hkeep : MountedIsActive w1 :=
      ⟨fun a h => hJ.1 a (by rw [← h, ha]), Or.inl hm⟩
    cases c
    · simp only [startIridescentBackground]
      split
      · exact hkeep
      · exact hkeep
    all_goals exact hkeep
  · exact hJ

theorem mountedIsActive_initial : MountedIsActive World.initial := by
  refine ⟨fun a h => ?_, Or.inl rfl⟩
  cases h

theorem mountedIsActive_run (ops : List Op) :
    ∀ w : World, MountedIsActive w →
      (∀ e, Op.select e ∈ ops → e.init = Behaviour.returns ∧ e.teardown ≠ none) →
      MountedIsActive (run ops w) := by
  induction ops with
  | nil => intro w hJ _; exact hJ
  | cons op ops ih =>
    intro w hJ hops
    rw [run_cons]
    apply ih
    · cases op with
      | select e =>
        obtain ⟨hi, ht⟩ := hops e (List.mem_cons_self _ _)
        exact mountedIsActive_openDemo e w hi ht hJ
      | close => exact mountedIsActive_closeModal w hJ
    · intro e he
      exact hops e (List.mem_cons_of_mem _ he)

/-- Between operations that each run to completion, at most one effect is mounted,
provided every selected effect has a `teardown` method and an `init` that returns. -/
theorem sequential_runs_mount_at_most_one (ops : List Op)
    (hops : ∀ e, Op.select e ∈ ops → e.init = Behaviour.returns ∧ e.teardown ≠ none) :
    (mounted (run ops World.initial).trace).length ≤ 1 := by
  rcases (mountedIsActive_run ops World.initial mountedIsActive_initial hops).2 with
    h | ⟨a, -, h⟩ <;> simp [h]

theorem SerializedInv.toMountedIsActive (c : Config) (h : SerializedInv c) :
    MountedIsActive c.world :=
  ⟨h.hasTeardown, h.mountedOk.imp id (fun h => h.2)⟩

theorem serializedInv_select (c : Config) (e : Effect) (h : SerializedInv c)
    (hp : c.pending = []) (he : e.init = Behaviour.returns ∧ e.teardown ≠ none) :
    SerializedInv (c.step (Action.select e)) := by
  have h0 := mountedIsActive_callActiveTeardown { c.world with iridescentBg := false }
    h.toMountedIsActive
  simp only [Config.step, openDemoStart]
  rcases hc : callActiveTeardown { c.world with iridescentBg := false } with ⟨k, w1⟩
  rw [hc] at h0
  obtain ⟨ha, hm⟩ := h0
  simp only at ha hm
  have hT : ∀ a, w1.activeEffect = some a → a.teardown ≠ none :=
    fun a h1 => h.hasTeardown a (by rw [← h1, ha])
  cases k
  · rcases hl : e.load with _ | b
    · exact ⟨hT, by simpa [hp] using he, by simp [hp], Or.inl hm⟩
    · exact ⟨hT, by simpa [hp] using he, by simp [hp],
        Or.inl (by simp [mounted_append, hm, mountedStep])⟩
  all_goals exact ⟨hT, by simp [hp], by simp [hp], Or.inl hm⟩

theorem serializedInv_resume (c : Config) (i : Nat) (h : SerializedInv c) :
    SerializedInv (c.step (Action.resume i)) := by
  simp only [Config.step]
  rcases hg : c.pending.get? i with _ | e
  · exact h
  · obtain ⟨w, ps⟩ := c
    rcases ps with _ | ⟨p, _ | ⟨q, ps⟩⟩
    · simp at hg
    · rcases i with _ | i
      · simp at hg
        subst hg
        obtain ⟨hi, ht⟩ := h.pendingOk p (by simp)
        have hm : mounted w.trace = [] := by
          rcases h.mountedOk with h1 | ⟨h1, -⟩
          · exact h1
          · simp at h1
        rcases hl : p.load with _ | _ | _
        · refine ⟨?_, by simp, by simp, Or.inr ⟨by simp, p, ?_, ?_⟩⟩ <;>
            simp [openDemoResume, hl, hi, mounted_append, hm, mountedStep, ht]
        · refine ⟨?_, by simp, by simp, Or.inr ⟨by simp, p, ?_, ?_⟩⟩ <;>
            simp [openDemoResume, hl, hi, mounted_append, hm, mountedStep, ht]
        · refine ⟨?_, by simp, by simp, Or.inl ?_⟩
          · simpa [openDemoResume, hl] using h.hasTeardown
          · simp [openDemoResume, hl, mounted_append, hm, mountedStep]
      · simp at hg
    · have := h.pendingShort
      simp at this

theorem serializedInv_close (c : Config) (h : SerializedInv c) :
    SerializedInv (c.step Action.close) := by
  have hJ := mountedIsActive_closeModal c.world h.toMountedIsActive
  have ha : (closeModal c.world).2.activeEffect = c.world.activeEffect ∧
      ((closeModal c.world).2.trace = c.world.trace ∨
        mounted (closeModal c.world).2.trace = []) := by
    unfold closeModal
    split
    · have h0 := mountedIsActive_callActiveTeardown { c.world with modalOpen := false }
        h.toMountedIsActive
      unfold closeListener
      rcases hc : callActiveTeardown { c.world with modalOpen := false } with ⟨k, w1⟩
      rw [hc] at h0
      cases k <;> simp only [startIridescentBackground] <;> try split
      all_goals exact ⟨h0.1, Or.inr h0.2⟩
    · exact ⟨rfl, Or.inl rfl⟩
  simp only [Config.step]
  refine ⟨fun a h1 => h.hasTeardown a (by rw [← h1, ha.1]), h.pendingOk, h.pendingShort, ?_⟩
  rcases ha.2 with h2 | h2
  · rw [h2, ha.1]; exact h.mountedOk
  · exact Or.inl h2

theorem serializedInv_exec (as : List Action) :
    ∀ c : Config, SerializedInv c → serialized c as = true →
      (∀ e, Action.select e ∈ as → e.init = Behaviour.returns ∧ e.teardown ≠ none) →
      SerializedInv (c.exec as) := by
  induction as with
  | nil => intro c h _ _; exact h
  | cons a as ih =>
    intro c h hs hes
    simp only [serialized, Bool.and_eq_true] at hs
    have hstep : SerializedInv (c.step a) := by
      cases a with
      | select e =>
        exact serializedInv_select c e h (by simpa using hs.1)
          (hes e (List.mem_cons_self _ _))
      | resume i => exact serializedInv_resume c i h
      | close => exact serializedInv_close c h
    exact ih (c.step a) hstep hs.2 (fun e he => hes e (List.mem_cons_of_mem _ he))

theorem serializedInv_initial : SerializedInv Config.initial := by
  refine ⟨fun a h => ?_, fun e h => ?_, by simp [Config.initial], Or.inl rfl⟩
  · cases h
  · simp [Config.initial] at h

/-- C5 as amended: in every state reached by a schedule in which no call of `openDemo`
begins while an earlier one is suspended at its `await` (the states in which a call
is suspended included), and in which every selected effect has a `teardown` method and
an `init` that returns, at most one effect is mounted. -/
theorem serialized_selects_mount_at_most_one (as : List Action)
    (hs : serialized Config.initial as = true)
    (hes : ∀ e, Action.select e ∈ as → e.init = Behaviour.returns ∧ e.teardown ≠ none) :
    (mounted (Config.exec Config.initial as).world.trace).length ≤ 1 := by
  rcases (serializedInv_exec as Config.initial serializedInv_initial hs hes).mountedOk with
    h | ⟨-, a, -, h⟩ <;> simp [h]

/-- C5 as amended, at a serialized schedule over the two registry entries: select,
resume, select, close while suspended, resume. -/
theorem serialized_selects_mount_at_most_one_witness :
    serialized Config.initial
        [Action.select effectMagneticButton, Action.resume 0,
          Action.select effectParticleFountain, Action.close, Action.resume 0] = true ∧
      (mounted (Config.exec Config.initial
        [Action.select effectMagneticButton, Action.resume 0,
          Action.select effectParticleFountain, Action.close, Action.resume 0]).world.trace).length
        ≤ 1 :=
  ⟨by decide,
    serialized_selects_mount_at_most_one
      [Action.select effectMagneticButton, Action.resume 0,
        Action.select effectParticleFountain, Action.close, Action.resume 0]
      (by decide)
      (by
        intro e he
        simp only [List.mem_cons, Action.select.injEq, List.mem_singleton, reduceCtorEq,
          false_or, or_false, List.not_mem_nil] at he
        rcases he with rfl | rfl <;> exact ⟨rfl, by decide⟩)⟩

/-! ## Selecting the active effect again -/

theorem count_init_teardownEvents (e : Effect) (w : World) :
    (teardownEvents w).count (Event.init e) = 0 := by
  unfold teardownEvents
  rcases w.activeEffect with _ | a
  · simp
  · simp only
    split <;> simp

/-- C6: selecting the effect that is already active is not skipped.  For a
well-behaved `e` recorded as active, `select(e)` completes, makes one call of
`e.teardown`, then the calls of `e.load`, then one call of `e.init`, and records `e`;
these are the calls made when `e` is selected while a different effect `a` is active,
with `e.teardown` in the place of `a.teardown`. -/
theorem reselect_tears_down_and_mounts (e : Effect) (w : World)
    (hact : w.activeEffect = some e) (he : e.wellBehaved) :
    ∃ w1, openDemo e w = (Completion.normal, w1) ∧ w1.activeEffect = some e ∧
      eventsSince w w1 = Event.teardown e :: (loadEvents e ++ [Event.init e]) ∧
      (eventsSince w w1).count (Event.teardown e) = 1 ∧
      (eventsSince w w1).count (Event.init e) = 1 ∧
      (∀ (a : Effect) (v : World), v.activeEffect = some a →
        a.teardown = some Behaviour.returns →
        eventsSince v (openDemo e v).2 =
          Event.teardown a :: (loadEvents e ++ [Event.init e])) := by
  obtain ⟨w1, ho, hact1, -, htr1⟩ := openDemo_wellBehaved_active e e w hact he.2.2 he
  have hev := eventsSince_of_trace_eq w w1 _ htr1
  refine ⟨w1, ho, hact1, hev, ?_, ?_, ?_⟩
  · rw [hev]
    simp [List.count_append, List.count_cons, count_teardown_loadEvents]
  · rw [hev]
    simp [List.count_append, List.count_cons, count_init_loadEvents]
  · intro a v hv hta
    obtain ⟨v1, hov, -, -, htrv⟩ := openDemo_wellBehaved_active e a v hv hta he
    rw [hov]
    exact eventsSince_of_trace_eq v v1 _ htrv

/-- C6 at `effectParticleFountain`, selected while it is active. -/
theorem reselect_tears_down_and_mounts_witness :
    ((openDemo effectParticleFountain World.initial).2.activeEffect =
        some effectParticleFountain ∧ effectParticleFountain.wellBehaved) ∧
    eventsSince (openDemo effectParticleFountain World.initial).2
        (openDemo effectParticleFountain
          (openDemo effectParticleFountain World.initial).2).2 =
      [Event.teardown effectParticleFountain, Event.loadStart effectParticleFountain,
        Event.loadEnd effectParticleFountain, Event.init effectParticleFountain] :=
  have h := reselect_tears_down_and_mounts effectParticleFountain
    (openDemo effectParticleFountain World.initial).2 rfl (by decide)
  ⟨⟨rfl, by decide⟩,
    h.elim fun w1 hw => by
      have h1 := hw.1
      have h3 := hw.2.2.1
      rw [h1]
      exact h3⟩

/-! ## Failing mounts -/

/-- A run of `openDemo` that ends in `init` throwing or in `load` rejecting: the
teardown of the recorded effect returned, `activeEffect` is not assigned, the dialog
is open. -/
theorem openDemo_mount_failed (X : Effect) (w w1 : World) (c : Completion)
    (h : openDemo X w = (c, w1))
    (hc : c = Completion.initThrew ∨ c = Completion.loadRejected) :
    w1.activeEffect = w.activeEffect ∧
      (∀ a, w.activeEffect = some a → a.teardown ≠ some Behaviour.throws) ∧
      w1.modalOpen = true ∧
      ∃ l, w1.trace = w.trace ++ teardownEvents w ++ l := by
  obtain ⟨act, sb, mo, bg, tr⟩ := w
  rcases act with _ | a
  · rcases hl : X.load with _ | _ | _ <;> rcases hi : X.init with _ | _ <;>
      simp [openDemo, openDemoStart, openDemoResume, callActiveTeardown, teardownEvents,
        hl, hi] at h ⊢ <;>
      obtain ⟨rfl, rfl⟩ := h <;> simp at hc ⊢
  · rcases ht : a.teardown with _ | _ | _ <;> rcases hl : X.load with _ | _ | _ <;>
      rcases hi : X.init with _ | _ <;>
      simp [openDemo, openDemoStart, openDemoResume, callActiveTeardown, teardownEvents,
        hl, hi, ht] at h ⊢ <;>
      obtain ⟨rfl, rfl⟩ := h <;> simp at hc ⊢

/-- C7: if `X.init` throws during `select(X)`, whatever was recorded before, a
following `select(Y)` of a well-behaved `Y` completes with no call in between: it
calls `Y.init` exactly once and records `Y` as the active effect. -/
theorem select_after_throwing_init (X Y : Effect) (w w1 : World)
    (hX : openDemo X w = (Completion.initThrew, w1)) (hY : Y.wellBehaved) :
    ∃ w2, openDemo Y w1 = (Completion.normal, w2) ∧ w2.activeEffect = some Y ∧
      (eventsSince w1 w2).count (Event.init Y) = 1 := by
  obtain ⟨hact, hT, -, -⟩ := openDemo_mount_failed X w w1 _ hX (Or.inl rfl)
  obtain ⟨hl, hi, -⟩ := hY
  have ho := (openDemo_normal_iff Y w1 _).mpr
    ⟨hi, hl, fun a ha => hT a (by rw [← ha, hact]), rfl⟩
  refine ⟨_, ho, rfl, ?_⟩
  rw [eventsSince_of_trace_eq w1 _ (teardownEvents w1 ++ loadEvents Y ++ [Event.init Y])
    (by simp)]
  simp [List.count_append, List.count_cons, count_init_loadEvents,
    count_init_teardownEvents]

/-- C7 at `effectThrowingInit` selected while `effectMagneticButton` is active,
followed by `effectParticleFountain`. -/
theorem select_after_throwing_init_witness :
    (openDemo effectThrowingInit (openDemo effectMagneticButton World.initial).2 =
        (Completion.initThrew,
          (openDemo effectThrowingInit (openDemo effectMagneticButton World.initial).2).2) ∧
      effectParticleFountain.wellBehaved) ∧
    ∃ w2, openDemo effectParticleFountain
        (openDemo effectThrowingInit (openDemo effectMagneticButton World.initial).2).2 =
        (Completion.normal, w2) ∧ w2.activeEffect = some effectParticleFountain :=
  have h := select_after_throwing_init effectThrowingInit effectParticleFountain
    (openDemo effectMagneticButton World.initial).2
    (openDemo effectThrowingInit (openDemo effectMagneticButton World.initial).2).2
    rfl (by decide)
  ⟨⟨rfl, by decide⟩, h.elim fun w2 hw => ⟨w2, hw.1, hw.2.1⟩⟩

/-- C8, as stated, fails: with `effectParticleFountain` active, a select of
`effectThrowingInit` (and likewise of `effectRejectingLoad`) tears
`effectParticleFountain` down and ends by the exception with
`effectParticleFountain` still recorded as active; the close that follows calls
`effectParticleFountain.teardown` a second time. -/
theorem failed_select_leaves_torn_down_effect_recorded :
    (openDemo effectThrowingInit
        (openDemo effectParticleFountain World.initial).2).1 = Completion.initThrew ∧
      (openDemo effectThrowingInit
        (openDemo effectParticleFountain World.initial).2).2.activeEffect =
        some effectParticleFountain ∧
      eventsSince
          (openDemo effectThrowingInit (openDemo effectParticleFountain World.initial).2).2
          (closeModal
            (openDemo effectThrowingInit
              (openDemo effectParticleFountain World.initial).2).2).2 =
        [Event.teardown effectParticleFountain] ∧
      (closeModal
          (openDemo effectThrowingInit
            (openDemo effectParticleFountain World.initial).2).2).2.trace.count
        (Event.teardown effectParticleFountain) = 2 ∧
      (openDemo effectRejectingLoad
        (openDemo effectParticleFountain World.initial).2).1 = Completion.loadRejected ∧
      (closeModal
          (openDemo effectRejectingLoad
            (openDemo effectParticleFountain World.initial).2).2).2.trace.count
        (Event.teardown effectParticleFountain) = 2 := by
  decide

/-- C8 as amended: if `X.init` throws or `X.load` rejects during `select(X)`, the
recorded active effect is the one recorded before the select.  When none was
recorded, none is, and a following close calls no teardown.  When `E` was recorded
(with a `teardown` method), this select has called `E.teardown`, `E` is still
recorded, and a following close calls `E.teardown` again. -/
theorem failed_select_keeps_recorded_effect (X : Effect) (w w1 : World) (c : Completion)
    (h : openDemo X w = (c, w1))
    (hc : c = Completion.initThrew ∨ c = Completion.loadRejected) :
    w1.activeEffect = w.activeEffect ∧
      (w.activeEffect = none →
        (closeModal w1).1 = Completion.normal ∧ eventsSince w1 (closeModal w1).2 = []) ∧
      (∀ E, w.activeEffect = some E → E.teardown ≠ none →
        Event.teardown E ∈ eventsSince w w1 ∧
          eventsSince w1 (closeModal w1).2 = [Event.teardown E]) := by
  obtain ⟨hact, hT, hopen, l, htr⟩ := openDemo_mount_failed X w w1 c h hc
  refine ⟨hact, ?_, ?_⟩
  · intro hidle
    rw [hidle] at hact
    simp [closeModal, hopen, closeListener, callActiveTeardown, hact,
      startIridescentBackground, eventsSince]
    split <;> simp
  · intro E hE hET
    have hsome : E.teardown.isSome = true := Option.isSome_iff_ne_none.mpr hET
    have hret : E.teardown = some Behaviour.returns := by
      have hnt := hT E hE
      rcases hb : E.teardown with _ | _ | _
      · exact absurd hb hET
      · rfl
      · exact absurd hb hnt
    constructor
    · rw [eventsSince_of_trace_eq w w1 (teardownEvents w ++ l) (by simp [htr])]
      simp [teardownEvents, hE, hsome]
    · obtain ⟨w2, hcl, -, -, htr2⟩ :=
        closeModal_active E w1 (by rw [hact, hE]) hret hopen
      rw [hcl]
      exact eventsSince_of_trace_eq w1 w2 _ htr2

/-- C8 as amended, at `effectThrowingInit` selected while `effectParticleFountain`
is active. -/
theorem failed_select_keeps_recorded_effect_witness :
    (openDemo effectThrowingInit (openDemo effectParticleFountain World.initial).2 =
        (Completion.initThrew,
          (openDemo effectThrowingInit
            (openDemo effectParticleFountain World.initial).2).2) ∧
      (Completion.initThrew = Completion.initThrew ∨
        Completion.initThrew = Completion.loadRejected)) ∧
    (openDemo effectThrowingInit
        (openDemo effectParticleFountain World.initial).2).2.activeEffect =
      (openDemo effectParticleFountain World.initial).2.activeEffect :=
  ⟨⟨rfl, Or.inl rfl⟩,
    (failed_select_keeps_recorded_effect effectThrowingInit
      (openDemo effectParticleFountain World.initial).2
      (openDemo effectThrowingInit (openDemo effectParticleFountain World.initial).2).2
      Completion.initThrew rfl (Or.inl rfl)).1⟩

/-! ## A teardown that throws -/

/-- C9, as stated, fails: with `effectThrowingTeardown` active, a select of the
well-behaved `effectParticleFountain` ends by the exception of the teardown call;
`effectParticleFountain.init` is not called and `effectThrowingTeardown` stays
recorded as active. -/
theorem throwing_teardown_blocks_select :
    (openDemo effectParticleFountain
        (openDemo effectThrowingTeardown World.initial).2).1 = Completion.teardownThrew ∧
      (openDemo effectParticleFountain
        (openDemo effectThrowingTeardown World.initial).2).2.activeEffect =
        some effectThrowingTeardown ∧
      Event.init effectParticleFountain ∉
        (openDemo effectParticleFountain
          (openDemo effectThrowingTeardown World.initial).2).2.trace := by
  decide

/-- One operation in a state whose recorded effect has a throwing `teardown`: the
recorded effect stays, and the only call that can be made is that teardown. -/
theorem apply_with_throwing_teardown (B : Effect) (op : Op) (w : World)
    (hact : w.activeEffect = some B) (hB : B.teardown = some Behaviour.throws) :
    (op.apply w).activeEffect = some B ∧
      ((op.apply w).trace = w.trace ∨ (op.apply w).trace = w.trace ++ [Event.teardown B]) := by
  cases op with
  | select Y =>
    simp [Op.apply, openDemo, openDemoStart, callActiveTeardown, hact, hB]
  | close =>
    simp only [Op.apply, closeModal]
    split
    · simp [closeListener, callActiveTeardown, hact, hB]
    · exact ⟨hact, Or.inl rfl⟩

theorem run_with_throwing_teardown (B : Effect) (hB : B.teardown = some Behaviour.throws)
    (ops : List Op) :
    ∀ w : World, w.activeEffect = some B →
      (run ops w).activeEffect = some B ∧
        ∃ l, (run ops w).trace = w.trace ++ l ∧ ∀ ev ∈ l, ev = Event.teardown B := by
  induction ops with
  | nil => intro w hact; exact ⟨hact, [], by simp [run], by simp⟩
  | cons op ops ih =>
    intro w hact
    obtain ⟨ha1, ht1⟩ := apply_with_throwing_teardown B op w hact hB
    obtain ⟨ha2, l, htl, hl⟩ := ih (op.apply w) ha1
    rw [run_cons]
    refine ⟨ha2, ?_⟩
    rcases ht1 with h | h
    · exact ⟨l, by rw [htl, h], hl⟩
    · refine ⟨Event.teardown B :: l, by rw [htl, h]; simp, ?_⟩
      intro ev hev
      rcases List.mem_cons.mp hev with h1 | h1
      · exact h1
      · exact hl ev h1

/-- C9 as amended: if the teardown of the active effect `B` throws, the manager does
not contain the error.  Every `select(Y)` ends with that exception right after the
teardown call: the dialog is left as it was, `Y.load` and `Y.init` are not called and
`B` stays recorded.  Closing the open dialog closes it, but the listener ends with
the same exception before it restarts the background, and `B` stays recorded.  This
holds after any sequence of selects and closes: `B` is recorded for ever and no call
other than `B.teardown` is made, so no other effect can be opened. -/
theorem throwing_teardown_is_not_contained (B : Effect) (w : World)
    (hact : w.activeEffect = some B) (hB : B.teardown = some Behaviour.throws) :
    (∀ Y : Effect, (openDemo Y w).1 = Completion.teardownThrew ∧
        (openDemo Y w).2.activeEffect = some B ∧
        (openDemo Y w).2.modalOpen = w.modalOpen ∧
        eventsSince w (openDemo Y w).2 = [Event.teardown B]) ∧
      (w.modalOpen = true →
        (closeModal w).1 = Completion.teardownThrew ∧
          (closeModal w).2.modalOpen = false ∧
          (closeModal w).2.iridescentBg = w.iridescentBg ∧
          (closeModal w).2.activeEffect = some B) ∧
      (∀ ops : List Op, (run ops w).activeEffect = some B ∧
        ∀ ev ∈ eventsSince w (run ops w), ev = Event.teardown B) := by
  refine ⟨?_, ?_, ?_⟩
  · intro Y
    simp [openDemo, openDemoStart, callActiveTeardown, hact, hB, eventsSince]
  · intro hopen
    simp [closeModal, hopen, closeListener, callActiveTeardown, hact, hB]
  · intro ops
    obtain ⟨ha, l, htl, hl⟩ := run_with_throwing_teardown B hB ops w hact
    refine ⟨ha, ?_⟩
    rw [eventsSince_of_trace_eq w _ l htl]
    exact hl

/-- C9 as amended, at `effectThrowingTeardown` active after its select from the
initial state, with `effectParticleFountain` selected next. -/
theorem throwing_teardown_is_not_contained_witness :
    ((openDemo effectThrowingTeardown World.initial).2.activeEffect =
        some effectThrowingTeardown ∧
      effectThrowingTeardown.teardown = some Behaviour.throws) ∧
    (openDemo effectParticleFountain
      (openDemo effectThrowingTeardown World.initial).2).1 = Completion.teardownThrew :=
  ⟨⟨rfl, rfl⟩,
    ((throwing_teardown_is_not_contained effectThrowingTeardown
      (openDemo effectThrowingTeardown World.initial).2 rfl rfl).1
      effectParticleFountain).1⟩

/-! ## Closing with no active effect -/

/-- C10: with no effect recorded as active, as in the initial state where none was
ever selected, the close listener does not throw, calls no teardown, and leaves
`activeEffect` (none), the sandbox and the dialog flag as they are; its only action
is the guarded start of the background.  The same holds for the close button.  In
the initial state both leave the whole state unchanged. -/
theorem close_without_active_effect (w : World) (hidle : w.activeEffect = none) :
    (closeListener w = (Completion.normal, startIridescentBackground w) ∧
        eventsSince w (closeListener w).2 = [] ∧
        (closeListener w).2.activeEffect = none ∧
        (closeListener w).2.sandbox = w.sandbox ∧
        (closeListener w).2.modalOpen = w.modalOpen) ∧
      ((closeModal w).1 = Completion.normal ∧
        eventsSince w (closeModal w).2 = [] ∧
        (closeModal w).2.activeEffect = none ∧
        (closeModal w).2.sandbox = w.sandbox) ∧
      closeListener World.initial = (Completion.normal, World.initial) ∧
      closeModal World.initial = (Completion.normal, World.initial) := by
  have hl : closeListener w = (Completion.normal, startIridescentBackground w) := by
    simp [closeListener, callActiveTeardown, hidle]
  have hs : ∀ v : World, (startIridescentBackground v).trace = v.trace ∧
      (startIridescentBackground v).activeEffect = v.activeEffect ∧
      (startIridescentBackground v).sandbox = v.sandbox ∧
      (startIridescentBackground v).modalOpen = v.modalOpen := by
    intro v
    unfold startIridescentBackground
    split <;> exact ⟨rfl, rfl, rfl, rfl⟩
  refine ⟨⟨hl, ?_, ?_, ?_, ?_⟩, ?_, rfl, rfl⟩
  · rw [hl]; exact eventsSince_of_trace_eq w _ [] (by simp [(hs w).1])
  · rw [hl]; simp [(hs w).2.1, hidle]
  · rw [hl]; exact (hs w).2.2.1
  · rw [hl]; exact (hs w).2.2.2
  · unfold closeModal
    split
    · have hl2 : closeListener { w with modalOpen := false } =
          (Completion.normal, startIridescentBackground { w with modalOpen := false }) := by
        simp [closeListener, callActiveTeardown, hidle]
      rw [hl2]
      refine ⟨rfl, ?_, ?_, ?_⟩
      · exact eventsSince_of_trace_eq w _ [] (by simp [(hs _).1])
      · simp [(hs _).2.1, hidle]
      · simp [(hs _).2.2.1]
    · exact ⟨rfl, eventsSince_self w, hidle, rfl⟩

/-- C10 at the initial state. -/
theorem close_without_active_effect_witness :
    World.initial.activeEffect = none ∧
      closeListener World.initial =
        (Completion.normal, startIridescentBackground World.initial) ∧
      eventsSince World.initial (closeListener World.initial).2 = [] :=
  have h := close_without_active_effect World.initial rfl
  ⟨rfl, h.1.1, h.1.2.1⟩

/-! ## The surface -/

/-- The synchronous half of `openDemo`, when it gets to its end, leaves the sandbox
empty. -/
theorem openDemoStart_sandbox (e : Effect) (w w1 : World)
    (h : openDemoStart e w = (Completion.normal, w1)) : w1.sandbox = [] := by
  obtain ⟨act, sb, mo, bg, tr⟩ := w
  rcases act with _ | a
  · rcases hl : e.load with _ | _ <;>
      simp [openDemoStart, callActiveTeardown, hl] at h <;> simp [← h]
  · rcases ht : a.teardown with _ | _ | _ <;> rcases hl : e.load with _ | _ <;>
      simp [openDemoStart, callActiveTeardown, hl, ht] at h <;> simp [← h]

/-- A close leaves an empty sandbox empty. -/
theorem closeModal_sandbox_of_empty (w : World) (h : w.sandbox = []) :
    (closeModal w).2.sandbox = [] := by
  obtain ⟨act, sb, mo, bg, tr⟩ := w
  simp only at h
  subst h
  rcases act with _ | a
  · rcases mo <;> rcases bg <;>
      simp [closeModal, closeListener, callActiveTeardown, startIridescentBackground]
  · rcases ht : a.teardown with _ | _ | _ <;> rcases mo <;> rcases bg <;>
      simp [closeModal, closeListener, callActiveTeardown, startIridescentBackground, ht]

/-- In a serialized schedule at most one call is suspended, and while one is, the
sandbox is empty. -/
theorem serialized_pending_surface (as : List Action) :
    ∀ c : Config, c.pending.length ≤ 1 → (c.pending ≠ [] → c.world.sandbox = []) →
      serialized c as = true →
      (c.exec as).pending.length ≤ 1 ∧
        ((c.exec as).pending ≠ [] → (c.exec as).world.sandbox = []) := by
  induction as with
  | nil => intro c h1 h2 _; exact ⟨h1, h2⟩
  | cons a as ih =>
    intro c h1 h2 hs
    simp only [serialized, Bool.and_eq_true] at hs
    have hstep : (c.step a).pending.length ≤ 1 ∧
        ((c.step a).pending ≠ [] → (c.step a).world.sandbox = []) := by
      cases a with
      | select e =>
        have hp : c.pending = [] := by simpa using hs.1
        simp only [Config.step]
        rcases hc : openDemoStart e c.world with ⟨k, w1⟩
        cases k
        · exact ⟨by simp [hp], fun _ => openDemoStart_sandbox e c.world w1 hc⟩
        all_goals exact ⟨by simp [hp], fun h => absurd hp h⟩
      | resume i =>
        simp only [Config.step]
        rcases hg : c.pending.get? i with _ | e
        · exact ⟨h1, h2⟩
        · obtain ⟨w, ps⟩ := c
          rcases ps with _ | ⟨p, _ | ⟨q, ps⟩⟩
          · simp at hg
          · rcases i with _ | i
            · simp
            · simp at hg
          · simp at h1
      | close =>
        simp only [Config.step]
        refine ⟨h1, fun hne => ?_⟩
        exact closeModal_sandbox_of_empty c.world (h2 hne)
    exact ih (c.step a) hstep.1 hstep.2 hs.2

/-- C11, as stated, fails: `openDemo(effectParticleFountain)` begins while
`openDemo(effectMagneticButton)` is suspended at its `await`; the first call resumes
and `effectMagneticButton.init` fills the sandbox; when the second call resumes,
`effectParticleFountain.init` is handed the sandbox that holds the `div` of
`effectMagneticButton`, and appends its canvas to it; no teardown is called in
between. -/
theorem interleaved_select_finds_used_surface :
    (Config.exec Config.initial
        [Action.select effectMagneticButton, Action.select effectParticleFountain,
          Action.resume 0]).pending = [effectParticleFountain] ∧
      (Config.exec Config.initial
        [Action.select effectMagneticButton, Action.select effectParticleFountain,
          Action.resume 0]).surfaceAtResume 0 = some ["div"] ∧
      (Config.exec Config.initial
        [Action.select effectMagneticButton, Action.select effectParticleFountain,
          Action.resume 0, Action.resume 0]).world.trace.filter isMountEvent =
        [Event.init effectMagneticButton, Event.init effectParticleFountain] ∧
      (Config.exec Config.initial
        [Action.select effectMagneticButton, Action.select effectParticleFountain,
          Action.resume 0, Action.resume 0]).world.sandbox = ["div", "canvas"] := by
  decide

/-- C11 as amended: in every run of `openDemo` with nothing interleaved at the
`await`, from any state: the synchronous half leaves the sandbox empty, whatever the
teardown of the previous effect left in it; `init` is called exactly in the runs in
which `surfaceAtInit` is defined, the container it is handed is then empty, and after
the call the sandbox holds what `init` put there and nothing else.  The same holds in
the event loop as long as selects are serialized: while a call is suspended at its
`await`, closes included, the sandbox stays empty, so the container that `init` is
handed when the call resumes is empty. -/
theorem init_receives_empty_surface (e : Effect) (w : World) :
    (∀ w1, openDemoStart e w = (Completion.normal, w1) → w1.sandbox = []) ∧
      (∀ s, surfaceAtInit e w = some s → s = []) ∧
      (Event.init e ∈ eventsSince w (openDemo e w).2 ↔ (surfaceAtInit e w).isSome = true) ∧
      (Event.init e ∈ eventsSince w (openDemo e w).2 → (openDemo e w).2.sandbox = e.markup) ∧
      (∀ as : List Action, serialized Config.initial as = true →
        (Config.exec Config.initial as).pending ≠ [] →
        (Config.exec Config.initial as).world.sandbox = []) ∧
      (∀ (as : List Action) (i : Nat) (s : List String),
        serialized Config.initial as = true →
        (Config.exec Config.initial as).surfaceAtResume i = some s → s = []) := by
  have h4 : (∀ w1, openDemoStart e w = (Completion.normal, w1) → w1.sandbox = []) ∧
      (∀ s, surfaceAtInit e w = some s → s = []) ∧
      (Event.init e ∈ eventsSince w (openDemo e w).2 ↔ (surfaceAtInit e w).isSome = true) ∧
      (Event.init e ∈ eventsSince w (openDemo e w).2 →
        (openDemo e w).2.sandbox = e.markup) := by
    obtain ⟨act, sb, mo, bg, tr⟩ := w
    rcases act with _ | a
    · rcases hl : e.load with _ | _ | _ <;> rcases hi : e.init with _ | _ <;>
        simp [openDemo, openDemoStart, openDemoResume, callActiveTeardown, surfaceAtInit,
          eventsSince, hl, hi]
    · rcases ht : a.teardown with _ | _ | _ <;> rcases hl : e.load with _ | _ | _ <;>
        rcases hi : e.init with _ | _ <;>
        simp [openDemo, openDemoStart, openDemoResume, callActiveTeardown, surfaceAtInit,
          eventsSince, hl, hi, ht]
  have h5 : ∀ as : List Action, serialized Config.initial as = true →
      (Config.exec Config.initial as).pending ≠ [] →
      (Config.exec Config.initial as).world.sandbox = [] := fun as hs =>
    (serialized_pending_surface as Config.initial (by simp [Config.initial])
      (by simp [Config.initial]) hs).2
  refine ⟨h4.1, h4.2.1, h4.2.2.1, h4.2.2.2, h5, ?_⟩
  intro as i s hs hsurf
  unfold Config.surfaceAtResume at hsurf
  rcases hg : (Config.exec Config.initial as).pending.get? i with _ | p
  · rw [hg] at hsurf
    cases hsurf
  · rw [hg] at hsurf
    have hne : (Config.exec Config.initial as).pending ≠ [] := by
      intro hnil
      rw [hnil] at hg
      simp at hg
    have hempty := h5 as hs hne
    simp only at hsurf
    split at hsurf
    · cases hsurf
    · rw [hempty] at hsurf
      exact (Option.some.inj hsurf).symm

/-- C11 as amended, with `effectMagneticButton` active: the synchronous half of
`openDemo(effectParticleFountain)` empties the sandbox, and in the serialized schedule
in which the dialog is closed during the `await` the resumed call hands `init` an
empty container. -/
theorem init_receives_empty_surface_witness :
    surfaceAtInit effectParticleFountain
        (openDemo effectMagneticButton World.initial).2 = some [] ∧
      serialized Config.initial
        [Action.select effectMagneticButton, Action.resume 0,
          Action.select effectParticleFountain, Action.close] = true ∧
      (Config.exec Config.initial
        [Action.select effectMagneticButton, Action.resume 0,
          Action.select effectParticleFountain, Action.close]).surfaceAtResume 0 =
        some [] ∧
      ∀ s, (Config.exec Config.initial
        [Action.select effectMagneticButton, Action.resume 0,
          Action.select effectParticleFountain, Action.close]).surfaceAtResume 0 =
        some s → s = [] :=
  ⟨by decide, by decide, by decide, fun s h =>
    (init_receives_empty_surface effectParticleFountain
      (openDemo effectMagneticButton World.initial).2).2.2.2.2.2
      [Action.select effectMagneticButton, Action.resume 0,
        Action.select effectParticleFountain, Action.close] 0 s (by decide) h⟩

/-- C12, as stated, fails: after `effectMagneticButton` was selected and the dialog
closed, the sandbox still holds the markup of `effectMagneticButton`. -/
theorem close_leaves_markup_in_sandbox :
    (closeModal (openDemo effectMagneticButton World.initial).2).2.sandbox = ["div"] ∧
      (closeModal (openDemo effectMagneticButton World.initial).2).2.sandbox ≠ [] := by
  decide

/-- C12 as amended: after a close of the open dialog while `e` is active, the sandbox
holds what the teardown of `e` leaves: it is empty when that teardown clears the
container, and is otherwise what it was before the close.  The close listener makes
no write to the sandbox of its own; the synchronous half of the next select empties
it. -/
theorem close_leaves_surface_to_teardown (e : Effect) (w : World)
    (hact : w.activeEffect = some e) (hopen : w.modalOpen = true) :
    (closeModal w).2.sandbox =
        (if e.teardown.isSome && e.cleanupClears then [] else w.sandbox) ∧
      (closeListener w).2.sandbox =
        (if e.teardown.isSome && e.cleanupClears then [] else w.sandbox) ∧
      (∀ (Y : Effect) (w1 : World),
        openDemoStart Y (closeModal w).2 = (Completion.normal, w1) → w1.sandbox = []) := by
  refine ⟨?_, ?_, fun Y w1 h => openDemoStart_sandbox Y _ w1 h⟩
  · rcases ht : e.teardown with _ | _ | _ <;> rcases hc : e.cleanupClears <;>
      simp [closeModal, hopen, closeListener, callActiveTeardown, hact, ht, hc,
        startIridescentBackground] <;> split <;> rfl
  · rcases ht : e.teardown with _ | _ | _ <;> rcases hc : e.cleanupClears <;>
      simp [closeListener, callActiveTeardown, hact, ht, hc,
        startIridescentBackground] <;> split <;> rfl

/-- C12 as amended, at `effectMagneticButton` active after its select from the
initial state: its teardown does not clear the container, and the sandbox after the
close is the one before it. -/
theorem close_leaves_surface_to_teardown_witness :
    ((openDemo effectMagneticButton World.initial).2.activeEffect =
        some effectMagneticButton ∧
      (openDemo effectMagneticButton World.initial).2.modalOpen = true) ∧
    (closeModal (openDemo effectMagneticButton World.initial).2).2.sandbox =
      (if effectMagneticButton.teardown.isSome && effectMagneticButton.cleanupClears then []
        else (openDemo effectMagneticButton World.initial).2.sandbox) :=
  ⟨⟨rfl, rfl⟩,
    (close_leaves_surface_to_teardown effectMagneticButton
      (openDemo effectMagneticButton World.initial).2 rfl rfl).1⟩

/-! ## The grid filter -/

theorem trim_of_isBlank (v : String) (h : isBlank v = true) : trim v = "" := by
  have h1 : v.data.dropWhile isTrimSpace = [] := by
    rw [List.dropWhile_eq_nil_iff]
    intro c hc
    exact (List.all_eq_true.mp h) c hc
  simp [trim, h1]

theorem toLowerCase_empty : toLowerCase "" = "" := rfl

theorem query_of_isBlank (v : String) (h : isBlank v = true) :
    toLowerCase (trim v) = "" := by
  rw [trim_of_isBlank v h, toLowerCase_empty]

/-- With an empty `q` the filter keeps the entries that pass the tag test. -/
theorem filterEffects_empty_query (activeTags : List String) (registry : List Effect) :
    filterEffects "" activeTags registry =
      Except.ok (registry.filter (fun e => tagHit activeTags (normalizeTags e))) := by
  induction registry with
  | nil => rfl
  | cons e es ih =>
    simp only [filterEffects, keepEffect, qHit, if_true, ih, Bool.true_and, List.filter_cons]

/-- With a non-empty `q` the callback throws on the first entry. -/
theorem filterEffects_nonempty_query (q : String) (activeTags : List String)
    (e : Effect) (es : List Effect) (hq : q ≠ "") :
    filterEffects q activeTags (e :: es) = Except.error JsError.typeError := by
  simp [filterEffects, keepEffect, qHit, hq]

/-- Whenever the filter returns, what it returns is a sublist of the registry. -/
theorem filterEffects_sublist (q : String) (activeTags : List String) :
    ∀ (registry r : List Effect), filterEffects q activeTags registry = Except.ok r →
      r.Sublist registry := by
  intro registry
  induction registry with
  | nil =>
    intro r h
    simp [filterEffects] at h
    simp [← h]
  | cons e es ih =>
    intro r h
    by_cases hq : q = ""
    · subst hq
      rw [filterEffects_empty_query] at h
      cases h
      exact List.filter_sublist _
    · rw [filterEffects_nonempty_query q activeTags e es hq] at h
      cases h

theorem trim_of_not_isBlank (v : String) (h : isBlank v = false) : trim v ≠ "" := by
  have h1 : v.data.dropWhile isTrimSpace ≠ [] := by
    rw [Ne, List.dropWhile_eq_nil_iff]
    intro hall
    have : isBlank v = true := List.all_eq_true.mpr (fun c hc => hall c hc)
    rw [h] at this
    cases this
  have h2 : isTrimSpace ((v.data.dropWhile isTrimSpace).head h1) = false :=
    List.head_dropWhile_not isTrimSpace v.data h1
  have h3 : ((v.data.dropWhile isTrimSpace).reverse.dropWhile isTrimSpace) ≠ [] := by
    rw [Ne, List.dropWhile_eq_nil_iff]
    intro hall
    have := hall _ (List.mem_reverse.mpr (List.head_mem h1))
    rw [h2] at this
    cases this
  intro hcontra
  have hd := congrArg String.data hcontra
  simp only [trim] at hd
  exact h3 (List.reverse_eq_nil_iff.mp hd)

theorem lowerChar_ne_nil (c : Char) : lowerChar c ≠ [] := by
  unfold lowerChar
  split
  · simp
  · split <;> simp

theorem toLowerCase_eq_empty (s : String) (h : toLowerCase s = "") : s = "" := by
  have hd := congrArg String.data h
  obtain ⟨cs⟩ := s
  rcases cs with _ | ⟨c, cs⟩
  · rfl
  · simp only [toLowerCase, List.map_cons, List.flatten_cons] at hd
    exact absurd (List.append_eq_nil.mp hd).1 (lowerChar_ne_nil c)

theorem query_of_not_isBlank (v : String) (h : isBlank v = false) :
    toLowerCase (trim v) ≠ "" :=
  fun hq => trim_of_not_isBlank v h (toLowerCase_eq_empty _ hq)

/-- The filter of `renderGrid` throws exactly when the registry has an entry and the
search value is not blank; in every other case it returns. -/
theorem renderGrid_throws_iff (registry : List Effect) (value : String)
    (activeTags : List String) :
    renderGrid registry value activeTags = Except.error JsError.typeError ↔
      registry ≠ [] ∧ isBlank value = false := by
  unfold renderGrid
  rcases hb : isBlank value
  · rcases registry with _ | ⟨e, es⟩
    · simp [filterEffects]
    · simp [filterEffects_nonempty_query _ activeTags e es (query_of_not_isBlank value hb)]
  · rw [query_of_isBlank value hb, filterEffects_empty_query]
    simp

/-- Whenever the filter of `renderGrid` returns, it returns a sublist of the
registry. -/
theorem renderGrid_sublist (registry : List Effect) (value : String)
    (activeTags : List String) (r : List Effect)
    (h : renderGrid registry value activeTags = Except.ok r) : r.Sublist registry :=
  filterEffects_sublist _ activeTags registry r h

/-- C13: the search value `RIPPLE` with no active tags, on a registry that holds
`effectRippleButton`, whose lowercased name contains `ripple`: the filter does not
return a list with that entry, it throws a `TypeError` at the first entry. -/
theorem ripple_query_throws :
    effectRippleButton ∈ registryHead ∧
      effectRippleButton.name = "Ripple Button (Click)" ∧
      includes (toLowerCase effectRippleButton.name) (toLowerCase (trim "RIPPLE")) = true ∧
      renderGrid registryHead "RIPPLE" [] = Except.error JsError.typeError :=
  ⟨by decide, rfl, by decide, rfl⟩

/-- The tag test of the filter, for a set of active tags that is not empty, is the
test for a common element. -/
theorem tagHit_eq_sharesTag (activeTags : List String) (e : Effect)
    (hT : activeTags ≠ []) : tagHit activeTags (normalizeTags e) = sharesTag activeTags e := by
  rcases activeTags with _ | ⟨t, ts⟩
  · exact absurd rfl hT
  · simp [tagHit, sharesTag]

theorem sharesTag_iff (activeTags : List String) (e : Effect) :
    sharesTag activeTags e = true ↔
      ∃ s, TagValue.str s ∈ normalizeTags e ∧ s ∈ activeTags := by
  simp only [sharesTag, List.any_eq_true]
  constructor
  · rintro ⟨t, ht, h⟩
    rcases t with s | n
    · exact ⟨s, ht, by simpa using h⟩
    · simp at h
  · rintro ⟨s, hs, h⟩
    exact ⟨TagValue.str s, hs, by simpa using h⟩

/-- C14: with a blank search value and a set of active tags that is not empty, the
filter returns the registry entries whose canonical tags have at least one element in
common with the active tags, in registry order: one common tag is enough.  For the
registry `[A, B, C]` tagged `css`, `svg`, and `css` with `svg`, and the active tags
`css`, `svg`, it returns `[A, B, C]`. -/
theorem blank_query_keeps_effects_sharing_a_tag (registry : List Effect) (value : String)
    (activeTags : List String) (hb : isBlank value = true) (hT : activeTags ≠ []) :
    renderGrid registry value activeTags =
        Except.ok (registry.filter (fun e => sharesTag activeTags e)) ∧
      (∀ e, e ∈ registry.filter (fun e => sharesTag activeTags e) ↔
        e ∈ registry ∧ ∃ s, TagValue.str s ∈ normalizeTags e ∧ s ∈ activeTags) ∧
      renderGrid exampleRegistry value ["css", "svg"] = Except.ok exampleRegistry := by
  have hq := query_of_isBlank value hb
  refine ⟨?_, ?_, ?_⟩
  · unfold renderGrid
    rw [hq, filterEffects_empty_query]
    congr 1
    apply List.filter_congr
    intro e _
    exact tagHit_eq_sharesTag activeTags e hT
  · intro e
    rw [List.mem_filter, sharesTag_iff]
  · unfold renderGrid
    rw [hq, filterEffects_empty_query]
    rfl

/-- C14 at the example of the specification, with an empty search box. -/
theorem blank_query_keeps_effects_sharing_a_tag_witness :
    (isBlank "" = true ∧ ["css", "svg"] ≠ ([] : List String)) ∧
      renderGrid exampleRegistry "" ["css", "svg"] = Except.ok exampleRegistry :=
  ⟨⟨rfl, by simp⟩,
    (blank_query_keeps_effects_sharing_a_tag exampleRegistry "" ["css", "svg"] rfl
      (by simp)).2.2⟩

/-- C15: for every registry, when the search value is empty or consists of whitespace
only and no tag is active, the filter returns the whole registry, in registry
order. -/
theorem blank_query_no_tags_returns_registry (registry : List Effect) (value : String)
    (hb : isBlank value = true) :
    renderGrid registry value [] = Except.ok registry := by
  unfold renderGrid
  rw [query_of_isBlank value hb, filterEffects_empty_query]
  simp [tagHit]

/-- C15 at the registry of the example, with a search value of two spaces and a tab. -/
theorem blank_query_no_tags_returns_registry_witness :
    isBlank "  \t" = true ∧ renderGrid exampleRegistry "  \t" [] = Except.ok exampleRegistry :=
  ⟨by decide, blank_query_no_tags_returns_registry exampleRegistry "  \t" (by decide)⟩

/-- C16: the search value `c` with the active tag `css` on the registry of the
example.  The filter throws for the pair, and throws for the same search value with
no active tag, so neither of the two results that the claim combines exists; only the
result for the blank search value with the tag does. -/
theorem query_with_tags_throws :
    renderGrid exampleRegistry "c" ["css"] = Except.error JsError.typeError ∧
      renderGrid exampleRegistry "c" [] = Except.error JsError.typeError ∧
      renderGrid exampleRegistry "" ["css"] =
        Except.ok [descriptor "A" "" ["css"], descriptor "C" "" ["css", "svg"]] :=
  ⟨rfl, rfl, rfl⟩

/-- C17: the search value `button` on the first registry entries.  The filter returns
no list at all: it throws a `TypeError` at the first entry. -/
theorem nonblank_query_returns_no_list :
    renderGrid registryHead "button" [] = Except.error JsError.typeError ∧
      ∀ r, renderGrid registryHead "button" [] ≠ Except.ok r :=
  ⟨rfl, fun r h => by
    have h1 : renderGrid registryHead "button" [] = Except.error JsError.typeError := rfl
    rw [h1] at h
    cases h⟩

/-! ## The tag normalizer -/

/-- C18, as stated, fails: for the type `Canvas/SVG`, which contains both keywords,
the first keyword in the order given by the claim is `canvas`, and `techFromType`
returns `svg`. -/
theorem svg_is_tested_before_canvas :
    includes (toLowerCase "Canvas/SVG") "canvas" = true ∧
      includes (toLowerCase "Canvas/SVG") "svg" = true ∧
      specTechKeywords.find? (fun k => includes (toLowerCase "Canvas/SVG") k) =
        some "canvas" ∧
      techFromType "Canvas/SVG" = some "svg" := by
  decide

/-- The chain of tests of `techFromType` is a search for the first keyword of
`techKeywords` that occurs in the lowercased type. -/
theorem techFromType_eq_find (type : String) :
    techFromType type = techKeywords.find? (fun k => includes (toLowerCase type) k) := by
  simp only [techFromType, techKeywords, List.find?]
  rcases includes (toLowerCase type) "webgl" <;>
    rcases includes (toLowerCase type) "svg" <;>
    rcases includes (toLowerCase type) "canvas" <;>
    rcases includes (toLowerCase type) "audio" <;>
    rcases includes (toLowerCase type) "worker" <;>
    rcases includes (toLowerCase type) "css" <;> rfl

theorem techFromType_mem (type k : String) (h : techFromType type = some k) :
    k ∈ techKeywords := by
  rw [techFromType_eq_find type] at h
  exact List.mem_of_find?_eq_some h

/-- The chain of tests, for any lowercasing function. -/
theorem techFromTypeWith_eq_find (lower : String → String) (type : String) :
    techFromTypeWith lower type = techKeywords.find? (fun k => includes (lower type) k) := by
  simp only [techFromTypeWith, techKeywords, List.find?]
  rcases includes (lower type) "webgl" <;>
    rcases includes (lower type) "svg" <;>
    rcases includes (lower type) "canvas" <;>
    rcases includes (lower type) "audio" <;>
    rcases includes (lower type) "worker" <;>
    rcases includes (lower type) "css" <;> rfl

/-- C18 as amended: whatever string `type.toLowerCase()` is, `techFromType` returns
the first keyword, in the order `webgl`, `svg`, `canvas`, `audio`, `worker`, `css`,
that occurs in it, and returns no technology exactly when none of them occurs; a type
whose lowercase form contains `svg` and not `webgl` yields `svg`, whether or not it
contains `canvas`.  This holds for every lowercasing function, that of the host
included, and so for `techFromType`, which is `techFromTypeWith` at `toLowerCase`.
The lowercase form is taken as the host takes it: `WOR`, U+212A KELVIN SIGN, `ER`
yields `worker`. -/
theorem techFromType_first_keyword (type : String) :
    (∀ lower : String → String,
      techFromTypeWith lower type =
          techKeywords.find? (fun k => includes (lower type) k) ∧
        (techFromTypeWith lower type = none ↔
          ∀ k ∈ techKeywords, includes (lower type) k = false) ∧
        (includes (lower type) "webgl" = false ∧ includes (lower type) "svg" = true →
          techFromTypeWith lower type = some "svg")) ∧
      techFromType type = techFromTypeWith toLowerCase type ∧
      techFromType type = techKeywords.find? (fun k => includes (toLowerCase type) k) ∧
      (techFromType type = none ↔
        ∀ k ∈ techKeywords, includes (toLowerCase type) k = false) ∧
      (includes (toLowerCase type) "webgl" = false ∧
          includes (toLowerCase type) "svg" = true →
        techFromType type = some "svg") ∧
      toLowerCase "WOR\u212AER" = "worker" ∧
      techFromType "WOR\u212AER" = some "worker" ∧
      techFromType "Canvas/SVG" = some "svg" := by
  have hgen : ∀ lower : String → String,
      techFromTypeWith lower type =
          techKeywords.find? (fun k => includes (lower type) k) ∧
        (techFromTypeWith lower type = none ↔
          ∀ k ∈ techKeywords, includes (lower type) k = false) ∧
        (includes (lower type) "webgl" = false ∧ includes (lower type) "svg" = true →
          techFromTypeWith lower type = some "svg") := by
    intro lower
    have h1 := techFromTypeWith_eq_find lower type
    refine ⟨h1, ?_, ?_⟩
    · rw [h1, List.find?_eq_none]
      simp
    · rintro ⟨hw, hs⟩
      simp [techFromTypeWith, hw, hs]
  have heq : techFromType type = techFromTypeWith toLowerCase type := rfl
  refine ⟨hgen, heq, ?_, ?_, ?_, by decide, by decide, by decide⟩
  · rw [heq]; exact (hgen toLowerCase).1
  · rw [heq]; exact (hgen toLowerCase).2.1
  · rw [heq]; exact (hgen toLowerCase).2.2

theorem mem_uniqueInOrder {α : Type} [DecidableEq α] (x : α) (l : List α) :
    x ∈ uniqueInOrder l ↔ x ∈ l := by
  induction l with
  | nil => simp [uniqueInOrder]
  | cons a l ih =>
    simp only [uniqueInOrder, List.mem_cons, List.mem_filter, ih, decide_eq_true_eq]
    by_cases hxa : x = a
    · simp [hxa]
    · simp [hxa]

/-- C19: for every descriptor whose lowercased type contains `webgl`, whatever else
the type contains, and whose `tags` is empty, `normalizeTags` returns exactly
`["webgl"]`; for the type `JS/WebGL Canvas` the result holds `webgl` and does not
hold `canvas`. -/
theorem webgl_type_normalizes_to_webgl (e : Effect)
    (hw : includes (toLowerCase e.type) "webgl" = true) (ht : e.tags = []) :
    normalizeTags e = [TagValue.str "webgl"] ∧
      normalizeTags (descriptor "x" "JS/WebGL Canvas" []) = [TagValue.str "webgl"] ∧
      TagValue.str "webgl" ∈ normalizeTags (descriptor "x" "JS/WebGL Canvas" []) ∧
      TagValue.str "canvas" ∉ normalizeTags (descriptor "x" "JS/WebGL Canvas" []) := by
  refine ⟨?_, by decide, by decide, by decide⟩
  simp [normalizeTags, techFromType, hw, ht, uniqueInOrder]

/-- C19 at the descriptor of the specification, `type` `JS/WebGL Canvas` and no
tags. -/
theorem webgl_type_normalizes_to_webgl_witness :
    (includes (toLowerCase (descriptor "x" "JS/WebGL Canvas" []).type) "webgl" = true ∧
      (descriptor "x" "JS/WebGL Canvas" []).tags = []) ∧
    normalizeTags (descriptor "x" "JS/WebGL Canvas" []) = [TagValue.str "webgl"] :=
  ⟨⟨by decide, rfl⟩,
    (webgl_type_normalizes_to_webgl (descriptor "x" "JS/WebGL Canvas" []) (by decide)
      rfl).1⟩

theorem lookup_some_mem {α β : Type} [BEq α] [LawfulBEq α] (l : List (α × β)) (t : α)
    (v : β) (h : l.lookup t = some v) : (t, v) ∈ l := by
  induction l with
  | nil => simp [List.lookup] at h
  | cons p l ih =>
    obtain ⟨k, u⟩ := p
    by_cases hk : t = k
    · subst hk
      simp [List.lookup] at h
      simp [h]
    · have hb : (t == k) = false := by simpa using hk
      simp only [List.lookup, hb] at h
      exact List.mem_cons_of_mem _ (ih h)

theorem lookup_none_not_key {α β : Type} [BEq α] [LawfulBEq α] (l : List (α × β)) (t : α)
    (h : l.lookup t = none) : t ∉ l.map Prod.fst := by
  induction l with
  | nil => simp
  | cons p l ih =>
    obtain ⟨k, u⟩ := p
    by_cases hk : t = k
    · subst hk
      simp [List.lookup] at h
    · have hb : (t == k) = false := by simpa using hk
      simp only [List.lookup, hb] at h
      simp [hk, ih h]

/-- Every value of `TAG_ALIASES` is a non-empty string that is not itself a key. -/
theorem TAG_ALIASES_values :
    ∀ p ∈ TAG_ALIASES, p.2 ≠ "" ∧ p.2 ∉ TAG_ALIASES.map Prod.fst := by
  decide

/-- What holds of the alias step of `normalizeTags`: a tag that is an own key of the
table is in the result as its alias; a tag that is neither an own key nor a name
inherited from `Object.prototype` is in the result unchanged; the result holds no own
key of the table; the descriptor with the one tag `navigation` yields `["nav"]`. -/
theorem normalizeTags_alias_facts (e : Effect) :
    (∀ t v, t ∈ e.tags → TAG_ALIASES.lookup t = some v →
        TagValue.str v ∈ normalizeTags e) ∧
      (∀ t, t ∈ e.tags → TAG_ALIASES.lookup t = none → t ∉ objectPrototypeKeys →
        TagValue.str t ∈ normalizeTags e) ∧
      (∀ k, k ∈ TAG_ALIASES.map Prod.fst → TagValue.str k ∉ normalizeTags e) ∧
      normalizeTags (descriptor "x" "" ["navigation"]) = [TagValue.str "nav"] := by
  have hmem : ∀ x, x ∈ normalizeTags e ↔
      (techFromType e.type = some (match x with
          | TagValue.str s => s
          | TagValue.inherited n => n) ∧ (∃ s, x = TagValue.str s)) ∨
        x ∈ e.tags.map aliasOf := by
    intro x
    unfold normalizeTags
    rw [mem_uniqueInOrder]
    rcases techFromType e.type with _ | k
    · simp
    · rcases x with s | n
      · simp [eq_comm]
      · simp
  refine ⟨?_, ?_, ?_, by decide⟩
  · intro t v ht hv
    rw [hmem]
    right
    refine List.mem_map.mpr ⟨t, ht, ?_⟩
    have hne := (TAG_ALIASES_values (t, v) (lookup_some_mem _ _ _ hv)).1
    simp only at hne
    simp [aliasOf, hv, hne]
  · intro t ht hnone hproto
    rw [hmem]
    right
    refine List.mem_map.mpr ⟨t, ht, ?_⟩
    simp [aliasOf, hnone, hproto]
  · intro k hk hin
    rw [hmem] at hin
    rcases hin with ⟨htech, -⟩ | hal
    · have hk2 := techFromType_mem e.type k htech
      revert hk
      simp only [techKeywords, List.mem_cons, List.mem_singleton, List.not_mem_nil,
        or_false] at hk2
      rcases hk2 with rfl | rfl | rfl | rfl | rfl | rfl <;> decide
    · obtain ⟨t, -, hta⟩ := List.mem_map.mp hal
      unfold aliasOf at hta
      rcases hl : TAG_ALIASES.lookup t with _ | v
      · rw [hl] at hta
        simp only at hta
        split at hta
        · cases hta
        · cases hta
          exact lookup_none_not_key _ _ hl hk
      · rw [hl] at hta
        have hv := TAG_ALIASES_values (t, v) (lookup_some_mem _ _ _ hl)
        simp only at hta hv
        rw [if_neg hv.1] at hta
        cases hta
        exact hv.2 hk

/-- C20: the descriptor with the one tag `constructor`.  The tag is a string and not
a key of `TAG_ALIASES`, and the result does not hold it: the lookup finds the member
that the table inherits from `Object.prototype`, and that member takes the place of
the tag. -/
theorem inherited_name_is_not_passed_through :
    TAG_ALIASES.lookup "constructor" = none ∧
      "constructor" ∉ TAG_ALIASES.map Prod.fst ∧
      normalizeTags (descriptor "x" "" ["constructor"]) =
        [TagValue.inherited "constructor"] ∧
      TagValue.str "constructor" ∉ normalizeTags (descriptor "x" "" ["constructor"]) := by
  decide

/-! ## The canonical tag list -/

theorem firstSeen_eq_filter {α : Type} [DecidableEq α] (l : List α) :
    ∀ seen : List α, firstSeen seen l = (uniqueInOrder l).filter (fun y => y ∉ seen) := by
  induction l with
  | nil => intro seen; rfl
  | cons x xs ih =>
    intro seen
    by_cases hx : x ∈ seen
    · simp only [firstSeen, hx, if_true, uniqueInOrder, List.filter_cons, ih, List.filter_filter,
        decide_not, decide_True, Bool.not_true, Bool.false_eq_true, if_false]
      apply List.filter_congr
      intro y _
      by_cases hy : y ∈ seen
      · simp [hy]
      · have : y ≠ x := fun h => hy (h ▸ hx)
        simp [hy, this]
    · simp only [firstSeen, hx, if_false, uniqueInOrder, List.filter_cons, ih, List.filter_filter,
        decide_not, decide_False, Bool.not_false, if_true]
      congr 1
      apply List.filter_congr
      intro y _
      by_cases hyx : y = x
      · simp [hyx]
      · simp [hyx]

theorem firstSeen_nil_eq {α : Type} [DecidableEq α] (l : List α) :
    firstSeen [] l = uniqueInOrder l := by
  rw [firstSeen_eq_filter]
  simp

theorem nodup_uniqueInOrder {α : Type} [DecidableEq α] (l : List α) :
    (uniqueInOrder l).Nodup := by
  induction l with
  | nil => simp [uniqueInOrder]
  | cons x xs ih =>
    simp only [uniqueInOrder, List.nodup_cons, List.mem_filter, decide_eq_true_eq]
    exact ⟨fun h => h.2 rfl, ih.filter _⟩

theorem uniqueInOrder_sublist {α : Type} [DecidableEq α] (l : List α) :
    (uniqueInOrder l).Sublist l := by
  induction l with
  | nil => simp [uniqueInOrder]
  | cons x xs ih =>
    simp only [uniqueInOrder]
    exact ((List.filter_sublist _).trans ih).cons₂ x

theorem uniqueInOrder_of_nodup {α : Type} [DecidableEq α] (l : List α) (h : l.Nodup) :
    uniqueInOrder l = l := by
  induction l with
  | nil => rfl
  | cons x xs ih =>
    rw [List.nodup_cons] at h
    simp only [uniqueInOrder, ih h.2]
    congr 1
    rw [List.filter_eq_self]
    intro y hy
    have : y ≠ x := fun hyx => h.1 (hyx ▸ hy)
    simpa using this

/-- The pure function and the one on string descriptors agree. -/
theorem normalizeTagsJs_toRaw (e : Effect) :
    normalizeTagsJs e.toRaw = Except.ok (normalizeTags e) := by
  have hm : (e.tags.map TagValue.str).map aliasOfValue = e.tags.map aliasOf := by
    simp [List.map_map, Function.comp_def, aliasOfValue]
  simp only [normalizeTagsJs, Effect.toRaw, techFromTypeJs, rawTags, normalizeTags, hm]

/-- Whenever type inference returns, `normalizeTags` returns the de-duplication of
`taggedList`. -/
theorem normalizeTagsJs_ok (d : RawDescriptor) (tech : Option String)
    (h : techFromTypeJs d.type = Except.ok tech) :
    normalizeTagsJs d = Except.ok (uniqueInOrder (taggedList tech (rawTags d))) := by
  simp only [normalizeTagsJs, h, taggedList]
  rcases tech with _ | t <;> simp

/-- C21: for every descriptor on which type inference returns, `normalizeTags`
returns the first-occurrence de-duplication of the list made of the inferred
technology tag, if any, followed by the alias-mapped raw tags in their order.  The
result has no duplicate, has the same elements as that list, keeps their relative
order, and its first element is the technology tag whenever one is inferred. -/
theorem normalizeTags_first_occurrences (d : RawDescriptor) (tech : Option String)
    (h : techFromTypeJs d.type = Except.ok tech) :
    ∃ r, normalizeTagsJs d = Except.ok r ∧
      r = firstSeen [] (taggedList tech (rawTags d)) ∧
      r.Nodup ∧
      (∀ x, x ∈ r ↔ x ∈ taggedList tech (rawTags d)) ∧
      r.Sublist (taggedList tech (rawTags d)) ∧
      (∀ t, tech = some t → r.head? = some (TagValue.str t)) := by
  refine ⟨_, normalizeTagsJs_ok d tech h, (firstSeen_nil_eq _).symm, nodup_uniqueInOrder _,
    fun x => mem_uniqueInOrder x _, uniqueInOrder_sublist _, ?_⟩
  intro t ht
  subst ht
  simp [taggedList, uniqueInOrder]

/-- C21 at the registry entry `effectRippleButton`, type `JS+CSS`, tags
`interaction`, `css`, `micro-interaction`: the technology tag `css` comes first and
the raw tag `css` is dropped as a duplicate. -/
theorem normalizeTags_first_occurrences_witness :
    techFromTypeJs effectRippleButton.toRaw.type = Except.ok (some "css") ∧
      ∃ r, normalizeTagsJs effectRippleButton.toRaw = Except.ok r ∧
        r = [TagValue.str "css", TagValue.str "interaction", TagValue.str "animation"] :=
  ⟨rfl,
    (normalizeTags_first_occurrences effectRippleButton.toRaw (some "css") rfl).elim
      fun r hr => ⟨r, hr.1, by rw [hr.2.1]; decide⟩⟩

/-- C22: the descriptor with `type: null` and no `tags` field.  `normalizeTags` does
not return a list: the default of `techFromType` does not apply to `null`, and
`type.toLowerCase()` raises a `TypeError`.  The same happens with an array of tags
and with a `type` that is a number. -/
theorem null_type_raises :
    normalizeTagsJs { type := TypeField.null, tags := TagsField.notArray } =
        Except.error JsError.typeError ∧
      normalizeTagsJs { type := TypeField.null, tags := TagsField.array [TagValue.str "css"] } =
        Except.error JsError.typeError ∧
      normalizeTagsJs { type := TypeField.other, tags := TagsField.notArray } =
        Except.error JsError.typeError :=
  ⟨rfl, rfl, rfl⟩

/-- What holds of the totality of `normalizeTags`: it returns a list whenever `type`
is a string or is missing, whatever `tags` is; with no array of tags and a type that
is missing or holds no keyword the list is empty; it raises exactly when `type` is
`null` or a value without `toLowerCase`. -/
theorem normalizeTagsJs_total_on_strings (d : RawDescriptor) :
    ((d.type = TypeField.missing ∨ ∃ s, d.type = TypeField.str s) →
        ∃ r, normalizeTagsJs d = Except.ok r) ∧
      (d.tags = TagsField.notArray →
        (d.type = TypeField.missing ∨ ∃ s, d.type = TypeField.str s ∧ techFromType s = none) →
        normalizeTagsJs d = Except.ok []) ∧
      (normalizeTagsJs d = Except.error JsError.typeError ↔
        d.type = TypeField.null ∨ d.type = TypeField.other) := by
  obtain ⟨ty, tg⟩ := d
  refine ⟨?_, ?_, ?_⟩
  · rintro (h | ⟨s, h⟩) <;> simp only at h <;> subst h <;>
      exact ⟨_, normalizeTagsJs_ok _ _ rfl⟩
  · intro htg hty
    simp only at htg hty
    subst htg
    rcases hty with h | ⟨s, h, hs⟩
    · subst h
      rfl
    · subst h
      simp [normalizeTagsJs, techFromTypeJs, rawTags, hs, uniqueInOrder]
  · rcases ty with _ | _ | s | _ <;> simp [normalizeTagsJs, techFromTypeJs]

/-- C23, as stated, fails: the descriptor with the one tag `Foo`, which is no key of
the alias table, yields `["Foo"]`, and `Foo` is not its own lowercase form. -/
theorem uppercase_tag_is_kept :
    normalizeTags (descriptor "x" "" ["Foo"]) = [TagValue.str "Foo"] ∧
      toLowerCase "Foo" = "foo" ∧ toLowerCase "Foo" ≠ "Foo" := by
  decide

/-- The keywords of `techFromType` and the values of `TAG_ALIASES` are lowercase. -/
theorem keywords_and_aliases_lowercase :
    (∀ k ∈ techKeywords, toLowerCase k = k) ∧ (∀ p ∈ TAG_ALIASES, toLowerCase p.2 = p.2) := by
  decide

/-- Membership in the result of `normalizeTags`: the technology tag, or the value of
`TAG_ALIASES[t] || t` for a raw tag `t`. -/
theorem mem_normalizeTags (e : Effect) (x : TagValue) :
    x ∈ normalizeTags e ↔
      (∃ k, techFromType e.type = some k ∧ x = TagValue.str k) ∨ ∃ t ∈ e.tags, x = aliasOf t := by
  unfold normalizeTags
  rw [mem_uniqueInOrder]
  rcases techFromType e.type with _ | k
  · simp [eq_comm]
  · simp [eq_comm]

/-- The string that `TAG_ALIASES[t] || t` yields, when it yields one: the alias of an
own key, or `t` itself when `t` is no own key. -/
theorem aliasOf_eq_str (t s : String) (h : aliasOf t = TagValue.str s) :
    (∃ v, (t, v) ∈ TAG_ALIASES ∧ s = v) ∨ (TAG_ALIASES.lookup t = none ∧ s = t) := by
  unfold aliasOf at h
  rcases hl : TAG_ALIASES.lookup t with _ | v
  · rw [hl] at h
    simp only at h
    split at h
    · cases h
    · cases h
      exact Or.inr ⟨rfl, rfl⟩
  · rw [hl] at h
    have hv := TAG_ALIASES_values (t, v) (lookup_some_mem _ _ _ hl)
    simp only at h hv
    rw [if_neg hv.1] at h
    cases h
    exact Or.inl ⟨s, lookup_some_mem _ _ _ hl, rfl⟩

/-- C23 as amended: every string in the result of `normalizeTags` is the inferred
technology keyword, the alias of a raw tag that is a key of the table, or a raw tag
that is no key, passed through with the case it has.  Keywords and aliases are
lowercase; so when the raw tags that are no keys are lowercase, every string of the
result is lowercase. -/
theorem normalizeTags_strings_lowercase (e : Effect)
    (h : ∀ t ∈ e.tags, TAG_ALIASES.lookup t = none → toLowerCase t = t) :
    (∀ s, TagValue.str s ∈ normalizeTags e →
        techFromType e.type = some s ∨ (∃ t ∈ e.tags, (t, s) ∈ TAG_ALIASES) ∨
          (s ∈ e.tags ∧ TAG_ALIASES.lookup s = none)) ∧
      (∀ s, TagValue.str s ∈ normalizeTags e → toLowerCase s = s) := by
  have hkinds : ∀ s, TagValue.str s ∈ normalizeTags e →
      techFromType e.type = some s ∨ (∃ t ∈ e.tags, (t, s) ∈ TAG_ALIASES) ∨
        (s ∈ e.tags ∧ TAG_ALIASES.lookup s = none) := by
    intro s hs
    rcases (mem_normalizeTags e _).mp hs with ⟨k, hk, hx⟩ | ⟨t, ht, hx⟩
    · cases hx
      exact Or.inl hk
    · rcases aliasOf_eq_str t s hx.symm with ⟨v, hv, rfl⟩ | ⟨hn, rfl⟩
      · exact Or.inr (Or.inl ⟨t, ht, hv⟩)
      · exact Or.inr (Or.inr ⟨ht, hn⟩)
  refine ⟨hkinds, fun s hs => ?_⟩
  rcases hkinds s hs with hk | ⟨t, -, hv⟩ | ⟨hs1, hs2⟩
  · exact keywords_and_aliases_lowercase.1 s (techFromType_mem _ _ hk)
  · exact keywords_and_aliases_lowercase.2 (t, s) hv
  · exact h s hs1 hs2

/-- C23 as amended, at the registry entry `effectRippleButton`. -/
theorem normalizeTags_strings_lowercase_witness :
    (∀ t ∈ effectRippleButton.tags, TAG_ALIASES.lookup t = none → toLowerCase t = t) ∧
      ∀ s, TagValue.str s ∈ normalizeTags effectRippleButton → toLowerCase s = s :=
  have h : ∀ t ∈ effectRippleButton.tags, TAG_ALIASES.lookup t = none → toLowerCase t = t := by
    decide
  ⟨h, (normalizeTags_strings_lowercase effectRippleButton h).2⟩

/-- The elements of the result are fixed by the alias step. -/
theorem aliasOfValue_of_mem_normalizeTags (e : Effect) (x : TagValue)
    (hx : x ∈ normalizeTags e) : aliasOfValue x = x := by
  have hkw : ∀ k ∈ techKeywords, aliasOf k = TagValue.str k := by decide
  have hal : ∀ p ∈ TAG_ALIASES, aliasOf p.2 = TagValue.str p.2 := by decide
  rcases (mem_normalizeTags e x).mp hx with ⟨k, hk, rfl⟩ | ⟨t, -, rfl⟩
  · exact hkw k (techFromType_mem _ _ hk)
  · rcases hat : aliasOf t with s | n
    · rcases aliasOf_eq_str t s hat with ⟨v, hv, rfl⟩ | ⟨-, rfl⟩
      · exact hal (t, s) hv
      · exact hat
    · rfl

theorem uniqueInOrder_cons_self {α : Type} [DecidableEq α] (x : α) (l : List α) :
    uniqueInOrder (x :: uniqueInOrder (x :: l)) = uniqueInOrder (x :: l) := by
  have hn := nodup_uniqueInOrder (x :: l)
  rw [show uniqueInOrder (x :: uniqueInOrder (x :: l)) =
    x :: (uniqueInOrder (uniqueInOrder (x :: l))).filter (fun y => y ≠ x) from rfl,
    uniqueInOrder_of_nodup _ hn]
  simp [uniqueInOrder, List.filter_filter]

/-- C30: for every descriptor with a string `type` and string `tags`, applying
`normalizeTags` to the descriptor with the same `type` and with the result of
`normalizeTags` as its `tags` returns that result again. -/
theorem normalizeTags_idempotent (e : Effect) :
    normalizeTagsJs { type := TypeField.str e.type, tags := TagsField.array (normalizeTags e) } =
      Except.ok (normalizeTags e) := by
  have hmap : (normalizeTags e).map aliasOfValue = normalizeTags e := by
    conv_rhs => rw [← List.map_id (normalizeTags e)]
    exact List.map_congr_left (fun x hx => aliasOfValue_of_mem_normalizeTags e x hx)
  simp only [normalizeTagsJs, techFromTypeJs, rawTags, hmap]
  congr 1
  unfold normalizeTags
  rcases techFromType e.type with _ | k
  · exact uniqueInOrder_of_nodup _ (nodup_uniqueInOrder _)
  · exact uniqueInOrder_cons_self _ _

/-! ## Determinism and the heap -/

theorem TagHeap.read_alloc_old (h : TagHeap) (a : List TagValue) (addr : Nat)
    (hlt : addr < h.arrays.length) : (h.alloc a).2.read addr = h.read addr := by
  simp [TagHeap.alloc, TagHeap.read, List.getElem?_append_left hlt]

theorem TagHeap.read_alloc_new (h : TagHeap) (a : List TagValue) :
    (h.alloc a).2.read (h.alloc a).1 = a := by
  simp [TagHeap.alloc, TagHeap.read]

/-- What a call of `normalizeTags` does to the heap and what it returns: the fields
of `effect` are not assigned, the arrays that existed are not changed (arrays are
added at new addresses only), and the returned array holds the list that the pure
function computes from the descriptor. -/
theorem normalizeTagsOn_spec (h : TagHeap) (hwf : ∀ a, h.tags = some a → a < h.arrays.length) :
    (normalizeTagsOn h).2.type = h.type ∧ (normalizeTagsOn h).2.tags = h.tags ∧
      (∃ ext, (normalizeTagsOn h).2.arrays = h.arrays ++ ext) ∧
      returnedList (normalizeTagsOn h) = normalizeTagsJs h.view := by
  obtain ⟨ty, tg, ars⟩ := h
  rcases tg with _ | a
  · rcases ty with _ | _ | s | _
    · rcases ht : techFromType "" with _ | k <;>
        simp [normalizeTagsOn, techFromTypeJs, TagHeap.alloc, TagHeap.read, returnedList,
          normalizeTagsJs, TagHeap.view, rawTags, ht, List.getElem_append_right]
    · simp [normalizeTagsOn, techFromTypeJs, TagHeap.alloc, returnedList, normalizeTagsJs,
        TagHeap.view]
    · rcases ht : techFromType s with _ | k <;>
        simp [normalizeTagsOn, techFromTypeJs, TagHeap.alloc, TagHeap.read, returnedList,
          normalizeTagsJs, TagHeap.view, rawTags, ht, List.getElem_append_right]
    · simp [normalizeTagsOn, techFromTypeJs, TagHeap.alloc, returnedList, normalizeTagsJs,
        TagHeap.view]
  · have ha : a < ars.length := hwf a rfl
    rcases ty with _ | _ | s | _
    · rcases ht : techFromType "" with _ | k <;>
        simp [normalizeTagsOn, techFromTypeJs, TagHeap.alloc, TagHeap.read, returnedList,
          normalizeTagsJs, TagHeap.view, rawTags, ht, List.getElem?_append_left ha,
          List.getElem_append_right]
    · simp [normalizeTagsOn, techFromTypeJs, returnedList, normalizeTagsJs, TagHeap.view]
    · rcases ht : techFromType s with _ | k <;>
        simp [normalizeTagsOn, techFromTypeJs, TagHeap.alloc, TagHeap.read, returnedList,
          normalizeTagsJs, TagHeap.view, rawTags, ht, List.getElem?_append_left ha,
          List.getElem_append_right]
    · simp [normalizeTagsOn, techFromTypeJs, returnedList, normalizeTagsJs, TagHeap.view]

/-- A call leaves the descriptor as it was. -/
theorem normalizeTagsOn_view (h : TagHeap) (hwf : ∀ a, h.tags = some a → a < h.arrays.length) :
    (normalizeTagsOn h).2.view = h.view ∧
      ∀ a, (normalizeTagsOn h).2.tags = some a → a < (normalizeTagsOn h).2.arrays.length := by
  obtain ⟨hty, htg, ⟨ext, hext⟩, -⟩ := normalizeTagsOn_spec h hwf
  constructor
  · simp only [TagHeap.view, hty, htg]
    rcases hta : h.tags with _ | a
    · rfl
    · have ha := hwf a hta
      simp [TagHeap.read, hext, List.getElem?_append_left ha]
  · intro a ha
    rw [htg] at ha
    have := hwf a ha
    rw [hext, List.length_append]
    omega

/-- C24: on a heap in which `effect.tags`, when it is an array, is an array that
exists, two calls of `normalizeTags(effect)` one after the other return lists with
equal elements (or raise the same error), each the list that the descriptor
determines; after each call the fields `type` and `tags` of `effect` hold what they
held, and every array that existed before the first call, the array of raw tags
among them, has the elements it had. -/
theorem normalizeTags_deterministic_and_pure (h : TagHeap)
    (hwf : ∀ a, h.tags = some a → a < h.arrays.length) :
    returnedList (normalizeTagsOn (normalizeTagsOn h).2) = returnedList (normalizeTagsOn h) ∧
      returnedList (normalizeTagsOn h) = normalizeTagsJs h.view ∧
      (normalizeTagsOn h).2.type = h.type ∧ (normalizeTagsOn h).2.tags = h.tags ∧
      (∀ addr, addr < h.arrays.length → (normalizeTagsOn h).2.read addr = h.read addr) ∧
      (normalizeTagsOn (normalizeTagsOn h).2).2.type = h.type ∧
      (normalizeTagsOn (normalizeTagsOn h).2).2.tags = h.tags ∧
      (∀ addr, addr < h.arrays.length →
        (normalizeTagsOn (normalizeTagsOn h).2).2.read addr = h.read addr) := by
  obtain ⟨hty, htg, ⟨ext, hext⟩, hret⟩ := normalizeTagsOn_spec h hwf
  obtain ⟨hview, hwf1⟩ := normalizeTagsOn_view h hwf
  obtain ⟨hty2, htg2, ⟨ext2, hext2⟩, hret2⟩ := normalizeTagsOn_spec (normalizeTagsOn h).2 hwf1
  refine ⟨by rw [hret2, hview, hret], hret, hty, htg, ?_, by rw [hty2, hty],
    by rw [htg2, htg], ?_⟩
  · intro addr ha
    simp [TagHeap.read, hext, List.getElem?_append_left ha]
  · intro addr ha
    have ha1 : addr < (h.arrays ++ ext).length := by
      rw [List.length_append]; omega
    simp [TagHeap.read, hext2, hext, List.getElem?_append_left ha1,
      List.getElem?_append_left ha]

/-- C24 at a heap that holds the registry entry `effectRippleButton`: its array of
tags is at address 0. -/
theorem normalizeTags_deterministic_and_pure_witness :
    (∀ a, (some 0 : Option Nat) = some a →
        a < [effectRippleButton.tags.map TagValue.str].length) ∧
      returnedList (normalizeTagsOn (normalizeTagsOn
          { type := TypeField.str effectRippleButton.type, tags := some 0,
            arrays := [effectRippleButton.tags.map TagValue.str] }).2) =
        returnedList (normalizeTagsOn
          { type := TypeField.str effectRippleButton.type, tags := some 0,
            arrays := [effectRippleButton.tags.map TagValue.str] }) :=
  have hwf : ∀ a, (some 0 : Option Nat) = some a →
      a < [effectRippleButton.tags.map TagValue.str].length := by
    intro a ha
    cases ha
    decide
  ⟨hwf,
    (normalizeTags_deterministic_and_pure
      { type := TypeField.str effectRippleButton.type, tags := some 0,
        arrays := [effectRippleButton.tags.map TagValue.str] } hwf).1⟩

/-! ## Teardown of the registry effects -/

/-- C25: every entry of `EFFECTS` has the method body `this._cleanup?.();` and no
property `_cleanup` in its literal, so it is an `EffectObject`; and for such an object
on which `init` was never called, `teardown()` is a no-op: `this._cleanup` is
undefined, the optional call does nothing, so no cleanup runs, nothing is thrown and
the object and its surroundings are as before, however often it is called. -/
theorem teardown_before_init_is_noop {σ : Type} (s : σ) :
    (∀ e ∈ EFFECTS, e.teardown = "this._cleanup?.();" ∧ e.cleanupInLiteral = false) ∧
      (EffectObject.fresh s).teardown = EffectObject.fresh s ∧
      (EffectObject.fresh s).teardown.cleanupRuns = 0 ∧
      (EffectObject.fresh s).teardown.state = s ∧
      (EffectObject.fresh s).teardown.teardown = EffectObject.fresh s :=
  ⟨by decide, rfl, rfl, rfl, rfl⟩

/-- C26, as stated, fails: for `effectParticleFountain`, whose `init` appends a canvas
to the container and whose cleanup empties the container, two calls of `teardown()`
after one `init` execute the stored cleanup twice. -/
theorem second_teardown_runs_cleanup_again :
    (((EffectObject.fresh ([] : List String)).init (fun c => c ++ ["canvas"])
        (fun _ => [])).teardown.teardown).cleanupRuns = 2 ∧
      (((EffectObject.fresh ([] : List String)).init (fun c => c ++ ["canvas"])
        (fun _ => [])).teardown).cleanupRuns = 1 :=
  ⟨rfl, rfl⟩

/-- C26 as amended: `teardown` runs the stored cleanup procedure on every call.
After `init`, one call executes it once and two calls execute it twice, the second
time on the state the first left; the two calls leave the state that one call leaves
exactly when the cleanup procedure changes nothing on its second run. -/
theorem teardown_runs_cleanup_each_call {σ : Type} (setup cleanup : σ → σ)
    (o : EffectObject σ) :
    ((o.init setup cleanup).teardown).cleanupRuns = o.cleanupRuns + 1 ∧
      ((o.init setup cleanup).teardown.teardown).cleanupRuns = o.cleanupRuns + 2 ∧
      ((o.init setup cleanup).teardown).state = cleanup (setup o.state) ∧
      ((o.init setup cleanup).teardown.teardown).state = cleanup (cleanup (setup o.state)) ∧
      (((o.init setup cleanup).teardown.teardown).state =
          ((o.init setup cleanup).teardown).state ↔
        cleanup (cleanup (setup o.state)) = cleanup (setup o.state)) :=
  ⟨rfl, rfl, rfl, rfl, Iff.rfl⟩

/-- C27: the ids of the 72 entries of `EFFECTS` are pairwise distinct. -/
theorem registry_ids_distinct :
    EFFECTS.length = 72 ∧ (EFFECTS.map RegistryEntry.id).Nodup ∧
      ∀ a ∈ EFFECTS, ∀ b ∈ EFFECTS, a.id = b.id → a = b := by
  have hn : (EFFECTS.map RegistryEntry.id).Nodup := by decide
  refine ⟨rfl, hn, ?_⟩
  intro a ha b hb hab
  exact List.inj_on_of_nodup_map hn ha hb hab

/-! ## Correctness of the sieve -/

theorem primes_below_succ (i : Nat) :
    ((List.range (i + 1)).filter (fun p => decide (Nat.Prime p))).length =
      ((List.range i).filter (fun p => decide (Nat.Prime p))).length +
        (if Nat.Prime i then 1 else 0) := by
  rw [List.range_succ, List.filter_append, List.length_append]
  by_cases h : Nat.Prime i <;> simp [h]

/-- At the head of an iteration with nothing being marked, the cell of `i` is zero
exactly when `i` is prime. -/
theorem SieveInv.cell_zero_iff_prime {N : Nat} {st : FallbackState} (h : SieveInv N st)
    (hj : st.j = 0) (hi : st.i ≤ N) : st.sieve st.i = 0 ↔ Nat.Prime st.i := by
  have hc := h.cells st.i h.two_le hi
  simp only [hj, ne_eq, not_true_eq_false, false_and, or_false] at hc
  constructor
  · intro hz
    by_contra hnp
    have hpos : 0 < st.i := by have := h.two_le; omega
    have hne1 : st.i ≠ 1 := by have := h.two_le; omega
    have hmp : Nat.Prime (Nat.minFac st.i) := Nat.minFac_prime hne1
    have hsq : Nat.minFac st.i ^ 2 ≤ st.i := Nat.minFac_sq_le_self hpos hnp
    have hlt : Nat.minFac st.i < st.i := by
      have h2 := hmp.two_le
      nlinarith
    exact (hc.mpr ⟨_, hmp, hlt, by rw [← sq]; exact hsq, Nat.minFac_dvd _⟩) hz
  · intro hp
    by_contra hnz
    obtain ⟨p, hpp, hlt, -, hdvd⟩ := hc.mp hnz
    rcases (Nat.dvd_prime hp).mp hdvd with h1 | h1
    · exact hpp.one_lt.ne' h1
    · omega

/-- When the outer loop is over, the cells from 2 to `N` that are zero are the
primes. -/
theorem SieveInv.final_cells {N : Nat} {st : FallbackState} (h : SieveInv N st)
    (hj : st.j = 0) (hi : st.i = N + 1) :
    ∀ k, 2 ≤ k → k ≤ N → (st.sieve k = 0 ↔ Nat.Prime k) := by
  intro k hk2 hkN
  have hc := h.cells k hk2 hkN
  simp only [hj, ne_eq, not_true_eq_false, false_and, or_false] at hc
  constructor
  · intro hz
    by_contra hnp
    have hpos : 0 < k := by omega
    have hne1 : k ≠ 1 := by omega
    have hmp : Nat.Prime (Nat.minFac k) := Nat.minFac_prime hne1
    have hsq : Nat.minFac k ^ 2 ≤ k := Nat.minFac_sq_le_self hpos hnp
    have hlt : Nat.minFac k < st.i := by
      have := Nat.minFac_le hpos
      omega
    exact (hc.mpr ⟨_, hmp, hlt, by rw [← sq]; exact hsq, Nat.minFac_dvd _⟩) hz
  · intro hp
    by_contra hnz
    obtain ⟨p, hpp, -, hsq, hdvd⟩ := hc.mp hnz
    rcases (Nat.dvd_prime hp).mp hdvd with h1 | h1
    · exact hpp.one_lt.ne' h1
    · subst h1
      have := hpp.two_le
      nlinarith

theorem SieveInv.at_init (N : Nat) (hN : 1 ≤ N) :
    SieveInv N { i := 2, j := 0, count := 0, sieve := emptySieve } := by
  refine ⟨le_refl 2, by simp only; omega, fun h => absurd rfl h, ?_, by decide⟩
  intro k _ _
  simp only [emptySieve, ne_eq, not_true_eq_false, false_iff, false_and, or_false]
  rintro ⟨p, hp, hlt, -, -⟩
  have := hp.two_le
  omega

/-- An unmarked `i` whose square is within `N`: it is counted and the marking of its
multiples begins at the square. -/
theorem SieveInv.begin_marking {N : Nat} {st : FallbackState} (h : SieveInv N st)
    (hj : st.j = 0) (hi : st.i ≤ N) (hz : st.sieve st.i = 0) (hsq : st.i * st.i ≤ N) :
    SieveInv N { st with count := st.count + 1, j := st.i * st.i } := by
  have hp := (h.cell_zero_iff_prime hj hi).mp hz
  have hpos : st.i * st.i ≠ 0 := by
    have := h.two_le
    positivity
  refine ⟨h.two_le, h.le_succ, fun _ => ⟨hp, hsq, le_refl _, Dvd.intro _ rfl⟩, ?_, ?_⟩
  · intro k hk2 hkN
    have hc := h.cells k hk2 hkN
    simp only [hj, ne_eq, not_true_eq_false, false_and, or_false] at hc
    simp only [ne_eq, hpos, not_false_eq_true, true_and]
    rw [hc]
    constructor
    · exact Or.inl
    · rintro (h1 | ⟨h1, h2, -⟩)
      · exact h1
      · omega
  · simp only [ne_eq, hpos, not_false_eq_true, if_true]
    rw [h.count_eq]
    simp [hj]

/-- An unmarked `i` whose square exceeds `N`: it is counted and the loop goes on. -/
theorem SieveInv.count_prime {N : Nat} {st : FallbackState} (h : SieveInv N st)
    (hj : st.j = 0) (hi : st.i ≤ N) (hz : st.sieve st.i = 0) (hsq : ¬ st.i * st.i ≤ N) :
    SieveInv N { st with count := st.count + 1, i := st.i + 1 } := by
  have hp := (h.cell_zero_iff_prime hj hi).mp hz
  refine ⟨by simp only; have := h.two_le; omega, by simp only; omega,
    fun hne => absurd hj hne, ?_, ?_⟩
  · intro k hk2 hkN
    have hc := h.cells k hk2 hkN
    simp only [hj, ne_eq, not_true_eq_false, false_and, or_false] at hc ⊢
    rw [hc]
    constructor
    · rintro ⟨p, hpp, hlt, h1, h2⟩
      exact ⟨p, hpp, by omega, h1, h2⟩
    · rintro ⟨p, hpp, hlt, h1, h2⟩
      refine ⟨p, hpp, ?_, h1, h2⟩
      rcases Nat.lt_succ_iff_lt_or_eq.mp hlt with h3 | h3
      · exact h3
      · subst h3
        omega
  · simp only [hj, ne_eq, not_true_eq_false, if_false, add_zero]
    rw [primes_below_succ, h.count_eq]
    simp [hj, hp]

/-- A marked `i` is skipped. -/
theorem SieveInv.skip_composite {N : Nat} {st : FallbackState} (h : SieveInv N st)
    (hj : st.j = 0) (hi : st.i ≤ N) (hz : st.sieve st.i ≠ 0) :
    SieveInv N { st with i := st.i + 1 } := by
  have hnp : ¬ Nat.Prime st.i := fun hp => hz ((h.cell_zero_iff_prime hj hi).mpr hp)
  refine ⟨by simp only; have := h.two_le; omega, by simp only; omega,
    fun hne => absurd hj hne, ?_, ?_⟩
  · intro k hk2 hkN
    have hc := h.cells k hk2 hkN
    simp only [hj, ne_eq, not_true_eq_false, false_and, or_false] at hc ⊢
    rw [hc]
    constructor
    · rintro ⟨p, hpp, hlt, h1, h2⟩
      exact ⟨p, hpp, by omega, h1, h2⟩
    · rintro ⟨p, hpp, hlt, h1, h2⟩
      refine ⟨p, hpp, ?_, h1, h2⟩
      rcases Nat.lt_succ_iff_lt_or_eq.mp hlt with h3 | h3
      · exact h3
      · subst h3
        exact absurd hpp hnp
  · simp only [hj, ne_eq, not_true_eq_false, if_false, add_zero]
    rw [primes_below_succ, h.count_eq]
    simp [hj, hnp]

/-- One multiple is marked: `sieve[j]=1; j += i`. -/
theorem SieveInv.mark_one {N : Nat} {st : FallbackState} (h : SieveInv N st)
    (hj : st.j ≠ 0) :
    SieveInv N { st with j := st.j + st.i, sieve := Function.update st.sieve st.j 1 } := by
  obtain ⟨hp, hsqN, hsqj, hdvd⟩ := h.marking hj
  have hi2 := h.two_le
  have hne : st.j + st.i ≠ 0 := by omega
  refine ⟨h.two_le, h.le_succ, fun _ => ⟨hp, hsqN, by simp only; omega,
    (Nat.dvd_add_right hdvd).mpr (dvd_refl _)⟩, ?_, ?_⟩
  · intro k hk2 hkN
    have hc := h.cells k hk2 hkN
    simp only [ne_eq, hj, not_false_eq_true, true_and] at hc
    simp only [ne_eq, hne, not_false_eq_true, true_and]
    by_cases hkj : k = st.j
    · subst hkj
      simp only [Function.update_same, one_ne_zero, not_false_eq_true, true_iff]
      exact Or.inr ⟨hsqj, by omega, hdvd⟩
    · rw [Function.update_noteq hkj, hc]
      constructor
      · rintro (h1 | ⟨h1, h2, h3⟩)
        · exact Or.inl h1
        · exact Or.inr ⟨h1, by omega, h3⟩
      · rintro (h1 | ⟨h1, h2, h3⟩)
        · exact Or.inl h1
        · refine Or.inr ⟨h1, ?_, h3⟩
          by_contra hge
          have hlt : st.j < k := by omega
          obtain ⟨a, ha⟩ := hdvd
          obtain ⟨b, hb⟩ := h3
          have hab : a < b := by
            by_contra hba
            have : b ≤ a := by omega
            have := Nat.mul_le_mul_left st.i this
            omega
          have : st.i * (a + 1) ≤ st.i * b := Nat.mul_le_mul_left _ hab
          rw [Nat.mul_add, Nat.mul_one] at this
          omega
  · simp only [ne_eq, hne, not_false_eq_true, if_true]
    rw [h.count_eq]
    simp [hj]

/-- The marking of the multiples of `i` is over: `j = 0; i++`. -/
theorem SieveInv.end_marking {N : Nat} {st : FallbackState} (h : SieveInv N st)
    (hj : st.j ≠ 0) (hjN : N < st.j) :
    SieveInv N { st with j := 0, i := st.i + 1 } := by
  obtain ⟨hp, hsqN, hsqj, hdvd⟩ := h.marking hj
  have hi2 := h.two_le
  have hiN : st.i ≤ N := by nlinarith
  refine ⟨by simp only; omega, by simp only; omega, fun hne => absurd rfl hne, ?_, ?_⟩
  · intro k hk2 hkN
    have hc := h.cells k hk2 hkN
    simp only [ne_eq, hj, not_false_eq_true, true_and] at hc
    simp only [ne_eq, not_true_eq_false, false_and, or_false]
    rw [hc]
    constructor
    · rintro (⟨p, hpp, hlt, h1, h2⟩ | ⟨h1, -, h3⟩)
      · exact ⟨p, hpp, by omega, h1, h2⟩
      · exact ⟨st.i, hp, by omega, h1, h3⟩
    · rintro ⟨p, hpp, hlt, h1, h2⟩
      rcases Nat.lt_succ_iff_lt_or_eq.mp hlt with h3 | h3
      · exact Or.inl ⟨p, hpp, h3, h1, h2⟩
      · subst h3
        exact Or.inr ⟨h1, by omega, h2⟩
  · simp only [ne_eq, not_true_eq_false, if_false, add_zero]
    rw [primes_below_succ, h.count_eq]
    simp [hj, hp]

/-- The marking loop of the worker, run from a state of the invariant with enough
iterations allowed, ends, and ends with `j` beyond `N`. -/
theorem markLoop_inv (N i c : Nat) :
    ∀ (fuel j : Nat) (s : Nat → Nat), j ≠ 0 →
      SieveInv N { i := i, j := j, count := c, sieve := s } → N + 1 ≤ fuel + j →
      ∃ s' J, markLoop N i fuel j s = some s' ∧ N < J ∧ J ≠ 0 ∧
        SieveInv N { i := i, j := J, count := c, sieve := s' } := by
  intro fuel
  induction fuel with
  | zero =>
    intro j s hj hinv hf
    refine ⟨s, j, ?_, by omega, hj, hinv⟩
    have : ¬ j ≤ N := by omega
    simp [markLoop, this]
  | succ fuel ih =>
    intro j s hj hinv hf
    by_cases hjN : j ≤ N
    · have h1 := hinv.mark_one hj
      have hi2 := hinv.two_le
      simp only at h1 hi2
      obtain ⟨s', J, hm, hJ, hJ0, hinv'⟩ := ih (j + i) _ (by omega) h1 (by omega)
      exact ⟨s', J, by simp [markLoop, hjN, hm], hJ, hJ0, hinv'⟩
    · refine ⟨s, j, by simp [markLoop, hjN], by omega, hj, hinv⟩

/-- The outer loop of the worker, run from a state of the invariant with enough
iterations allowed, ends, with `i = N + 1`. -/
theorem workerLoop_inv (N : Nat) :
    ∀ (fuel i : Nat) (st : SieveState),
      SieveInv N { i := i, j := 0, count := st.count, sieve := st.sieve } →
      N + 1 ≤ fuel + i →
      ∃ st', workerLoop N fuel i st = some st' ∧
        SieveInv N { i := N + 1, j := 0, count := st'.count, sieve := st'.sieve } := by
  intro fuel
  induction fuel with
  | zero =>
    intro i st hinv hf
    have hle := hinv.le_succ
    simp only at hle
    have hi : i = N + 1 := by omega
    subst hi
    exact ⟨st, by simp [workerLoop], hinv⟩
  | succ fuel ih =>
    intro i st hinv hf
    have hle := hinv.le_succ
    simp only at hle
    by_cases hiN : i ≤ N
    · by_cases hz : st.sieve i = 0
      · by_cases hsq : i * i ≤ N
        · have h1 := hinv.begin_marking rfl hiN hz hsq
          simp only at h1
          have hne : i * i ≠ 0 := by
            have := hinv.two_le
            simp only at this
            positivity
          obtain ⟨s', J, hm, hJ, hJ0, h2⟩ :=
            markLoop_inv N i (st.count + 1) (N + 1) (i * i) st.sieve hne h1 (by omega)
          have h3 := h2.end_marking hJ0 hJ
          simp only at h3
          obtain ⟨st', hw, h4⟩ := ih (i + 1) { sieve := s', count := st.count + 1 } h3 (by omega)
          exact ⟨st', by simp [workerLoop, hiN, hz, hsq, hm, hw], h4⟩
        · have h1 := hinv.count_prime rfl hiN hz hsq
          simp only at h1
          obtain ⟨st', hw, h4⟩ :=
            ih (i + 1) { sieve := st.sieve, count := st.count + 1 } h1 (by omega)
          exact ⟨st', by simp [workerLoop, hiN, hz, hsq, hw], h4⟩
      · have h1 := hinv.skip_composite rfl hiN hz
        simp only at h1
        obtain ⟨st', hw, h4⟩ := ih (i + 1) st h1 (by omega)
        exact ⟨st', by simp [workerLoop, hiN, hz, hw], h4⟩
    · have hi : i = N + 1 := by omega
      subst hi
      exact ⟨st, by simp [workerLoop], hinv⟩

theorem primesUpTo_succ (K : Nat) :
    primesUpTo (K + 1) = primesUpTo K ++ (if Nat.Prime (K + 1) then [K + 1] else []) := by
  unfold primesUpTo
  rw [List.range_succ, List.filter_append]
  by_cases h : Nat.Prime (K + 1) <;> simp [h]

/-- The loop that collects the last primes, on an array whose zero cells from 2 to
`K` are the primes: it appends the primes up to `K` in descending order until the
array `tail` has ten elements. -/
theorem tailLoop_spec (s : Nat → Nat) :
    ∀ (K : Nat) (acc : List Nat), (∀ k, 2 ≤ k → k ≤ K → (s k = 0 ↔ Nat.Prime k)) →
      tailLoop s K acc = acc ++ (primesUpTo K).reverse.take (10 - acc.length) := by
  intro K
  induction K using Nat.strong_induction_on with
  | _ K ih =>
    intro acc hs
    rcases K with _ | _ | K
    · have : primesUpTo 0 = [] := by decide
      simp [tailLoop, this]
    · have : primesUpTo 1 = [] := by decide
      simp [tailLoop, this]
    · rw [primesUpTo_succ]
      have hprev := fun acc' => ih (K + 1) (by omega) acc'
        (fun k hk2 hkK => hs k hk2 (by omega))
      have hcell := hs (K + 2) (by omega) (le_refl _)
      by_cases hlen : acc.length < 10
      · by_cases hp : Nat.Prime (K + 1 + 1)
        · have hz : s (K + 2) = 0 := hcell.mpr hp
          obtain ⟨m, hm⟩ : ∃ m, 10 - acc.length = m + 1 := ⟨9 - acc.length, by omega⟩
          simp only [tailLoop, hlen, if_true, hz, hp, hprev, List.length_append,
            List.length_singleton, List.reverse_append, List.reverse_singleton,
            List.singleton_append, hm, List.take_succ_cons, List.append_assoc]
          congr 3
          omega
        · have hz : s (K + 2) ≠ 0 := fun h => hp (hcell.mp h)
          simp [tailLoop, hlen, hz, hp, hprev]
      · have h0 : 10 - acc.length = 0 := by omega
        simp [tailLoop, hlen, h0]

/-- The worker for a given `N ≥ 1` returns the report that the claim describes. -/
theorem runWorker_eq_expected (N : Nat) (hN : 1 ≤ N) :
    runWorker N = some (expectedReport N) := by
  obtain ⟨st, hw, hinv⟩ := workerLoop_inv N N 2 { sieve := emptySieve, count := 0 }
    (SieveInv.at_init N hN) (by omega)
  have hcells := hinv.final_cells rfl rfl
  simp only at hcells
  have hcount : st.count = (primesUpTo N).length := by
    have := hinv.count_eq
    simpa [primesUpTo] using this
  have htail := tailLoop_spec st.sieve N [] hcells
  simp only [runWorker, hw, expectedReport, htail, hcount, List.nil_append, List.length_nil,
    Nat.sub_zero, List.take_reverse, List.reverse_reverse]

/-! ## The chunked fallback -/

theorem measure_succ (N i : Nat) (hi : i ≤ N) :
    (N + 1 - i) * (N + 2) = (N + 1 - (i + 1)) * (N + 2) + (N + 2) := by
  have : N + 1 - i = (N + 1 - (i + 1)) + 1 := by omega
  rw [this, Nat.add_mul, Nat.one_mul]

/-- The marking loop of the fallback keeps the invariant, never moves `j` back, and
moves it on when the first time test says yes. -/
theorem fallbackMark_inv (N i c : Nat) :
    ∀ (clock : List Bool) (j : Nat) (s : Nat → Nat), j ≠ 0 →
      SieveInv N { i := i, j := j, count := c, sieve := s } →
      (fallbackMark N i clock j s).1 ≠ 0 ∧ j ≤ (fallbackMark N i clock j s).1 ∧
        SieveInv N
          { i := i, j := (fallbackMark N i clock j s).1, count := c,
            sieve := (fallbackMark N i clock j s).2.1 } ∧
        (clock.head? = some true → j ≤ N → j < (fallbackMark N i clock j s).1) := by
  intro clock
  induction clock with
  | nil =>
    intro j s hj hinv
    exact ⟨hj, le_refl _, hinv, fun h => by simp at h⟩
  | cons b clock ih =>
    intro j s hj hinv
    by_cases hjN : j ≤ N
    · rcases b with _ | _
      · have key : fallbackMark N i (false :: clock) j s = (j, s, clock) := by
          simp [fallbackMark, hjN]
        rw [key]
        exact ⟨hj, le_refl _, hinv, fun h => by simp at h⟩
      · have h1 := hinv.mark_one hj
        have hi2 := hinv.two_le
        simp only at h1 hi2
        obtain ⟨r1, r2, r3, -⟩ := ih (j + i) _ (by omega) h1
        have key : fallbackMark N i (true :: clock) j s =
            fallbackMark N i clock (j + i) (Function.update s j 1) := by
          simp [fallbackMark, hjN]
        rw [key]
        exact ⟨r1, by omega, r3, fun _ _ => by omega⟩
    · have key : fallbackMark N i (b :: clock) j s = (j, s, b :: clock) := by
        simp [fallbackMark, hjN]
      rw [key]
      exact ⟨hj, le_refl _, hinv, fun _ h => absurd h hjN⟩

/-- One iteration of the `while` loop keeps the invariant and does not increase the
measure; it decreases it when nothing was being marked, and when the first time test
of the marking loop says yes. -/
theorem fallbackBody_inv (N : Nat) (clock : List Bool) (st : FallbackState)
    (h : HeadInv N st) (hi : st.i ≤ N) :
    HeadInv N (fallbackBody N clock st).1 ∧
      fallbackMeasure N (fallbackBody N clock st).1 ≤ fallbackMeasure N st ∧
      (st.j = 0 ∨ clock.head? = some true →
        fallbackMeasure N (fallbackBody N clock st).1 < fallbackMeasure N st) := by
  obtain ⟨hinv, hhead⟩ := h
  have hms := measure_succ N st.i hi
  by_cases hj : st.j = 0
  · by_cases hz : st.sieve st.i = 0
    · by_cases hsq : st.i * st.i ≤ N
      · have h1 := hinv.begin_marking hj hi hz hsq
        have hi2 := hinv.two_le
        have hpos : 4 ≤ st.i * st.i := by nlinarith
        have hne : st.i * st.i ≠ 0 := by omega
        have key : fallbackBody N clock st =
            ({ st with count := st.count + 1, j := st.i * st.i }, clock) := by
          simp [fallbackBody, hj, hz, hsq]
        rw [key]
        refine ⟨⟨h1, fun _ => hsq⟩, ?_, fun _ => ?_⟩ <;>
          simp only [fallbackMeasure, hj, hne, if_true, if_false] <;> omega
      · have h1 := hinv.count_prime hj hi hz hsq
        have key : fallbackBody N clock st =
            ({ st with count := st.count + 1, i := st.i + 1 }, clock) := by
          simp [fallbackBody, hj, hz, hsq]
        rw [key]
        refine ⟨⟨h1, fun hne => absurd hj hne⟩, ?_, fun _ => ?_⟩ <;>
          simp only [fallbackMeasure, hj, if_true] <;> omega
    · have h1 := hinv.skip_composite hj hi hz
      have key : fallbackBody N clock st = ({ st with i := st.i + 1 }, clock) := by
        simp [fallbackBody, hj, hz]
      rw [key]
      refine ⟨⟨h1, fun hne => absurd hj hne⟩, ?_, fun _ => ?_⟩ <;>
        simp only [fallbackMeasure, hj, if_true] <;> omega
  · have hjN := hhead hj
    obtain ⟨r1, r2, r3, r4⟩ := fallbackMark_inv N st.i st.count clock st.j st.sieve hj hinv
    by_cases hr : (fallbackMark N st.i clock st.j st.sieve).1 > N
    · have h1 := r3.end_marking r1 hr
      simp only at h1
      have key : fallbackBody N clock st =
          (FallbackState.mk (st.i + 1) 0 st.count
              (fallbackMark N st.i clock st.j st.sieve).2.1,
            (fallbackMark N st.i clock st.j st.sieve).2.2) := by
        simp [fallbackBody, hj, hr]
      rw [key]
      refine ⟨⟨h1, fun hne => absurd rfl hne⟩, ?_, fun _ => ?_⟩ <;>
        simp only [fallbackMeasure, hj, if_true, if_false] <;> omega
    · have key : fallbackBody N clock st =
          (FallbackState.mk st.i (fallbackMark N st.i clock st.j st.sieve).1 st.count
              (fallbackMark N st.i clock st.j st.sieve).2.1,
            (fallbackMark N st.i clock st.j st.sieve).2.2) := by
        simp [fallbackBody, hj, hr]
      rw [key]
      refine ⟨⟨r3, fun _ => ?_⟩, ?_, ?_⟩
      · simp only
        omega
      · simp only [fallbackMeasure, hj, r1, if_false]
        omega
      · rintro (h0 | hc)
        · exact absurd h0 hj
        · have := r4 hc hjN
          simp only [fallbackMeasure, hj, r1, if_false]
          omega

/-- The `while` loop of one slice keeps the invariant and does not increase the
measure; when the clock of the slice allows progress and the work is not over, it
decreases the measure. -/
theorem fallbackWhile_inv (N : Nat) :
    ∀ (fuel : Nat) (clock : List Bool) (st : FallbackState), HeadInv N st →
      HeadInv N (fallbackWhile N fuel clock st).1 ∧
        fallbackMeasure N (fallbackWhile N fuel clock st).1 ≤ fallbackMeasure N st ∧
        (0 < fuel → allowsProgress clock = true → st.i ≤ N →
          fallbackMeasure N (fallbackWhile N fuel clock st).1 < fallbackMeasure N st) := by
  intro fuel
  induction fuel with
  | zero =>
    intro clock st h
    exact ⟨h, le_refl _, fun h0 => absurd h0 (lt_irrefl 0)⟩
  | succ fuel ih =>
    intro clock st h
    rcases clock with _ | ⟨b, clock⟩
    · exact ⟨h, le_refl _, fun _ hp => by simp [allowsProgress] at hp⟩
    · by_cases hb : (b && decide (st.i ≤ N)) = true
      · have hi : st.i ≤ N := by
          simp only [Bool.and_eq_true, decide_eq_true_eq] at hb
          exact hb.2
        obtain ⟨b1, b2, b3⟩ := fallbackBody_inv N clock st h hi
        obtain ⟨w1, w2, -⟩ := ih (fallbackBody N clock st).2 (fallbackBody N clock st).1 b1
        simp only [fallbackWhile, hb, if_true]
        refine ⟨w1, le_trans w2 b2, fun _ hp _ => ?_⟩
        have hc : clock.head? = some true := by
          rcases clock with _ | ⟨b', clock⟩
          · simp [allowsProgress] at hp
          · rcases b with _ | _ <;> rcases b' with _ | _ <;>
              simp [allowsProgress] at hp ⊢
        exact lt_of_le_of_lt w2 (b3 (Or.inr hc))
      · simp only [fallbackWhile, hb, Bool.false_eq_true, if_false]
        refine ⟨h, le_refl _, fun _ hp hi => ?_⟩
        exfalso
        apply hb
        rcases b with _ | _
        · rcases clock with _ | ⟨b', clock⟩ <;> simp [allowsProgress] at hp
        · simp [hi]

/-- A state of the invariant in which the work is over holds the report that the
claim describes. -/
theorem HeadInv.report {N : Nat} {st : FallbackState} (h : HeadInv N st) (hi : ¬ st.i ≤ N) :
    ({ count := st.count, last := (tailLoop st.sieve N []).reverse } : SieveReport) =
      expectedReport N := by
  obtain ⟨hinv, -⟩ := h
  have hle := hinv.le_succ
  have hiN : st.i = N + 1 := by omega
  have hj : st.j = 0 := by
    by_contra hne
    obtain ⟨-, hsq, -, -⟩ := hinv.marking hne
    have := hinv.two_le
    nlinarith
  have hcells := hinv.final_cells hj hiN
  have hcount : st.count = (primesUpTo N).length := by
    have := hinv.count_eq
    simpa [primesUpTo, hj, hiN] using this
  have htail := tailLoop_spec st.sieve N [] hcells
  simp only [expectedReport, htail, hcount, List.nil_append, List.length_nil,
    Nat.sub_zero, List.take_reverse, List.reverse_reverse]

/-- Whatever the clocks of the slices, a run of the fallback from a state of the
invariant that finishes reports what the claim describes. -/
theorem fallbackRun_report (N : Nat) :
    ∀ (clocks : List (List Bool)) (st : FallbackState) (r : SieveReport), HeadInv N st →
      fallbackRun N clocks st = some r → r = expectedReport N := by
  intro clocks
  induction clocks with
  | nil => intro st r _ h; simp [fallbackRun] at h
  | cons clock rest ih =>
    intro st r hinv h
    obtain ⟨w1, -, -⟩ := fallbackWhile_inv N (clock.length + 1) clock st hinv
    simp only [fallbackRun, fallbackStep] at h
    by_cases hi : (fallbackWhile N (clock.length + 1) clock st).1.i ≤ N
    · simp only [hi, if_true] at h
      exact ih _ r w1 h
    · simp only [hi, if_false, Option.some.injEq] at h
      rw [← h]
      exact w1.report hi

/-- A run of the fallback in which every slice allows progress finishes as soon as
there are more slices than the measure of the state it starts from. -/
theorem fallbackRun_finishes (N : Nat) :
    ∀ (clocks : List (List Bool)) (st : FallbackState), HeadInv N st →
      (∀ c ∈ clocks, allowsProgress c = true) → fallbackMeasure N st < clocks.length →
      ∃ r, fallbackRun N clocks st = some r := by
  intro clocks
  induction clocks with
  | nil => intro st _ _ h; simp at h
  | cons clock rest ih =>
    intro st hinv hall hlen
    obtain ⟨w1, w2, w3⟩ := fallbackWhile_inv N (clock.length + 1) clock st hinv
    simp only [fallbackRun, fallbackStep]
    by_cases hi : (fallbackWhile N (clock.length + 1) clock st).1.i ≤ N
    · simp only [hi, if_true]
      have hst : st.i ≤ N := by
        by_contra hst
        apply hst
        have hsame : (fallbackWhile N (clock.length + 1) clock st).1 = st := by
          rcases clock with _ | ⟨b, clock⟩
          · simp [fallbackWhile]
          · simp [fallbackWhile, hst]
        rw [hsame] at hi
        exact hi
      have hlt := w3 (Nat.succ_pos _) (hall clock (List.mem_cons_self _ _)) hst
      apply ih _ w1 (fun c hc => hall c (List.mem_cons_of_mem _ hc))
      simp only [List.length_cons] at hlen
      omega
    · simp only [hi, if_false]
      exact ⟨_, rfl⟩

theorem HeadInv.at_start (N : Nat) (hN : 1 ≤ N) :
    HeadInv N { i := 2, j := 0, count := 0, sieve := emptySieve } :=
  ⟨SieveInv.at_init N hN, fun h => absurd rfl h⟩

theorem fallbackMark_clock_length (N i : Nat) :
    ∀ (clock : List Bool) (j : Nat) (s : Nat → Nat),
      (fallbackMark N i clock j s).2.2.length ≤ clock.length := by
  intro clock
  induction clock with
  | nil => intro j s; simp [fallbackMark]
  | cons b clock ih =>
    intro j s
    by_cases hjN : j ≤ N
    · rcases b with _ | _
      · simp [fallbackMark, hjN]
      · have := ih (j + i) (Function.update s j 1)
        simp only [fallbackMark, hjN, if_true, List.length_cons]
        omega
    · simp [fallbackMark, hjN]

theorem fallbackBody_clock_length (N : Nat) (clock : List Bool) (st : FallbackState) :
    (fallbackBody N clock st).2.length ≤ clock.length := by
  have := fallbackMark_clock_length N st.i clock st.j st.sieve
  unfold fallbackBody
  split
  · simp only
    split <;> exact this
  · split
    · split <;> exact le_refl _
    · exact le_refl _

/-- The bound on the iterations of the `while` loop is never reached: with more
iterations allowed than the clock has answers, the result is the same for every
bound. -/
theorem fallbackWhile_fuel (N : Nat) :
    ∀ (fuel fuel' : Nat) (clock : List Bool) (st : FallbackState),
      clock.length < fuel → clock.length < fuel' →
      fallbackWhile N fuel clock st = fallbackWhile N fuel' clock st := by
  intro fuel
  induction fuel with
  | zero => intro fuel' clock st h; omega
  | succ fuel ih =>
    intro fuel' clock st h h'
    rcases fuel' with _ | fuel'
    · omega
    · rcases clock with _ | ⟨b, clock⟩
      · simp [fallbackWhile]
      · simp only [fallbackWhile]
        split
        · have hl := fallbackBody_clock_length N clock st
          simp only [List.length_cons] at h h'
          exact ih fuel' _ _ (by omega) (by omega)
        · rfl

theorem mem_primesUpTo (N p : Nat) : p ∈ primesUpTo N ↔ Nat.Prime p ∧ 2 ≤ p ∧ p ≤ N := by
  simp only [primesUpTo, List.mem_filter, List.mem_range, decide_eq_true_eq]
  constructor
  · rintro ⟨h1, h2⟩
    exact ⟨h2, h2.two_le, by omega⟩
  · rintro ⟨h1, -, h3⟩
    exact ⟨by omega, h1⟩

theorem primesUpTo_sorted (N : Nat) : (primesUpTo N).Sorted (· < ·) :=
  (List.sorted_lt_range (N + 1)).filter _

/-- C28: for every `N ≥ 2` the worker ends its two loops and posts the message whose
`count` is the number of primes `p` with `2 ≤ p ≤ N` and whose `last` holds the
`min(10, count)` largest of these primes in ascending order; this is the message for
every integral `e.data.max` with `e.data.max|0 = N`. -/
theorem worker_reports_primes (N : Nat) (hN : 2 ≤ N) :
    runWorker N = some (expectedReport N) ∧
      (∀ max : Int, toInt32 max = (N : Int) →
        workerOnMessage max = Except.ok (some (expectedReport N))) ∧
      (∀ p, p ∈ primesUpTo N ↔ Nat.Prime p ∧ 2 ≤ p ∧ p ≤ N) ∧
      (primesUpTo N).Sorted (· < ·) ∧
      (expectedReport N).count = (primesUpTo N).length ∧
      (expectedReport N).last.length = min 10 (expectedReport N).count ∧
      (expectedReport N).last <:+ primesUpTo N := by
  have hw := runWorker_eq_expected N (by omega)
  refine ⟨hw, ?_, mem_primesUpTo N, primesUpTo_sorted N, rfl, ?_, List.drop_suffix _ _⟩
  · intro max hmax
    have hnn : ¬ ((N : Int) + 1 < 0) := by omega
    simp [workerOnMessage, hmax, hnn, hw]
  · simp only [expectedReport, List.length_drop]
    omega

/-- C28 at `N = 30`: ten primes, all of them in `last`. -/
theorem worker_reports_primes_witness :
    2 ≤ 30 ∧ runWorker 30 = some (expectedReport 30) ∧
      runWorker 30 = some { count := 10, last := [2, 3, 5, 7, 11, 13, 17, 19, 23, 29] } :=
  ⟨by decide, (worker_reports_primes 30 (by decide)).1, by decide⟩

/-- C29: for every `N ≥ 2` and every way the time tests cut the work into slices, in
the middle of the marking of the multiples of one prime included: a run of the
fallback that finishes writes the count and the last primes that the worker posts for
that `N`; and a run finishes, with that result, whenever every slice allows progress
and there are more slices than `(N - 1) * (N + 2) + N + 1`. -/
theorem fallback_agrees_with_worker (N : Nat) (hN : 2 ≤ N) (clocks : List (List Bool)) :
    (∀ r, fallback N clocks = some r → runWorker N = some r) ∧
      ((∀ c ∈ clocks, allowsProgress c = true) →
        (N - 1) * (N + 2) + N + 1 < clocks.length →
        ∃ r, fallback N clocks = some r ∧ runWorker N = some r) := by
  have hw := runWorker_eq_expected N (by omega)
  have h0 := HeadInv.at_start N (by omega)
  have hpart : ∀ r, fallback N clocks = some r → runWorker N = some r := by
    intro r hr
    rw [hw, fallbackRun_report N clocks _ r h0 hr]
  refine ⟨hpart, fun hall hlen => ?_⟩
  have hm : fallbackMeasure N { i := 2, j := 0, count := 0, sieve := emptySieve } =
      (N - 1) * (N + 2) + N + 1 := by
    have : N + 1 - 2 = N - 1 := by omega
    simp [fallbackMeasure, this]
    omega
  obtain ⟨r, hr⟩ := fallbackRun_finishes N clocks _ h0 hall (by rw [hm]; exact hlen)
  exact ⟨r, hr, hpart r hr⟩

/-- C29 at `N = 30`, with slices that stop in the middle of the marking of the
multiples of 2 and of 3. -/
theorem fallback_agrees_with_worker_witness :
    2 ≤ 30 ∧
      fallback 30 [[true, true, true], [true, false], [false], [true, true, true, false],
        List.replicate 100 true] =
        some { count := 10, last := [2, 3, 5, 7, 11, 13, 17, 19, 23, 29] } ∧
      runWorker 30 = some { count := 10, last := [2, 3, 5, 7, 11, 13, 17, 19, 23, 29] } :=
  ⟨by decide, by decide,
    (fallback_agrees_with_worker 30 (by decide)
      [[true, true, true], [true, false], [false], [true, true, true, false],
        List.replicate 100 true]).1 _ (by decide)⟩

end EffectsLab
